import Mathlib

/-!
Hafnium core: CPU registry, vCPU state machine, stage-2 fault classification.

A shallow embedding of `src/cpu.c`.

Conventions of the embedding.

* Pointers into the static arrays are array indices: a `struct cpu *` is a slot
  index into `cpus`, a `struct vcpu *` is a pair (VM, index into `vm->vcpus`).
* A run that does not return normally (a failed `CHECK`, an access outside an
  array, a dereference of `NULL`) is `none`.
* Spinlocks delimit critical sections; the semantics is the serialised one, in
  which every lock is free at each call boundary, so lock fields carry no data.
* Machine integers are natural numbers; truncations and wrap-around are
  written out where the C code has them.
* Code and constants that `cpu.c` uses but that live in files outside `src/`
  (the architecture layer, the page-table layer, `hf/addr.h`, build constants)
  are the fields of `Platform`; every theorem holds for every platform.
-/

namespace Hafnium

/-- The largest value of a `uint16_t`. -/
def UINT16_MAX : Nat := 65535

/-- Modelled from the spec: the external collaborators of `cpu.c` whose code is
absent from `src/`: the architecture layer's register file with
`arch_regs_reset` and `arch_regs_set_pc_arg` (declared in
`inc/hf/arch/cpu.h`), the second-stage page table with its root and its query
`mm_vm_get_mode` (`none` when the query reports failure), `ipa_add` of
`hf/addr.h`, and the constants `MM_MODE_INVALID` and `HF_PRIMARY_VM_ID`. They
are "invoked as opaque operations, never inspected internally". -/
structure Platform where
  arch_regs : Type
  mm_ptable : Type
  regs_zero : arch_regs
  arch_regs_reset : arch_regs → Bool → Nat → Nat → Nat → arch_regs
  arch_regs_set_pc_arg : arch_regs → Nat → Nat → arch_regs
  ptable_root : mm_ptable → Nat
  mm_vm_get_mode : mm_ptable → Nat → Nat → Option Nat
  ipa_add : Nat → Nat → Nat
  MM_MODE_INVALID : Nat
  HF_PRIMARY_VM_ID : Nat

/-- The enumeration `enum vcpu_state`, with the six enumerators that the switch
of `vcpu_is_off` lists. -/
inductive vcpu_state where
  | VCPU_STATE_OFF
  | VCPU_STATE_READY
  | VCPU_STATE_RUNNING
  | VCPU_STATE_BLOCKED_MAILBOX
  | VCPU_STATE_BLOCKED_INTERRUPT
  | VCPU_STATE_ABORTED
  deriving DecidableEq, Repr

open vcpu_state

/-- The fields of `struct vcpu` that `cpu.c` reads or writes. The back
reference `vcpu->vm` is the VM whose `vcpus` array holds the vCPU. -/
structure vcpu (P : Platform) where
  state : vcpu_state
  regs : P.arch_regs
  regs_available : Bool

/-- The fields of `struct vm` (`inc/hf/vm.h`) that `cpu.c` reads or writes. -/
structure vm (P : Platform) where
  id : Nat
  vcpu_count : Nat
  vcpus : List (vcpu P)
  ptable : P.mm_ptable
  aborting : Bool

/-- The fields of `struct cpu`; `stack_bottom` is `some i` for the address
`&callstacks[i][STACK_SIZE]` and `none` for a null pointer. -/
structure cpu where
  id : Nat
  stack_bottom : Option Nat
  is_on : Bool
  deriving DecidableEq, Repr

/-- The fields of `struct vcpu_fault_info` used by `vcpu_handle_page_fault`. -/
structure vcpu_fault_info where
  ipaddr : Nat
  vaddr : Nat
  pc : Nat
  mode : Nat
  deriving DecidableEq, Repr

/-- The global state: the array `cpus`, the counter `cpu_count` and the VM
registry. -/
structure State (P : Platform) where
  cpus : List cpu
  cpu_count : Nat
  vms : List (vm P)

/-! ## vCPU state machine -/

/-- The function `vcpu_init`: the vCPU is zeroed, its registers are marked
available and its state is `VCPU_STATE_OFF`. -/
def vcpu_init (P : Platform) : vcpu P :=
  { state := VCPU_STATE_OFF, regs := P.regs_zero, regs_available := true }

/-- The function `vcpu_on`: sets program counter and argument, and moves the
vCPU to `VCPU_STATE_READY`. -/
def vcpu_on (P : Platform) (vc : vcpu P) (entry arg : Nat) : vcpu P :=
  { vc with regs := P.arch_regs_set_pc_arg vc.regs entry arg, state := VCPU_STATE_READY }

/-- The function `vcpu_index`: the position of the vCPU in its VM's array,
with `CHECK(index < UINT16_MAX)`. -/
def vcpu_index (index : Nat) : Option Nat :=
  if index < UINT16_MAX then some index else none

/-- The function `vcpu_is_off`: the switch over the state. -/
def vcpu_is_off {P : Platform} (vc : vcpu P) : Bool :=
  match vc.state with
  | VCPU_STATE_OFF => true
  | VCPU_STATE_READY => false
  | VCPU_STATE_RUNNING => false
  | VCPU_STATE_BLOCKED_MAILBOX => false
  | VCPU_STATE_BLOCKED_INTERRUPT => false
  | VCPU_STATE_ABORTED => false

/-- The function `vcpu_secondary_reset_and_start`, for the vCPU at position `i`
of the VM `v`. Returns the flag `vcpu_was_off` and the VM afterwards. -/
def vcpu_secondary_reset_and_start (P : Platform) (v : vm P) (i : Nat)
    (entry arg : Nat) : Option (Bool × vm P) :=
  if v.id = P.HF_PRIMARY_VM_ID then none
  else
    match v.vcpus[i]? with
    | none => none
    | some vc =>
      if vcpu_is_off vc then
        match vcpu_index i with
        | none => none
        | some idx =>
          let vc1 : vcpu P :=
            { vc with regs := P.arch_regs_reset vc.regs false v.id idx (P.ptable_root v.ptable) }
          some (true, { v with vcpus := v.vcpus.set i (vcpu_on P vc1 entry arg) })
      else some (false, v)

/-- A serialisation of calls of `vcpu_secondary_reset_and_start` on the vCPU
`i` of `v`, one call per `(entry, arg)` pair; collects each call's return value
together with the VM right after that call. -/
def secondary_calls (P : Platform) (i : Nat) :
    vm P → List (Nat × Nat) → Option (List (Bool × vm P))
  | _, [] => some []
  | v, (entry, arg) :: rest =>
    match vcpu_secondary_reset_and_start P v i entry arg with
    | none => none
    | some (r, v1) =>
      match secondary_calls P i v1 rest with
      | none => none
      | some trace => some ((r, v1) :: trace)

/-- A VM record is well formed when `vcpu_count` fits its 16-bit type and does
not exceed the capacity of the `vcpus` array. -/
def vm_wf {P : Platform} (v : vm P) : Prop :=
  v.vcpu_count ≤ UINT16_MAX ∧ v.vcpu_count ≤ v.vcpus.length

instance {P : Platform} (v : vm P) : Decidable (vm_wf v) :=
  inferInstanceAs (Decidable (_ ∧ _))

/-! ## Stage-2 fault classification -/

/-- The function `vcpu_handle_page_fault` for the vCPU at position `i` of the
VM `v`. The diagnostic of the "do not resume" branch evaluates
`vcpu_index(current)`. -/
def vcpu_handle_page_fault (P : Platform) (v : vm P) (i : Nat)
    (f : vcpu_fault_info) : Option Bool :=
  let mask := f.mode ||| P.MM_MODE_INVALID
  let resume : Bool :=
    match P.mm_vm_get_mode v.ptable f.ipaddr (P.ipa_add f.ipaddr 1) with
    | none => false
    | some mode => decide (mode &&& mask = f.mode)
  if !resume then
    match vcpu_index i with
    | none => none
    | some _ => some resume
  else some resume

/-! ## CPU registry -/

/-- The statically initialised array `cpus` of `max_cpus` slots: slot 0 is on
and owns the first call stack, every other slot is zero. The id of slot 0 is
`boot_id` (zero in the image, the boot core's id once the entry code has
stored it). -/
def cpus_static (max_cpus boot_id : Nat) : List cpu :=
  match max_cpus with
  | 0 => []
  | n + 1 =>
    { id := boot_id, stack_bottom := some 0, is_on := true } ::
      List.replicate n { id := 0, stack_bottom := none, is_on := false }

/-- The registry before `cpu_module_init`: the static `cpus`, `cpu_count = 1`. -/
def state_static (P : Platform) (max_cpus boot_id : Nat) (vms : List (vm P)) : State P :=
  { cpus := cpus_static max_cpus boot_id, cpu_count := 1, vms := vms }

/-- The loop of `cpu_module_init`, `n` iterations starting at index `i`. The
loop state is `(j, found_boot_cpu, cpus)`; `j` is a `uint32_t`. -/
def cpu_module_init_loop (boot_cpu_id : Nat) (cpu_ids : List Nat) :
    Nat → Nat → Nat → Bool → List cpu → Option (Nat × Bool × List cpu)
  | 0, _, j, found_boot_cpu, cpus => some (j, found_boot_cpu, cpus)
  | n + 1, i, j, found_boot_cpu, cpus =>
    match cpu_ids[i]? with
    | none => none
    | some id =>
      if found_boot_cpu || id != boot_cpu_id then
        let j1 := (j + 2 ^ 32 - 1) % 2 ^ 32
        match cpus[j1]? with
        | none => none
        | some c =>
          cpu_module_init_loop boot_cpu_id cpu_ids n (i + 1) j1 found_boot_cpu
            (cpus.set j1 { c with id := id, stack_bottom := some i })
      else
        match cpus[0]? with
        | none => none
        | some c =>
          cpu_module_init_loop boot_cpu_id cpu_ids n (i + 1) j true
            (cpus.set 0 { c with id := id, stack_bottom := some i })

/-- The function `cpu_module_init`; `cpu_count` is a `uint32_t`. -/
def cpu_module_init {P : Platform} (s : State P) (cpu_ids : List Nat) (count : Nat) :
    Option (State P) :=
  match s.cpus[0]? with
  | none => none
  | some c0 =>
    let boot_cpu_id := c0.id
    let cpu_count := count % 2 ^ 32
    match cpu_module_init_loop boot_cpu_id cpu_ids cpu_count 0 cpu_count false s.cpus with
    | none => none
    | some (_, found_boot_cpu, cpus) =>
      if !found_boot_cpu then
        match cpus[0]? with
        | none => none
        | some c => some { s with cpus := cpus.set 0 { c with id := boot_cpu_id }, cpu_count := cpu_count }
      else some { s with cpus := cpus, cpu_count := cpu_count }

/-- The function `cpu_index`: the slot index of a core. -/
def cpu_index (c : Nat) : Nat := c

/-- The loop of `cpu_find`, `n` iterations starting at index `i`; the result
`some none` is the `NULL` return. -/
def cpu_find_loop (cpus : List cpu) (id : Nat) : Nat → Nat → Option (Option Nat)
  | 0, _ => some none
  | n + 1, i =>
    match cpus[i]? with
    | none => none
    | some c => if c.id = id then some (some i) else cpu_find_loop cpus id n (i + 1)

/-- The function `cpu_find`. -/
def cpu_find {P : Platform} (s : State P) (id : Nat) : Option (Option Nat) :=
  cpu_find_loop s.cpus id s.cpu_count 0

/-- Modelled from the spec: `vm_find` of `src/vm.c` (absent from `src/`), the
lookup of a VM by its unique id; scans the registry from position `k`. -/
def vm_find_from {P : Platform} (id : Nat) : List (vm P) → Nat → Option Nat
  | [], _ => none
  | v :: rest, k => if v.id = id then some k else vm_find_from id rest (k + 1)

/-- Modelled from the spec: `vm_find` of `src/vm.c` (absent from `src/`):
returns the registry position of the VM with the given id, `none` for `NULL`. -/
def vm_find {P : Platform} (s : State P) (id : Nat) : Option Nat :=
  vm_find_from id s.vms 0

/-- Modelled from the spec: `vm_get_vcpu` of `src/vm.c` (absent from `src/`), a
bounds-checked lookup: an index that is not below `vcpu_count` is a contract
violation and halts. -/
def vm_get_vcpu {P : Platform} (v : vm P) (vcpu_index : Nat) : Option Nat :=
  if vcpu_index < v.vcpu_count then some vcpu_index else none

/-- The function `cpu_on` for the core in slot `c`; the index passed to
`vm_get_vcpu` is converted to the 16-bit `spci_vcpu_index_t`. -/
def cpu_on (P : Platform) (s : State P) (c : Nat) (entry arg : Nat) :
    Option (Bool × State P) :=
  match s.cpus[c]? with
  | none => none
  | some cc =>
    let prev := cc.is_on
    let s1 : State P := { s with cpus := s.cpus.set c { cc with is_on := true } }
    if !prev then
      match vm_find s1 P.HF_PRIMARY_VM_ID with
      | none => none
      | some k =>
        match s1.vms[k]? with
        | none => none
        | some v =>
          match vm_get_vcpu v (cpu_index c % 2 ^ 16) with
          | none => none
          | some i =>
            match v.vcpus[i]? with
            | none => none
            | some vc =>
              some (prev, { s1 with
                vms := s1.vms.set k { v with vcpus := v.vcpus.set i (vcpu_on P vc entry arg) } })
    else some (prev, s1)

/-- The function `cpu_off`. -/
def cpu_off {P : Platform} (s : State P) (c : Nat) : Option (State P) :=
  match s.cpus[c]? with
  | none => none
  | some cc => some { s with cpus := s.cpus.set c { cc with is_on := false } }

/-! ## Single operations of the core, as steps on the global state -/

/-- One call of an operation of `cpu.c`: `cpu_on`, `cpu_off`,
`vcpu_secondary_reset_and_start` (on vCPU `i` of the VM at registry position
`k`) and `vcpu_handle_page_fault` (for vCPU `i` of the VM at position `k`). -/
inductive core_op where
  | op_cpu_on (c entry arg : Nat)
  | op_cpu_off (c : Nat)
  | op_secondary_start (k i entry arg : Nat)
  | op_page_fault (k i : Nat) (f : vcpu_fault_info)

/-- The global state after one operation, when the operation returns. -/
def core_step (P : Platform) (s : State P) : core_op → Option (State P)
  | core_op.op_cpu_on c entry arg =>
    match cpu_on P s c entry arg with
    | none => none
    | some (_, s1) => some s1
  | core_op.op_cpu_off c => cpu_off s c
  | core_op.op_secondary_start k i entry arg =>
    match s.vms[k]? with
    | none => none
    | some v =>
      match vcpu_secondary_reset_and_start P v i entry arg with
      | none => none
      | some (_, v1) => some { s with vms := s.vms.set k v1 }
  | core_op.op_page_fault k i f =>
    match s.vms[k]? with
    | none => none
    | some v =>
      match vcpu_handle_page_fault P v i f with
      | none => none
      | some _ => some s

/-- The state tag of vCPU `i` of the VM at registry position `k`. -/
def vcpu_state_at {P : Platform} (s : State P) (k i : Nat) : Option vcpu_state :=
  match s.vms[k]? with
  | none => none
  | some v =>
    match v.vcpus[i]? with
    | none => none
    | some vc => some vc.state

/-- The slot index chosen for `c` in each iteration of the loop of
`cpu_module_init` (`--j`, or 0 when the boot id is found), `n` iterations
starting at index `i`. -/
def cpu_module_init_slots_written (boot_cpu_id : Nat) (cpu_ids : List Nat) :
    Nat → Nat → Nat → Bool → Option (List Nat)
  | 0, _, _, _ => some []
  | n + 1, i, j, found_boot_cpu =>
    match cpu_ids[i]? with
    | none => none
    | some id =>
      if found_boot_cpu || id != boot_cpu_id then
        let j1 := (j + 2 ^ 32 - 1) % 2 ^ 32
        match cpu_module_init_slots_written boot_cpu_id cpu_ids n (i + 1) j1 found_boot_cpu with
        | none => none
        | some rest => some (j1 :: rest)
      else
        match cpu_module_init_slots_written boot_cpu_id cpu_ids n (i + 1) j true with
        | none => none
        | some rest => some (0 :: rest)

/-- The slot indices that `cpu_module_init` writes, in the order of the loop
iterations. -/
def cpu_module_init_trace {P : Platform} (s : State P) (cpu_ids : List Nat) (count : Nat) :
    Option (List Nat) :=
  match s.cpus[0]? with
  | none => none
  | some c0 =>
    let cpu_count := count % 2 ^ 32
    cpu_module_init_slots_written c0.id cpu_ids cpu_count 0 cpu_count false

/-- The stores of the loop body of `cpu_module_init` (`c->id = id` and
`c->stack_bottom = &callstacks[i][STACK_SIZE]`) done for a given list of slot
indices, one per iteration, starting at iteration `i`. -/
def cpu_module_init_replay (cpu_ids : List Nat) : List Nat → Nat → List cpu → Option (List cpu)
  | [], _, cpus => some cpus
  | slot :: rest, i, cpus =>
    match cpu_ids[i]? with
    | none => none
    | some id =>
      match cpus[slot]? with
      | none => none
      | some c =>
        cpu_module_init_replay cpu_ids rest (i + 1)
          (cpus.set slot { c with id := id, stack_bottom := some i })

/-! ## Manifest parsing (`src/manifest.c`) -/

/-- The enumeration `enum manifest_return_code`, with the enumerators that the
switch of `manifest_strerror` lists. -/
inductive manifest_return_code where
  | MANIFEST_SUCCESS
  | MANIFEST_ERROR_NO_HYPERVISOR_FDT_NODE
  | MANIFEST_ERROR_NOT_COMPATIBLE
  | MANIFEST_ERROR_RESERVED_VM_ID
  | MANIFEST_ERROR_NO_PRIMARY_VM
  | MANIFEST_ERROR_TOO_MANY_VMS
  | MANIFEST_ERROR_PROPERTY_NOT_FOUND
  | MANIFEST_ERROR_MALFORMED_STRING
  | MANIFEST_ERROR_STRING_TOO_LONG
  | MANIFEST_ERROR_MALFORMED_STRING_LIST
  | MANIFEST_ERROR_MALFORMED_INTEGER
  | MANIFEST_ERROR_INTEGER_OVERFLOW
  deriving DecidableEq, Repr

open manifest_return_code

/-- Modelled from the spec: what `manifest.c` uses from files outside `src/`.
The device tree of `hf/fdt.h`: the node type, `fdt_find_child` (`none` when it
returns false, otherwise the child that the node is moved to),
`fdt_read_property` (`none` when it returns false, otherwise the `size` bytes
of the value) and `fdt_parse_number` (`none` when it returns false). A name is
a C string, given by its bytes before the terminator. The build constants
`MAX_VMS`, `HF_VM_ID_OFFSET`, `HF_PRIMARY_VM_ID` and the sizes of the arrays
`debug_name` and `kernel_filename` of `struct manifest_vm`. -/
structure Fdt where
  fdt_node : Type
  fdt_find_child : fdt_node → List Nat → Option fdt_node
  fdt_read_property : fdt_node → List Nat → Option (List Nat)
  fdt_parse_number : List Nat → Option Nat
  MAX_VMS : Nat
  HF_VM_ID_OFFSET : Nat
  HF_PRIMARY_VM_ID : Nat
  debug_name_size : Nat
  kernel_filename_size : Nat

/-- The bytes of the string literal "hypervisor". -/
def str_hypervisor : List Nat := [104, 121, 112, 101, 114, 118, 105, 115, 111, 114]

/-- The bytes of the string literal "compatible". -/
def str_compatible : List Nat := [99, 111, 109, 112, 97, 116, 105, 98, 108, 101]

/-- The bytes of the string literal "hafnium,hafnium". -/
def str_hafnium : List Nat :=
  [104, 97, 102, 110, 105, 117, 109, 44, 104, 97, 102, 110, 105, 117, 109]

/-- The bytes of the string literal "debug_name". -/
def str_debug_name : List Nat := [100, 101, 98, 117, 103, 95, 110, 97, 109, 101]

/-- The bytes of the string literal "kernel_filename". -/
def str_kernel_filename : List Nat :=
  [107, 101, 114, 110, 101, 108, 95, 102, 105, 108, 101, 110, 97, 109, 101]

/-- The bytes of the string literal "mem_size". -/
def str_mem_size : List Nat := [109, 101, 109, 95, 115, 105, 122, 101]

/-- The bytes of the string literal "vcpu_count". -/
def str_vcpu_count : List Nat := [118, 99, 112, 117, 95, 99, 111, 117, 110, 116]

/-- The constant `VM_NAME_BUF_SIZE`: "vm" + number + null terminator. -/
def VM_NAME_BUF_SIZE : Nat := 2 + 5 + 1

/-- A store `*p = b` through a pointer into a buffer, `p` being the offset from
the start of the buffer; a store outside the buffer does not return. -/
def buf_store (buf : List Nat) (p : Nat) (b : Nat) : Option (List Nat) :=
  if p < buf.length then some (buf.set p b) else none

/-- The do-while loop of `generate_vm_node_name`; `ptr` is the offset of the
pointer from `buf`. With `ptr = 0` the decrement `--ptr` leaves the buffer. -/
def generate_vm_node_name_loop : List Nat → Nat → Nat → Option (Nat × List Nat)
  | _, 0, _ => none
  | buf, ptr + 1, vm_id =>
    match buf_store buf ptr (48 + vm_id % 10) with
    | none => none
    | some buf1 =>
      if vm_id / 10 ≠ 0 then generate_vm_node_name_loop buf1 ptr (vm_id / 10)
      else some (ptr, buf1)

/-- The function `generate_vm_node_name`: returns the offset of the returned
pointer from `buf` and the buffer afterwards. -/
def generate_vm_node_name (buf : List Nat) (vm_id : Nat) : Option (Nat × List Nat) :=
  match buf_store buf (VM_NAME_BUF_SIZE - 1) 0 with
  | none => none
  | some buf1 =>
    match generate_vm_node_name_loop buf1 (VM_NAME_BUF_SIZE - 1) vm_id with
    | none => none
    | some (ptr, buf2) =>
      match ptr with
      | 0 => none
      | ptr1 + 1 =>
        match buf_store buf2 ptr1 109 with
        | none => none
        | some buf3 =>
          match ptr1 with
          | 0 => none
          | ptr2 + 1 =>
            match buf_store buf3 ptr2 118 with
            | none => none
            | some buf4 => some (ptr2, buf4)

/-- The C string that starts at offset `ptr` of a buffer: the bytes before the
first NUL. -/
def c_string (buf : List Nat) (ptr : Nat) : List Nat :=
  (buf.drop ptr).takeWhile (fun b => b != 0)

/-- The library function `memchr(data, c, size)` over the `size` bytes of
`data`: the offset of the first byte equal to `c`, `none` for `NULL`. -/
def memchr : List Nat → Nat → Option Nat
  | [], _ => none
  | b :: rest, c =>
    if b = c then some 0
    else
      match memchr rest c with
      | none => none
      | some k => some (k + 1)

/-- The value of `size - 1` for a `uint32_t size`. -/
def size_minus_one (size : Nat) : Nat :=
  if size = 0 then 2 ^ 32 - 1 else size - 1

/-- Modelled from the spec: `memcpy_s(out, out_sz, data, size)` of `hf/std.h`
(absent from `src/`) with `size ≤ out_sz`: the first `size` bytes of `out`
become the bytes of `data`. -/
def memcpy_s (out data : List Nat) : List Nat :=
  data ++ out.drop data.length

/-- The function `extract_string`; `size` is the length of `data`. Returns the
code and the buffer `out` afterwards. -/
def extract_string (data out : List Nat) (out_sz : Nat) :
    manifest_return_code × List Nat :=
  if memchr data 0 ≠ some (size_minus_one data.length) then
    (MANIFEST_ERROR_MALFORMED_STRING, out)
  else if data.length > out_sz then (MANIFEST_ERROR_STRING_TOO_LONG, out)
  else (MANIFEST_SUCCESS, memcpy_s out data)

/-- The function `read_string`. -/
def read_string (F : Fdt) (node : F.fdt_node) (property out : List Nat) (out_sz : Nat) :
    manifest_return_code × List Nat :=
  match F.fdt_read_property node property with
  | none => (MANIFEST_ERROR_PROPERTY_NOT_FOUND, out)
  | some data => extract_string data out out_sz

/-- The function `read_optional_string`. -/
def read_optional_string (F : Fdt) (node : F.fdt_node) (property out : List Nat)
    (out_sz : Nat) : manifest_return_code × List Nat :=
  match F.fdt_read_property node property with
  | none =>
    if out_sz < 1 then (MANIFEST_ERROR_STRING_TOO_LONG, out)
    else (MANIFEST_SUCCESS, out.set 0 0)
  | some data => extract_string data out out_sz

/-- The function `read_uint64`; `out` is the value stored at `*out` before the
call, the second component the value afterwards. -/
def read_uint64 (F : Fdt) (node : F.fdt_node) (property : List Nat) (out : Nat) :
    manifest_return_code × Nat :=
  match F.fdt_read_property node property with
  | none => (MANIFEST_ERROR_PROPERTY_NOT_FOUND, out)
  | some data =>
    match F.fdt_parse_number data with
    | none => (MANIFEST_ERROR_MALFORMED_INTEGER, out)
    | some value => (MANIFEST_SUCCESS, value)

/-- The function `read_uint16`. -/
def read_uint16 (F : Fdt) (node : F.fdt_node) (property : List Nat) (out : Nat) :
    manifest_return_code × Nat :=
  match read_uint64 F node property 0 with
  | (MANIFEST_SUCCESS, value) =>
    if value > UINT16_MAX then (MANIFEST_ERROR_INTEGER_OVERFLOW, out)
    else (MANIFEST_SUCCESS, value % 2 ^ 16)
  | (ret_code, _) => (ret_code, out)

/-- The function `read_stringlist`. The iterator is the list of the bytes that
are left, `memiter_init(&out->mem_it, data, size - 1)`; the read of
`data[size - 1]` outside the value does not return. -/
def read_stringlist (F : Fdt) (node : F.fdt_node) (property : List Nat) :
    Option (manifest_return_code × List Nat) :=
  match F.fdt_read_property node property with
  | none => some (MANIFEST_ERROR_PROPERTY_NOT_FOUND, [])
  | some data =>
    match data[size_minus_one data.length]? with
    | none => none
    | some b =>
      if b ≠ 0 then some (MANIFEST_ERROR_MALFORMED_STRING_LIST, [])
      else some (MANIFEST_SUCCESS, data.take (data.length - 1))

/-- The function `stringlist_has_next`. -/
def stringlist_has_next (list : List Nat) : Bool :=
  decide (list.length > 0)

/-- The function `stringlist_get_next`: returns the entry and the iterator
afterwards; the `CHECK` fails on an iterator with nothing left. -/
def stringlist_get_next (list : List Nat) : Option (List Nat × List Nat) :=
  if stringlist_has_next list then
    match memchr list 0 with
    | none => some (list, list.drop list.length)
    | some entry_size => some (list.take entry_size, list.drop (entry_size + 1))
  else none

/-- Modelled from the spec: `memiter_iseq` of `hf/memiter.h` (absent from
`src/`): the bytes of the iterator are the bytes of the C string. -/
def memiter_iseq (entry str : List Nat) : Bool :=
  decide (entry = str)

/-- The while loop of `stringlist_contains`, with a bound on the number of
iterations; `none` when the bound is used up or a `CHECK` fails. -/
def stringlist_contains_loop (str : List Nat) : Nat → List Nat → Option Bool
  | 0, it => if stringlist_has_next it then none else some false
  | fuel + 1, it =>
    if stringlist_has_next it then
      match stringlist_get_next it with
      | none => none
      | some (entry, it1) =>
        if memiter_iseq entry str then some true
        else stringlist_contains_loop str fuel it1
    else some false

/-- The function `stringlist_contains`. Every iteration consumes at least one
byte, so the number of bytes bounds the number of iterations. -/
def stringlist_contains (list str : List Nat) : Option Bool :=
  stringlist_contains_loop str list.length list

/-- The structure `struct manifest_vm`. -/
structure manifest_vm where
  debug_name : List Nat
  kernel_filename : List Nat
  secondary_mem_size : Nat
  secondary_vcpu_count : Nat
  deriving DecidableEq, Repr

/-- The structure `struct manifest`. -/
structure manifest where
  vm_count : Nat
  vm : List manifest_vm
  deriving DecidableEq, Repr

/-- A zeroed `struct manifest_vm`. -/
def manifest_vm_zero (F : Fdt) : manifest_vm :=
  { debug_name := List.replicate F.debug_name_size 0,
    kernel_filename := List.replicate F.kernel_filename_size 0,
    secondary_mem_size := 0, secondary_vcpu_count := 0 }

/-- The manifest after `memset_s(manifest, sizeof(*manifest), 0, ...)`. -/
def manifest_zero (F : Fdt) : manifest :=
  { vm_count := 0, vm := List.replicate F.MAX_VMS (manifest_vm_zero F) }

/-- The function `parse_vm`: returns the code and the entry `*vm` afterwards. -/
def parse_vm (F : Fdt) (node : F.fdt_node) (vm : manifest_vm) (vm_id : Nat) :
    manifest_return_code × manifest_vm :=
  match read_string F node str_debug_name vm.debug_name F.debug_name_size with
  | (MANIFEST_SUCCESS, debug_name) =>
    let vm1 := { vm with debug_name := debug_name }
    match read_optional_string F node str_kernel_filename vm1.kernel_filename
        F.kernel_filename_size with
    | (MANIFEST_SUCCESS, kernel_filename) =>
      let vm2 := { vm1 with kernel_filename := kernel_filename }
      if vm_id ≠ F.HF_PRIMARY_VM_ID then
        match read_uint64 F node str_mem_size vm2.secondary_mem_size with
        | (MANIFEST_SUCCESS, mem_size) =>
          let vm3 := { vm2 with secondary_mem_size := mem_size }
          match read_uint16 F node str_vcpu_count vm3.secondary_vcpu_count with
          | (MANIFEST_SUCCESS, vcpu_count) =>
            (MANIFEST_SUCCESS, { vm3 with secondary_vcpu_count := vcpu_count })
          | (ret_code, vcpu_count) => (ret_code, { vm3 with secondary_vcpu_count := vcpu_count })
        | (ret_code, mem_size) => (ret_code, { vm2 with secondary_mem_size := mem_size })
      else (MANIFEST_SUCCESS, vm2)
    | (ret_code, kernel_filename) => (ret_code, { vm1 with kernel_filename := kernel_filename })
  | (ret_code, debug_name) => (ret_code, { vm with debug_name := debug_name })

/-- The first loop of `manifest_init`, over the reserved ids: `n` iterations
starting at `i`. Returns whether a node with a reserved id exists, and the
name buffer. -/
def manifest_init_reserved_loop (F : Fdt) (hyp_node : F.fdt_node) :
    Nat → Nat → List Nat → Option (Bool × List Nat)
  | 0, _, vm_name_buf => some (false, vm_name_buf)
  | n + 1, i, vm_name_buf =>
    let vm_id := i % 2 ^ 16
    match generate_vm_node_name vm_name_buf vm_id with
    | none => none
    | some (ptr, buf1) =>
      match F.fdt_find_child hyp_node (c_string buf1 ptr) with
      | some _ => some (true, buf1)
      | none => manifest_init_reserved_loop F hyp_node n (i + 1) buf1

/-- The end of `manifest_init`, after the loop over the VM nodes. -/
def manifest_init_finish (found_primary_vm : Bool) : manifest_return_code :=
  if !found_primary_vm then MANIFEST_ERROR_NO_PRIMARY_VM else MANIFEST_SUCCESS

/-- The second loop of `manifest_init`, over the VM nodes, together with the
end of the function: `n` iterations starting at `i`. -/
def manifest_init_vm_loop (F : Fdt) (hyp_node : F.fdt_node) :
    Nat → Nat → manifest → Bool → List Nat → Option (manifest_return_code × manifest)
  | 0, _, m, found_primary_vm, _ => some (manifest_init_finish found_primary_vm, m)
  | n + 1, i, m, found_primary_vm, vm_name_buf =>
    let vm_id := (F.HF_VM_ID_OFFSET + i) % 2 ^ 16
    match generate_vm_node_name vm_name_buf vm_id with
    | none => none
    | some (ptr, buf1) =>
      match F.fdt_find_child hyp_node (c_string buf1 ptr) with
      | none => some (manifest_init_finish found_primary_vm, m)
      | some vm_node =>
        if i = F.MAX_VMS then some (MANIFEST_ERROR_TOO_MANY_VMS, m)
        else if vm_id = F.HF_PRIMARY_VM_ID ∧ found_primary_vm = true then none
        else
          let found1 := found_primary_vm || decide (vm_id = F.HF_PRIMARY_VM_ID)
          let m1 : manifest := { m with vm_count := (i + 1) % 2 ^ 16 }
          match m1.vm[i]? with
          | none => none
          | some vm =>
            match parse_vm F vm_node vm vm_id with
            | (MANIFEST_SUCCESS, vm1) =>
              manifest_init_vm_loop F hyp_node n (i + 1) { m1 with vm := m1.vm.set i vm1 }
                found1 buf1
            | (ret_code, vm1) => some (ret_code, { m1 with vm := m1.vm.set i vm1 })

/-- The function `manifest_init`: returns the code and the manifest. The local
array `vm_name_buf` is written before it is read; it starts zeroed here. -/
def manifest_init (F : Fdt) (fdt_root : F.fdt_node) :
    Option (manifest_return_code × manifest) :=
  let m0 := manifest_zero F
  match F.fdt_find_child fdt_root str_hypervisor with
  | none => some (MANIFEST_ERROR_NO_HYPERVISOR_FDT_NODE, m0)
  | some hyp_node =>
    match read_stringlist F hyp_node str_compatible with
    | none => none
    | some (MANIFEST_SUCCESS, compatible_list) =>
      match stringlist_contains compatible_list str_hafnium with
      | none => none
      | some false => some (MANIFEST_ERROR_NOT_COMPATIBLE, m0)
      | some true =>
        match manifest_init_reserved_loop F hyp_node F.HF_VM_ID_OFFSET 0
            (List.replicate VM_NAME_BUF_SIZE 0) with
        | none => none
        | some (true, _) => some (MANIFEST_ERROR_RESERVED_VM_ID, m0)
        | some (false, vm_name_buf) =>
          manifest_init_vm_loop F hyp_node (F.MAX_VMS + 1) 0 m0 false vm_name_buf
    | some (ret_code, _) => some (ret_code, m0)

/-! ## The manifest in the words of the specification -/

/-- The decimal representation of a number without leading zeros ("0" for 0),
as ASCII bytes. -/
def decimal (n : Nat) : List Nat :=
  if n = 0 then [48] else ((Nat.digits 10 n).reverse).map (fun d => 48 + d)

/-- The node name of a VM: the two letters "vm" followed by the decimal
representation of the id. -/
def vm_node_name (vm_id : Nat) : List Nat :=
  118 :: 109 :: decimal vm_id

/-- The pieces of a byte string between its NUL bytes. -/
def split_at_nul : List Nat → List (List Nat)
  | [] => [[]]
  | b :: rest =>
    if b = 0 then [] :: split_at_nul rest
    else
      match split_at_nul rest with
      | [] => [[b]]
      | e :: es => (b :: e) :: es

/-- The entries of a string-list value: the final NUL is removed and the rest
is split at the NUL bytes. -/
def stringlist_entries (value : List Nat) : List (List Nat) :=
  split_at_nul value.dropLast

/-- The manifest that holds the given entries, followed by zeroed entries up
to `MAX_VMS`, with `vm_count` the number of the given entries. -/
def manifest_of (F : Fdt) (vms : List manifest_vm) : manifest :=
  { vm_count := vms.length,
    vm := vms ++ List.replicate (F.MAX_VMS - vms.length) (manifest_vm_zero F) }

/-- Whether the id of the primary VM is one of the ids `HF_VM_ID_OFFSET + i`
with `i < n`. -/
def primary_among (F : Fdt) (n : Nat) : Bool :=
  decide (F.HF_VM_ID_OFFSET ≤ F.HF_PRIMARY_VM_ID ∧
    F.HF_PRIMARY_VM_ID < F.HF_VM_ID_OFFSET + n)

/-! ## A concrete platform, for evaluating the definitions -/

/-- A small register file: program counter, argument and the values that the
reset stores. -/
structure demo_regs where
  pc : Nat
  arg : Nat
  vm_id : Nat
  vcpu_id : Nat
  table : Nat
  deriving DecidableEq, Repr

/-- A concrete platform: the page table is a list of `(address, mode)`
entries, the primary VM has id 0 and `MM_MODE_INVALID` is `0x10`. -/
def demo : Platform where
  arch_regs := demo_regs
  mm_ptable := Nat × List (Nat × Nat)
  regs_zero := ⟨0, 0, 0, 0, 0⟩
  arch_regs_reset := fun r _ vm_id vcpu_id table => ⟨r.pc, r.arg, vm_id, vcpu_id, table⟩
  arch_regs_set_pc_arg := fun r pc arg => { r with pc := pc, arg := arg }
  ptable_root := fun t => t.1
  mm_vm_get_mode := fun t b _ => (t.2.find? (fun e => e.1 == b)).map (fun e => e.2)
  ipa_add := fun a n => (a + n) % 2 ^ 64
  MM_MODE_INVALID := 16
  HF_PRIMARY_VM_ID := 0

/-- A secondary VM (id 1) with two vCPUs that are off. -/
def demo_vm : vm demo :=
  { id := 1, vcpu_count := 2, vcpus := [vcpu_init demo, vcpu_init demo],
    ptable := (4096, [(5, 1)]), aborting := false }

/-- A fault at address 5 whose access mode is empty. -/
def demo_fault_empty : vcpu_fault_info := { ipaddr := 5, vaddr := 5, pc := 0, mode := 0 }

/-- A read fault (mode bit 1) at address 5. -/
def demo_fault_read : vcpu_fault_info := { ipaddr := 5, vaddr := 5, pc := 0, mode := 1 }

/-- A write fault (mode bit 2) at address 5. -/
def demo_fault_write : vcpu_fault_info := { ipaddr := 5, vaddr := 5, pc := 0, mode := 2 }

/-- The primary VM (id 0) of the demo platform, with two vCPUs that are off. -/
def demo_primary : vm demo :=
  { id := 0, vcpu_count := 2, vcpus := [vcpu_init demo, vcpu_init demo],
    ptable := (8192, []), aborting := false }

/-- A registry of two cores (the boot core on, the other off) and two VMs. -/
def demo_state : State demo := state_static demo 2 0 [demo_primary, demo_vm]

/-- The demo registry with core 1 off, the primary VM aborting and its vCPU 1
aborted. -/
def demo_state_aborted : State demo :=
  { cpus := cpus_static 2 0, cpu_count := 1,
    vms := [{ demo_primary with
      aborting := true,
      vcpus := [vcpu_init demo, { vcpu_init demo with state := VCPU_STATE_ABORTED }] }, demo_vm] }

/-- A concrete device tree: a node has properties and named children. -/
inductive demo_tree where
  | node (props : List (List Nat × List Nat)) (children : List (List Nat × demo_tree))

/-- The child of a node with the given name. -/
def demo_tree.child : demo_tree → List Nat → Option demo_tree
  | demo_tree.node _ children, name =>
    match children.find? (fun c => c.1 == name) with
    | none => none
    | some c => some c.2

/-- The value of the property of a node with the given name. -/
def demo_tree.property : demo_tree → List Nat → Option (List Nat)
  | demo_tree.node props _, name =>
    match props.find? (fun p => p.1 == name) with
    | none => none
    | some p => some p.2

/-- A concrete manifest layer: numbers are big-endian cells of 4 or 8 bytes,
at most two VMs, VM ids start at 1 and the primary VM has id 1, names are held
in arrays of 4 bytes. -/
def demo_fdt : Fdt where
  fdt_node := demo_tree
  fdt_find_child := demo_tree.child
  fdt_read_property := demo_tree.property
  fdt_parse_number := fun d =>
    if d.length = 4 ∨ d.length = 8 then some (d.foldl (fun acc b => acc * 256 + b) 0)
    else none
  MAX_VMS := 2
  HF_VM_ID_OFFSET := 1
  HF_PRIMARY_VM_ID := 1
  debug_name_size := 4
  kernel_filename_size := 4

/-- The value of a "compatible" property with the single entry
"hafnium,hafnium". -/
def demo_compatible : List Nat := str_hafnium ++ [0]

/-- A primary VM node with the debug name "p". -/
def demo_vm_node_primary : demo_tree :=
  demo_tree.node [(str_debug_name, [112, 0])] []

/-- A secondary VM node with the debug name "s", 256 bytes of memory and one
vCPU. -/
def demo_vm_node_secondary : demo_tree :=
  demo_tree.node [(str_debug_name, [115, 0]), (str_mem_size, [0, 0, 1, 0]),
    (str_vcpu_count, [0, 0, 0, 1])] []

/-- A VM node without any property. -/
def demo_vm_node_empty : demo_tree := demo_tree.node [] []

/-- A secondary VM node whose debug name has no terminator and that has no
"mem_size" property. -/
def demo_vm_node_unterminated : demo_tree :=
  demo_tree.node [(str_debug_name, [115]), (str_vcpu_count, [0, 0, 0, 1])] []

/-- A compatible hypervisor node with the single VM node "vm1". -/
def demo_hyp_primary_only : demo_tree :=
  demo_tree.node [(str_compatible, demo_compatible)]
    [([118, 109, 49], demo_vm_node_primary)]

/-- A device tree with the hypervisor node `demo_hyp_primary_only`. -/
def demo_root_primary_only : demo_tree :=
  demo_tree.node [] [(str_hypervisor, demo_hyp_primary_only)]

/-- A compatible hypervisor node with the VM nodes "vm1", "vm2" and "vm3", the
first of which has no property. -/
def demo_hyp_three_vms : demo_tree :=
  demo_tree.node [(str_compatible, demo_compatible)]
    [([118, 109, 49], demo_vm_node_empty), ([118, 109, 50], demo_vm_node_secondary),
     ([118, 109, 51], demo_vm_node_secondary)]

/-- A device tree with the hypervisor node `demo_hyp_three_vms`. -/
def demo_root_three_vms : demo_tree :=
  demo_tree.node [] [(str_hypervisor, demo_hyp_three_vms)]

/-- A compatible hypervisor node with the well-formed VM nodes "vm1", "vm2"
and "vm3". -/
def demo_hyp_too_many : demo_tree :=
  demo_tree.node [(str_compatible, demo_compatible)]
    [([118, 109, 49], demo_vm_node_primary), ([118, 109, 50], demo_vm_node_secondary),
     ([118, 109, 51], demo_vm_node_secondary)]

/-- A device tree with the hypervisor node `demo_hyp_too_many`. -/
def demo_root_too_many : demo_tree :=
  demo_tree.node [] [(str_hypervisor, demo_hyp_too_many)]

/-- The manifest entry parsed from `demo_vm_node_primary`. -/
def demo_entry_primary : manifest_vm :=
  { debug_name := [112, 0, 0, 0], kernel_filename := [0, 0, 0, 0],
    secondary_mem_size := 0, secondary_vcpu_count := 0 }

/-- The manifest entry parsed from `demo_vm_node_secondary`. -/
def demo_entry_secondary : manifest_vm :=
  { debug_name := [115, 0, 0, 0], kernel_filename := [0, 0, 0, 0],
    secondary_mem_size := 256, secondary_vcpu_count := 1 }

/-- A device tree without a hypervisor node. -/
def demo_root_empty : demo_tree := demo_tree.node [] []

/-- A hypervisor node whose "compatible" property has the empty value. -/
def demo_hyp_empty_compatible : demo_tree :=
  demo_tree.node [(str_compatible, [])] [([118, 109, 49], demo_vm_node_primary)]

/-- A device tree with the hypervisor node `demo_hyp_empty_compatible`. -/
def demo_root_empty_compatible : demo_tree :=
  demo_tree.node [] [(str_hypervisor, demo_hyp_empty_compatible)]

/-! ## Theorems: vCPU state machine -/

theorem vcpu_is_off_eq {P : Platform} (vc : vcpu P) :
    vcpu_is_off vc = decide (vc.state = VCPU_STATE_OFF) := by
  unfold vcpu_is_off
  cases vc.state <;> rfl

theorem vcpu_index_of_lt {P : Platform} (v : vm P) (i : Nat) (hwf : vm_wf v)
    (hi : i < v.vcpu_count) : vcpu_index i = some i := by
  have h : i < UINT16_MAX := Nat.lt_of_lt_of_le hi hwf.1
  simp [vcpu_index, h]

/-- C10: `vcpu_is_off` is true exactly for `VCPU_STATE_OFF`; it is false for
each of READY, RUNNING, BLOCKED_MAILBOX, BLOCKED_INTERRUPT and ABORTED (so it
is defined on all six enumerators); a vCPU fresh from `vcpu_init` is off and a
vCPU after `vcpu_on` is not. -/
theorem vcpu_is_off_iff (P : Platform) :
    (∀ vc : vcpu P, vcpu_is_off vc = true ↔ vc.state = VCPU_STATE_OFF) ∧
    (∀ (r : P.arch_regs) (a : Bool),
      vcpu_is_off (P := P) ⟨VCPU_STATE_READY, r, a⟩ = false ∧
      vcpu_is_off (P := P) ⟨VCPU_STATE_RUNNING, r, a⟩ = false ∧
      vcpu_is_off (P := P) ⟨VCPU_STATE_BLOCKED_MAILBOX, r, a⟩ = false ∧
      vcpu_is_off (P := P) ⟨VCPU_STATE_BLOCKED_INTERRUPT, r, a⟩ = false ∧
      vcpu_is_off (P := P) ⟨VCPU_STATE_ABORTED, r, a⟩ = false) ∧
    (∀ vc : vcpu P, ∃ b : Bool, vcpu_is_off vc = b) ∧
    vcpu_is_off (vcpu_init P) = true ∧
    (∀ (vc : vcpu P) (entry arg : Nat), vcpu_is_off (vcpu_on P vc entry arg) = false) := by
  refine ⟨fun vc => ?_, fun r a => ⟨rfl, rfl, rfl, rfl, rfl⟩, fun vc => ⟨_, rfl⟩, rfl,
    fun vc entry arg => rfl⟩
  rw [vcpu_is_off_eq]
  simp

theorem secondary_start_off {P : Platform} (v : vm P) (i : Nat) (vc : vcpu P)
    (entry arg : Nat) (hid : v.id ≠ P.HF_PRIMARY_VM_ID) (hwf : vm_wf v)
    (hi : i < v.vcpu_count) (hvc : v.vcpus[i]? = some vc)
    (hoff : vc.state = VCPU_STATE_OFF) :
    vcpu_secondary_reset_and_start P v i entry arg =
      some (true, { v with vcpus := v.vcpus.set i (vcpu_on P
        { vc with regs := P.arch_regs_reset vc.regs false v.id i (P.ptable_root v.ptable) }
        entry arg) }) := by
  have hx : vcpu_is_off vc = true := by rw [vcpu_is_off_eq]; simp [hoff]
  simp [vcpu_secondary_reset_and_start, hid, hvc, hx, vcpu_index_of_lt v i hwf hi]

theorem secondary_start_on {P : Platform} (v : vm P) (i : Nat) (vc : vcpu P)
    (entry arg : Nat) (hid : v.id ≠ P.HF_PRIMARY_VM_ID)
    (hvc : v.vcpus[i]? = some vc) (hon : vc.state ≠ VCPU_STATE_OFF) :
    vcpu_secondary_reset_and_start P v i entry arg = some (false, v) := by
  have hx : vcpu_is_off vc = false := by rw [vcpu_is_off_eq]; simp [hon]
  simp [vcpu_secondary_reset_and_start, hid, hvc, hx]

theorem secondary_calls_on {P : Platform} (v : vm P) (i : Nat) (vc : vcpu P)
    (hid : v.id ≠ P.HF_PRIMARY_VM_ID) (hvc : v.vcpus[i]? = some vc)
    (hon : vc.state ≠ VCPU_STATE_OFF) (calls : List (Nat × Nat)) :
    secondary_calls P i v calls = some (calls.map (fun _ => (false, v))) := by
  induction calls with
  | nil => rfl
  | cons x rest ih =>
    obtain ⟨entry, arg⟩ := x
    simp [secondary_calls, secondary_start_on v i vc entry arg hid hvc hon, ih]

/-- C1: for a vCPU `i` of a non-primary VM, `vcpu_secondary_reset_and_start`
returns, and it returns true if and only if the vCPU's state before the call
is OFF; when it returns true the vCPU is READY afterwards and its register file
is the reset register file (for the VM's id, the vCPU's index and the VM's
page-table root) with program counter `entry` and argument `arg`; when it
returns false nothing has changed. -/
theorem vcpu_secondary_reset_and_start_spec (P : Platform) (v : vm P) (i : Nat)
    (vc : vcpu P) (entry arg : Nat) (hid : v.id ≠ P.HF_PRIMARY_VM_ID) (hwf : vm_wf v)
    (hi : i < v.vcpu_count) (hvc : v.vcpus[i]? = some vc) :
    ∃ (r : Bool) (v1 : vm P),
      vcpu_secondary_reset_and_start P v i entry arg = some (r, v1) ∧
      (r = true ↔ vc.state = VCPU_STATE_OFF) ∧
      (r = true → ∃ vc1 : vcpu P, v1.vcpus[i]? = some vc1 ∧
        vc1.state = VCPU_STATE_READY ∧
        vc1.regs = P.arch_regs_set_pc_arg
          (P.arch_regs_reset vc.regs false v.id i (P.ptable_root v.ptable)) entry arg) ∧
      (r = false → v1 = v) := by
  have hlen : i < v.vcpus.length := Nat.lt_of_lt_of_le hi hwf.2
  by_cases hoff : vc.state = VCPU_STATE_OFF
  · refine ⟨true, _, secondary_start_off v i vc entry arg hid hwf hi hvc hoff, by simp [hoff],
      fun _ => ⟨vcpu_on P
        { vc with regs := P.arch_regs_reset vc.regs false v.id i (P.ptable_root v.ptable) }
        entry arg, ?_, rfl, rfl⟩, by simp⟩
    simp [hlen]
  · exact ⟨false, v, secondary_start_on v i vc entry arg hid hvc hoff, by simp [hoff],
      by simp, fun _ => rfl⟩

/-- Witness of C1 on the demo VM. -/
theorem vcpu_secondary_reset_and_start_spec_witness :
    ∃ (r : Bool) (v1 : vm demo),
      vcpu_secondary_reset_and_start demo demo_vm 1 64 7 = some (r, v1) ∧
      (r = true ↔ (vcpu_init demo).state = VCPU_STATE_OFF) ∧
      (r = true → ∃ vc1 : vcpu demo, v1.vcpus[1]? = some vc1 ∧
        vc1.state = VCPU_STATE_READY ∧
        vc1.regs = demo.arch_regs_set_pc_arg
          (demo.arch_regs_reset (vcpu_init demo).regs false demo_vm.id 1
            (demo.ptable_root demo_vm.ptable)) 64 7) ∧
      (r = false → v1 = demo_vm) :=
  vcpu_secondary_reset_and_start_spec demo demo_vm 1 (vcpu_init demo) 64 7
    (by decide) (by decide) (by decide) rfl

/-- C2: starting from an OFF vCPU of a non-primary VM, in every sequence of
`n ≥ 1` calls of `vcpu_secondary_reset_and_start` on it (arbitrary entry and
argument per call) every call returns, the first call returns true, every
later call returns false and leaves the VM as the first call left it, and the
vCPU ends READY with the registers reset and then set to the entry and
argument of the first call. -/
theorem secondary_calls_exactly_once (P : Platform) (v : vm P) (i : Nat)
    (vc : vcpu P) (entry arg : Nat) (rest : List (Nat × Nat))
    (hid : v.id ≠ P.HF_PRIMARY_VM_ID) (hwf : vm_wf v) (hi : i < v.vcpu_count)
    (hvc : v.vcpus[i]? = some vc) (hoff : vc.state = VCPU_STATE_OFF) :
    ∃ (v1 : vm P) (vc1 : vcpu P),
      secondary_calls P i v ((entry, arg) :: rest) =
        some ((true, v1) :: rest.map (fun _ => (false, v1))) ∧
      v1.vcpus[i]? = some vc1 ∧
      vc1.state = VCPU_STATE_READY ∧
      vc1.regs = P.arch_regs_set_pc_arg
        (P.arch_regs_reset vc.regs false v.id i (P.ptable_root v.ptable)) entry arg := by
  have hlen : i < v.vcpus.length := Nat.lt_of_lt_of_le hi hwf.2
  have h2 := secondary_calls_on (P := P) { v with vcpus := v.vcpus.set i (vcpu_on P
    { vc with regs := P.arch_regs_reset vc.regs false v.id i (P.ptable_root v.ptable) }
    entry arg) } i (vcpu_on P
    { vc with regs := P.arch_regs_reset vc.regs false v.id i (P.ptable_root v.ptable) }
    entry arg) hid (by simp [hlen]) (by simp [vcpu_on]) rest
  refine ⟨{ v with vcpus := v.vcpus.set i (vcpu_on P
    { vc with regs := P.arch_regs_reset vc.regs false v.id i (P.ptable_root v.ptable) }
    entry arg) }, vcpu_on P
    { vc with regs := P.arch_regs_reset vc.regs false v.id i (P.ptable_root v.ptable) }
    entry arg, ?_, ?_, rfl, rfl⟩
  · simp only [secondary_calls, secondary_start_off v i vc entry arg hid hwf hi hvc hoff, h2]
  · simp [hlen]

/-- Witness of C2: three racing calls on vCPU 1 of the demo VM. -/
theorem secondary_calls_exactly_once_witness :
    ∃ (v1 : vm demo) (vc1 : vcpu demo),
      secondary_calls demo 1 demo_vm ((64, 7) :: [(80, 8), (96, 9)]) =
        some ((true, v1) :: [(80, 8), (96, 9)].map (fun _ => (false, v1))) ∧
      v1.vcpus[1]? = some vc1 ∧
      vc1.state = VCPU_STATE_READY ∧
      vc1.regs = demo.arch_regs_set_pc_arg
        (demo.arch_regs_reset (vcpu_init demo).regs false demo_vm.id 1
          (demo.ptable_root demo_vm.ptable)) 64 7 :=
  secondary_calls_exactly_once demo demo_vm 1 (vcpu_init demo) 64 7 [(80, 8), (96, 9)]
    (by decide) (by decide) (by decide) rfl rfl

/-! ## Theorems: stage-2 fault classification -/

theorem mode_disjoint_ne (M fm inv : Nat) (hdis : M &&& fm = 0) (hne : fm ≠ 0) :
    M &&& (fm ||| inv) ≠ fm := by
  intro h
  apply hne
  apply Nat.eq_of_testBit_eq
  intro k
  have h1 := congrArg (fun n => Nat.testBit n k) hdis
  have h2 := congrArg (fun n => Nat.testBit n k) h
  simp only [Nat.testBit_and, Nat.testBit_or, Nat.zero_testBit] at h1 h2 ⊢
  cases hM : M.testBit k <;> cases hf : fm.testBit k <;> simp_all

theorem mode_permitted_eq (M fm inv : Nat) (hperm : M &&& fm = fm) (hval : M &&& inv = 0) :
    M &&& (fm ||| inv) = fm := by
  apply Nat.eq_of_testBit_eq
  intro k
  have h1 := congrArg (fun n => Nat.testBit n k) hperm
  have h2 := congrArg (fun n => Nat.testBit n k) hval
  simp only [Nat.testBit_and, Nat.testBit_or, Nat.zero_testBit] at h1 h2 ⊢
  cases hM : M.testBit k <;> cases hf : fm.testBit k <;> simp_all

theorem page_fault_of_query {P : Platform} (v : vm P) (i : Nat) (f : vcpu_fault_info)
    (M : Nat) (hwf : vm_wf v) (hi : i < v.vcpu_count)
    (hq : P.mm_vm_get_mode v.ptable f.ipaddr (P.ipa_add f.ipaddr 1) = some M) :
    vcpu_handle_page_fault P v i f =
      some (decide (M &&& (f.mode ||| P.MM_MODE_INVALID) = f.mode)) := by
  simp only [vcpu_handle_page_fault, hq, vcpu_index_of_lt v i hwf hi]
  split <;> simp_all

/-- C7 (as stated, refuted): a fault whose access mode is empty is disjoint
from every mapping mode, yet the function reports "resume". Here the demo VM
maps address 5 with mode 1 and the fault at address 5 has mode 0. -/
theorem page_fault_disjoint_counterexample :
    ¬ ∀ (P : Platform) (v : vm P) (i : Nat) (f : vcpu_fault_info) (M : Nat),
      vm_wf v → i < v.vcpu_count →
      P.mm_vm_get_mode v.ptable f.ipaddr (P.ipa_add f.ipaddr 1) = some M →
      M &&& f.mode = 0 → vcpu_handle_page_fault P v i f = some false := by
  intro h
  have h1 := h demo demo_vm 0 demo_fault_empty 1 (by decide) (by decide) rfl rfl
  revert h1
  decide

/-- C7 (amended): when the page-table query over `[f.ipaddr, f.ipaddr + 1)`
succeeds with a mode `M` that is disjoint from the faulted access mode, and the
faulted access mode is not empty, `vcpu_handle_page_fault` returns false. -/
theorem page_fault_disjoint_genuine (P : Platform) (v : vm P) (i : Nat)
    (f : vcpu_fault_info) (M : Nat) (hwf : vm_wf v) (hi : i < v.vcpu_count)
    (hq : P.mm_vm_get_mode v.ptable f.ipaddr (P.ipa_add f.ipaddr 1) = some M)
    (hdis : M &&& f.mode = 0) (hne : f.mode ≠ 0) :
    vcpu_handle_page_fault P v i f = some false := by
  rw [page_fault_of_query v i f M hwf hi hq]
  simp [mode_disjoint_ne M f.mode P.MM_MODE_INVALID hdis hne]

/-- Witness of C7 (amended): a write fault on the read-only address 5. -/
theorem page_fault_disjoint_genuine_witness :
    vcpu_handle_page_fault demo demo_vm 0 demo_fault_write = some false :=
  page_fault_disjoint_genuine demo demo_vm 0 demo_fault_write 1 (by decide) (by decide)
    rfl (by decide) (by decide)

/-- C8: when the mode `M` that the re-query yields permits the faulted access
(every bit of `f.mode` is set in `M` and the `MM_MODE_INVALID` bits are clear
in `M`), `vcpu_handle_page_fault` returns true. -/
theorem page_fault_permitted_resumes (P : Platform) (v : vm P) (i : Nat)
    (f : vcpu_fault_info) (M : Nat)
    (hq : P.mm_vm_get_mode v.ptable f.ipaddr (P.ipa_add f.ipaddr 1) = some M)
    (hperm : M &&& f.mode = f.mode) (hval : M &&& P.MM_MODE_INVALID = 0) :
    vcpu_handle_page_fault P v i f = some true := by
  simp [vcpu_handle_page_fault, hq, mode_permitted_eq M f.mode P.MM_MODE_INVALID hperm hval]

/-- Witness of C8: a read fault on the readable address 5. -/
theorem page_fault_permitted_resumes_witness :
    vcpu_handle_page_fault demo demo_vm 0 demo_fault_read = some true :=
  page_fault_permitted_resumes demo demo_vm 0 demo_fault_read 1 rfl (by decide) (by decide)

/-- C9 (as stated, refuted): on the demo VM a read fault at the readable
address 5 gives `mode & (f.mode | MM_MODE_INVALID) = f.mode`, and the function
returns true, not false. -/
theorem page_fault_classification_counterexample :
    ¬ ∀ (P : Platform) (v : vm P) (i : Nat) (f : vcpu_fault_info) (M : Nat),
      vm_wf v → i < v.vcpu_count →
      P.mm_vm_get_mode v.ptable f.ipaddr (P.ipa_add f.ipaddr 1) = some M →
      (M &&& (f.mode ||| P.MM_MODE_INVALID) = f.mode →
        vcpu_handle_page_fault P v i f = some false) ∧
      (M &&& (f.mode ||| P.MM_MODE_INVALID) ≠ f.mode →
        vcpu_handle_page_fault P v i f = some true) := by
  intro h
  have h1 := (h demo demo_vm 0 demo_fault_read 1 (by decide) (by decide) rfl).1 (by decide)
  revert h1
  decide

/-- C9 (amended): `vcpu_handle_page_fault` re-queries the mode and computes
`mode & (f.mode | MM_MODE_INVALID)`; if the query succeeds and this value
equals `f.mode` the function returns true (resume, the fault is spurious); if
the value differs from `f.mode`, or the query fails, it returns false (do not
resume, the fault is genuine). -/
theorem page_fault_classification (P : Platform) (v : vm P) (i : Nat)
    (f : vcpu_fault_info) (hwf : vm_wf v) (hi : i < v.vcpu_count) :
    (∀ M : Nat, P.mm_vm_get_mode v.ptable f.ipaddr (P.ipa_add f.ipaddr 1) = some M →
      M &&& (f.mode ||| P.MM_MODE_INVALID) = f.mode →
      vcpu_handle_page_fault P v i f = some true) ∧
    (∀ M : Nat, P.mm_vm_get_mode v.ptable f.ipaddr (P.ipa_add f.ipaddr 1) = some M →
      M &&& (f.mode ||| P.MM_MODE_INVALID) ≠ f.mode →
      vcpu_handle_page_fault P v i f = some false) ∧
    (P.mm_vm_get_mode v.ptable f.ipaddr (P.ipa_add f.ipaddr 1) = none →
      vcpu_handle_page_fault P v i f = some false) := by
  refine ⟨fun M hq h => ?_, fun M hq h => ?_, fun hq => ?_⟩
  · rw [page_fault_of_query v i f M hwf hi hq]; simp [h]
  · rw [page_fault_of_query v i f M hwf hi hq]; simp [h]
  · simp [vcpu_handle_page_fault, hq, vcpu_index_of_lt v i hwf hi]

/-- Witness of C9 (amended) on the demo VM and a read fault at address 5. -/
theorem page_fault_classification_witness :
    (∀ M : Nat, demo.mm_vm_get_mode demo_vm.ptable demo_fault_read.ipaddr
        (demo.ipa_add demo_fault_read.ipaddr 1) = some M →
      M &&& (demo_fault_read.mode ||| demo.MM_MODE_INVALID) = demo_fault_read.mode →
      vcpu_handle_page_fault demo demo_vm 0 demo_fault_read = some true) ∧
    (∀ M : Nat, demo.mm_vm_get_mode demo_vm.ptable demo_fault_read.ipaddr
        (demo.ipa_add demo_fault_read.ipaddr 1) = some M →
      M &&& (demo_fault_read.mode ||| demo.MM_MODE_INVALID) ≠ demo_fault_read.mode →
      vcpu_handle_page_fault demo demo_vm 0 demo_fault_read = some false) ∧
    (demo.mm_vm_get_mode demo_vm.ptable demo_fault_read.ipaddr
        (demo.ipa_add demo_fault_read.ipaddr 1) = none →
      vcpu_handle_page_fault demo demo_vm 0 demo_fault_read = some false) :=
  page_fault_classification demo demo_vm 0 demo_fault_read (by decide) (by decide)

/-! ## Theorems: turning a core on -/

theorem list_set_same {α : Type} (l : List α) (c : Nat) (x : α) (h : l[c]? = some x) :
    l.set c x = l := by
  apply List.ext_getElem?
  intro k
  rw [List.getElem?_set]
  split
  · rename_i hck
    subst hck
    split
    · exact h.symm
    · rename_i hlt
      rw [List.getElem?_eq_none (Nat.le_of_not_lt hlt)]
  · rfl

theorem cpu_on_already_on {P : Platform} (s : State P) (c : Nat) (cc : cpu)
    (entry arg : Nat) (hc : s.cpus[c]? = some cc) (hon : cc.is_on = true) :
    cpu_on P s c entry arg = some (true, s) := by
  have hlen : c < s.cpus.length := by
    rcases Nat.lt_or_ge c s.cpus.length with h | h
    · exact h
    · rw [List.getElem?_eq_none h] at hc; cases hc
  have hcc : ({ cc with is_on := true } : cpu) = cc := by
    cases cc; simp_all
  have hset : s.cpus.set c cc = s.cpus := list_set_same s.cpus c cc hc
  simp [cpu_on, hc, hon, hcc, hset]

theorem cpu_on_flag {P : Platform} (s s1 : State P) (c : Nat) (r : Bool)
    (entry arg : Nat) (h : cpu_on P s c entry arg = some (r, s1)) :
    ∃ cc : cpu, s1.cpus[c]? = some cc ∧ cc.is_on = true := by
  unfold cpu_on at h
  split at h
  · cases h
  · rename_i cc hcc
    have hlen : c < s.cpus.length := by
      rcases Nat.lt_or_ge c s.cpus.length with h' | h'
      · exact h'
      · rw [List.getElem?_eq_none h'] at hcc; cases hcc
    refine ⟨{ cc with is_on := true }, ?_, rfl⟩
    simp only at h
    split at h
    · split at h
      · cases h
      · split at h
        · cases h
        · split at h
          · cases h
          · split at h
            · cases h
            · cases h
              simp [hlen]
    · cases h
      simp [hlen]

theorem cpu_on_twice {P : Platform} (s s1 : State P) (c : Nat) (r : Bool)
    (entry1 arg1 entry2 arg2 : Nat) (h : cpu_on P s c entry1 arg1 = some (r, s1)) :
    cpu_on P s1 c entry2 arg2 = some (true, s1) := by
  obtain ⟨cc, hcc, hon⟩ := cpu_on_flag s s1 c r entry1 arg1 h
  exact cpu_on_already_on s1 c cc entry2 arg2 hcc hon

theorem cpu_on_turns_on {P : Platform} (s : State P) (c k : Nat) (cc : cpu) (v : vm P)
    (vc : vcpu P) (entry arg : Nat) (hc : s.cpus[c]? = some cc)
    (hk : vm_find s P.HF_PRIMARY_VM_ID = some k) (hv : s.vms[k]? = some v)
    (hwf : vm_wf v) (hi : c < v.vcpu_count) (hvc : v.vcpus[c]? = some vc)
    (hoff : cc.is_on = false) :
    cpu_on P s c entry arg = some (false,
      { s with cpus := s.cpus.set c { cc with is_on := true },
               vms := s.vms.set k { v with vcpus := v.vcpus.set c (vcpu_on P vc entry arg) } }) := by
  have h16 : c % 2 ^ 16 = c := by
    have := hwf.1
    unfold UINT16_MAX at this
    omega
  have hfind : vm_find ({ s with cpus := s.cpus.set c { cc with is_on := true } } : State P)
      P.HF_PRIMARY_VM_ID = some k := hk
  simp only [cpu_on, hc, hoff, cpu_index, h16, vm_get_vcpu, hi, hfind, hv]
  simp [hvc]

/-- C3: for a core `c` whose slot index is a valid vCPU index of the primary
VM, `cpu_on` returns the value the core's `is_on` flag had before the call and
leaves the flag true; no other core changes; when the flag was already true
no VM changes; when it was false the primary VM's vCPU at index
`cpu_index c` ends READY with program counter `entry` and argument `arg`, and
no other vCPU and no other VM changes. -/
theorem cpu_on_spec (P : Platform) (s : State P) (c k : Nat) (cc : cpu) (v : vm P)
    (entry arg : Nat) (hc : s.cpus[c]? = some cc)
    (hk : vm_find s P.HF_PRIMARY_VM_ID = some k) (hv : s.vms[k]? = some v)
    (hwf : vm_wf v) (hi : cpu_index c < v.vcpu_count) :
    ∃ s1 : State P, cpu_on P s c entry arg = some (cc.is_on, s1) ∧
      s1.cpus[c]? = some { cc with is_on := true } ∧
      (∀ c1 : Nat, c1 ≠ c → s1.cpus[c1]? = s.cpus[c1]?) ∧
      s1.cpus.length = s.cpus.length ∧
      s1.cpu_count = s.cpu_count ∧
      (cc.is_on = true → s1.vms = s.vms) ∧
      (cc.is_on = false → ∃ (vc : vcpu P) (v1 : vm P) (vc1 : vcpu P),
        v.vcpus[cpu_index c]? = some vc ∧ s1.vms[k]? = some v1 ∧
        v1.vcpus[cpu_index c]? = some vc1 ∧
        vc1.state = VCPU_STATE_READY ∧
        vc1.regs = P.arch_regs_set_pc_arg vc.regs entry arg ∧
        (∀ i : Nat, i ≠ cpu_index c → v1.vcpus[i]? = v.vcpus[i]?) ∧
        (∀ k1 : Nat, k1 ≠ k → s1.vms[k1]? = s.vms[k1]?)) := by
  unfold cpu_index at hi ⊢
  have hclen : c < s.cpus.length := by
    rcases Nat.lt_or_ge c s.cpus.length with h | h
    · exact h
    · rw [List.getElem?_eq_none h] at hc; cases hc
  have hklen : k < s.vms.length := by
    rcases Nat.lt_or_ge k s.vms.length with h | h
    · exact h
    · rw [List.getElem?_eq_none h] at hv; cases hv
  have hvlen : c < v.vcpus.length := Nat.lt_of_lt_of_le hi hwf.2
  cases hon : cc.is_on
  · have hvc : v.vcpus[c]? = some v.vcpus[c] := List.getElem?_eq_getElem hvlen
    refine ⟨_, cpu_on_turns_on s c k cc v v.vcpus[c] entry arg hc hk hv hwf hi hvc hon,
      ?_, ?_, ?_, rfl, ?_, ?_⟩
    · simp [hclen]
    · intro c1 hc1
      simp [List.getElem?_set, Ne.symm hc1]
    · simp
    · intro h; cases h
    · intro _
      refine ⟨v.vcpus[c], { v with vcpus := v.vcpus.set c (vcpu_on P v.vcpus[c] entry arg) },
        vcpu_on P v.vcpus[c] entry arg, hvc, ?_, ?_, rfl, rfl, ?_, ?_⟩
      · simp [hklen]
      · simp [hvlen]
      · intro i hic
        simp [List.getElem?_set, Ne.symm hic]
      · intro k1 hk1
        simp [List.getElem?_set, Ne.symm hk1]
  · have hcc : ({ cc with is_on := true } : cpu) = cc := by
      cases cc; simp_all
    refine ⟨s, cpu_on_already_on s c cc entry arg hc hon, ?_, fun _ _ => rfl, rfl, rfl,
      fun _ => rfl, ?_⟩
    · rw [hcc]; exact hc
    · intro h; cases h

/-- Witness of C3: core 1 of the demo registry, which is off. -/
theorem cpu_on_spec_witness :
    ∃ s1 : State demo, cpu_on demo demo_state 1 64 7 = some (false, s1) ∧
      s1.cpus[1]? = some { id := 0, stack_bottom := none, is_on := true } ∧
      (∀ c1 : Nat, c1 ≠ 1 → s1.cpus[c1]? = demo_state.cpus[c1]?) ∧
      s1.cpus.length = demo_state.cpus.length ∧
      s1.cpu_count = demo_state.cpu_count ∧
      (false = true → s1.vms = demo_state.vms) ∧
      (false = false → ∃ (vc : vcpu demo) (v1 : vm demo) (vc1 : vcpu demo),
        demo_primary.vcpus[cpu_index 1]? = some vc ∧ s1.vms[0]? = some v1 ∧
        v1.vcpus[cpu_index 1]? = some vc1 ∧
        vc1.state = VCPU_STATE_READY ∧
        vc1.regs = demo.arch_regs_set_pc_arg vc.regs 64 7 ∧
        (∀ i : Nat, i ≠ cpu_index 1 → v1.vcpus[i]? = demo_primary.vcpus[i]?) ∧
        (∀ k1 : Nat, k1 ≠ 0 → s1.vms[k1]? = demo_state.vms[k1]?)) :=
  cpu_on_spec demo demo_state 1 0 { id := 0, stack_bottom := none, is_on := false }
    demo_primary 64 7 rfl rfl rfl (by decide) (by decide)

/-- C4: `cpu_on` is idempotent. In every state, for every core `c` and all
arguments, whenever a call `cpu_on(c, entry1, arg1)` returns, the call
`cpu_on(c, entry2, arg2)` that follows it immediately returns true and leaves
the whole state (every core's flag, every vCPU's state and register file)
exactly as the first call left it. The first call does return whenever `c` is a
slot whose index is a valid vCPU index of the primary VM. -/
theorem cpu_on_idempotent (P : Platform) (s : State P) (c : Nat)
    (entry1 arg1 entry2 arg2 : Nat) :
    (∀ (r : Bool) (s1 : State P), cpu_on P s c entry1 arg1 = some (r, s1) →
      cpu_on P s1 c entry2 arg2 = some (true, s1)) ∧
    (∀ (k : Nat) (cc : cpu) (v : vm P), s.cpus[c]? = some cc →
      vm_find s P.HF_PRIMARY_VM_ID = some k → s.vms[k]? = some v → vm_wf v →
      cpu_index c < v.vcpu_count →
      ∃ s1 : State P, cpu_on P s c entry1 arg1 = some (cc.is_on, s1)) := by
  refine ⟨fun r s1 h => cpu_on_twice s s1 c r entry1 arg1 entry2 arg2 h, ?_⟩
  intro k cc v hc hk hv hwf hi
  cases hon : cc.is_on
  · have hvlen : c < v.vcpus.length := Nat.lt_of_lt_of_le hi hwf.2
    exact ⟨_, cpu_on_turns_on s c k cc v v.vcpus[c] entry1 arg1 hc hk hv hwf hi
      (List.getElem?_eq_getElem hvlen) hon⟩
  · exact ⟨s, cpu_on_already_on s c cc entry1 arg1 hc hon⟩

/-- Witness of C4: core 1 of the demo registry, turned on twice. -/
theorem cpu_on_idempotent_witness :
    ∃ s1 : State demo, cpu_on demo demo_state 1 64 7 = some (false, s1) ∧
      cpu_on demo s1 1 80 8 = some (true, s1) := by
  obtain ⟨s1, h1⟩ := (cpu_on_idempotent demo demo_state 1 64 7 80 8).2 0
    { id := 0, stack_bottom := none, is_on := false } demo_primary rfl rfl rfl
    (by decide) (by decide)
  exact ⟨s1, h1, (cpu_on_idempotent demo demo_state 1 64 7 80 8).1 false s1 h1⟩

/-! ## Theorems: CPU registry initialisation and lookup -/

theorem list_set_mid {α : Type} (A B : List α) (x y : α) :
    (A ++ x :: B).set A.length y = A ++ y :: B := by
  induction A with
  | nil => rfl
  | cons a A ih => simp [ih]

theorem erase_snoc (b x : Nat) (l : List Nat) :
    (l ++ [x]).erase b =
      if b ∈ l then l.erase b ++ [x] else if x = b then l else l ++ [x] := by
  by_cases h : b ∈ l
  · rw [if_pos h, List.erase_append_left _ h]
  · rw [if_neg h, List.erase_append_right _ h]
    by_cases hx : x = b
    · rw [if_pos hx]; subst hx; simp
    · rw [if_neg hx]
      have : [x].erase b = [x] := by
        rw [List.erase_of_not_mem]; simpa using Ne.symm hx
      rw [this]

theorem cpu_module_init_loop_ids (b : Nat) (ids row0 : List Nat)
    (hrow0 : row0[0]? = some b) (hle : ids.length ≤ row0.length) (h32 : ids.length < 2 ^ 32) :
    ∀ (n i j : Nat) (found : Bool) (cpus : List cpu),
      i + n = ids.length →
      (found = true ↔ b ∈ ids.take i) →
      j + ((ids.take i).erase b).length = ids.length →
      cpus.map cpu.id = row0.take j ++ ((ids.take i).erase b).reverse ++ row0.drop ids.length →
      ∃ (j1 : Nat) (found1 : Bool) (cpus1 : List cpu),
        cpu_module_init_loop b ids n i j found cpus = some (j1, found1, cpus1) ∧
        (found1 = true ↔ b ∈ ids) ∧
        j1 + (ids.erase b).length = ids.length ∧
        cpus1.map cpu.id = row0.take j1 ++ (ids.erase b).reverse ++ row0.drop ids.length := by
  intro n
  induction n with
  | zero =>
    intro i j found cpus hi hf hj hrow
    have hil : i = ids.length := by omega
    subst hil
    rw [List.take_length] at hf hj hrow
    exact ⟨j, found, cpus, rfl, hf, hj, hrow⟩
  | succ n ih =>
    intro i j found cpus hi hf hj hrow
    have hilt : i < ids.length := by omega
    have hget : ids[i]? = some ids[i] := List.getElem?_eq_getElem hilt
    have htake : ids.take (i + 1) = ids.take i ++ [ids[i]] := by
      rw [List.take_succ, hget]; rfl
    have hRlen := List.length_erase b (ids.take i)
    have hti : (ids.take i).length = i := List.length_take_of_le (Nat.le_of_lt hilt)
    have hlen : cpus.length = row0.length := by
      have := congrArg List.length hrow
      simp at this
      omega
    have hj1 : 1 ≤ j := by
      split at hRlen <;> omega
    unfold cpu_module_init_loop
    rw [hget]
    simp only
    by_cases hcond : (found || ids[i] != b) = true
    · rw [if_pos hcond]
      have hjval : (j + 2 ^ 32 - 1) % 2 ^ 32 = j - 1 := by
        have hp : (2 : Nat) ^ 32 = 4294967296 := by norm_num
        rw [hp] at h32 ⊢
        omega
      rw [hjval]
      have hjlt : j - 1 < cpus.length := by omega
      rw [List.getElem?_eq_getElem hjlt]
      simp only
      have hE : (ids.take (i + 1)).erase b = (ids.take i).erase b ++ [ids[i]] := by
        rw [htake, erase_snoc]
        by_cases hm : b ∈ ids.take i
        · rw [if_pos hm]
        · rw [if_neg hm]
          have hfalse : found = false := by
            cases found
            · rfl
            · exact absurd (hf.1 rfl) hm
          have hne : ids[i] ≠ b := by
            simpa [hfalse] using hcond
          rw [if_neg hne]
          rw [List.erase_of_not_mem hm]
      apply ih (i + 1) (j - 1) found _ (by omega)
      · rw [htake, List.mem_append]
        constructor
        · intro h; exact Or.inl (hf.1 h)
        · intro h
          rcases h with h | h
          · exact hf.2 h
          · cases found
            · simp at hcond h; exact absurd h.symm hcond
            · rfl
      · rw [hE, List.length_append]; simp; omega
      · rw [List.map_set, hrow, hE]
        have hlt' : j - 1 < row0.length := by omega
        have hsplit : row0.take j = row0.take (j - 1) ++ [row0[j - 1]] := by
          have hj' : j = (j - 1) + 1 := by omega
          conv => lhs; rw [hj']
          rw [List.take_succ, List.getElem?_eq_getElem hlt']; rfl
        rw [hsplit]
        have hl : (row0.take (j - 1)).length = j - 1 := List.length_take_of_le (by omega)
        simp only [List.append_assoc, List.singleton_append, List.reverse_append,
          List.reverse_cons, List.reverse_nil, List.nil_append]
        have hmid := list_set_mid (row0.take (j - 1))
          (((ids.take i).erase b).reverse ++ row0.drop ids.length) row0[j - 1] ids[i]
        rw [hl] at hmid
        exact hmid
    · rw [if_neg hcond]
      have hfalse : found = false := by
        cases found
        · rfl
        · simp at hcond
      have heq : ids[i] = b := by
        simpa [hfalse] using hcond
      have hnm : b ∉ ids.take i := by
        intro h; rw [hf.2 h] at hfalse; cases hfalse
      have hclt : 0 < cpus.length := by omega
      rw [List.getElem?_eq_getElem hclt]
      simp only
      have hE : (ids.take (i + 1)).erase b = (ids.take i).erase b := by
        rw [htake, erase_snoc, if_neg hnm, if_pos heq, List.erase_of_not_mem hnm]
      apply ih (i + 1) j true _ (by omega)
      · rw [htake, List.mem_append]
        simp [heq]
      · rw [hE]; exact hj
      · rw [List.map_set, hE]
        rw [list_set_same _ 0 _ ?_]
        · exact hrow
        · rw [hrow, heq, List.append_assoc, List.getElem?_append_left (by rw [List.length_take_of_le (by omega)]; omega),
            List.getElem?_take_of_lt (by omega)]
          exact hrow0

theorem take_of_append_length {α : Type} (A B : List α) (n : Nat) (h : A.length = n) :
    (A ++ B).take n = A := by
  subst h
  exact List.take_left A B

theorem cpu_module_init_row {P : Platform} (s : State P) (ids : List Nat) (c0 : cpu)
    (h0 : s.cpus[0]? = some c0) (hle : ids.length ≤ s.cpus.length)
    (h32 : ids.length < 2 ^ 32) :
    ∃ s1 : State P, cpu_module_init s ids ids.length = some s1 ∧
      s1.cpu_count = ids.length ∧ s1.vms = s.vms ∧ s1.cpus.length = s.cpus.length ∧
      (c0.id ∈ ids →
        (s1.cpus.take ids.length).map cpu.id = c0.id :: (ids.erase c0.id).reverse) ∧
      (c0.id ∉ ids → ids ≠ [] →
        (s1.cpus.take ids.length).map cpu.id = c0.id :: ids.dropLast.reverse) := by
  have hmod : ids.length % 2 ^ 32 = ids.length := Nat.mod_eq_of_lt h32
  have hrow0 : (s.cpus.map cpu.id)[0]? = some c0.id := by
    rw [List.getElem?_map, h0]; rfl
  have hle' : ids.length ≤ (s.cpus.map cpu.id).length := by
    rw [List.length_map]; exact hle
  obtain ⟨j1, found1, cpus1, hloop, hfound, hj, hrow⟩ :=
    cpu_module_init_loop_ids c0.id ids (s.cpus.map cpu.id) hrow0 hle' h32
      ids.length 0 ids.length false s.cpus (by omega) (by simp) (by simp) (by simp)
  have hlen1 : cpus1.length = s.cpus.length := by
    have := congrArg List.length hrow
    simp only [List.length_map, List.length_append, List.length_take, List.length_reverse,
      List.length_drop] at this hle'
    omega
  have hrowt : (cpus1.take ids.length).map cpu.id =
      List.take j1 (s.cpus.map cpu.id) ++ (ids.erase c0.id).reverse := by
    rw [List.map_take, hrow]
    apply take_of_append_length
    simp only [List.length_map, List.length_append, List.length_take, List.length_reverse] at hle' ⊢
    omega
  unfold cpu_module_init
  rw [h0]
  simp only [hmod, hloop]
  cases hf1 : found1
  · have hnm : c0.id ∉ ids := by
      intro h; rw [hfound.2 h] at hf1; cases hf1
    have hclt : 0 < cpus1.length := by
      rcases Nat.lt_or_ge 0 s.cpus.length with h | h
      · omega
      · rw [List.getElem?_eq_none h] at h0; cases h0
    rw [List.getElem?_eq_getElem hclt]
    refine ⟨_, rfl, rfl, rfl, by simp [hlen1], fun h => absurd h hnm, fun _ hne => ?_⟩
    simp only [Bool.not_false, if_true]
    rw [List.erase_of_not_mem hnm] at hj hrow
    have hj0 : j1 = 0 := by omega
    subst hj0
    rw [List.map_take, List.map_set, hrow]
    simp only [List.take_zero, List.nil_append]
    cases hrev : ids.reverse with
    | nil => simp at hrev; exact absurd hrev hne
    | cons x t =>
      have ht : t = ids.dropLast.reverse := by
        rw [← List.tail_reverse, hrev]; rfl
      have htl : (c0.id :: t).length = ids.length := by
        have := congrArg List.length hrev
        simp at this ⊢
        omega
      simp only [List.cons_append, List.set_cons_zero]
      rw [← List.cons_append, take_of_append_length _ _ ids.length htl, ht]
  · have hm : c0.id ∈ ids := hfound.1 hf1
    refine ⟨_, rfl, rfl, rfl, hlen1, fun _ => ?_, fun h => absurd hm h⟩
    simp only [Bool.not_true]
    have hel := List.length_erase c0.id ids
    rw [if_pos hm] at hel
    have hpos : 0 < ids.length := List.length_pos_of_mem hm
    have hj1 : j1 = 1 := by omega
    subst hj1
    have ht1 : List.take 1 (s.cpus.map cpu.id) = [c0.id] := by
      cases hs : s.cpus with
      | nil => rw [hs] at h0; cases h0
      | cons a rest =>
        rw [hs] at h0
        simp at h0
        simp [h0]
    rw [hrowt, ht1]
    rfl

theorem cpu_find_loop_none (cpus : List cpu) (id : Nat) :
    ∀ (n i : Nat), i + n ≤ cpus.length →
      (∀ (k : Nat) (c : cpu), i ≤ k → k < i + n → cpus[k]? = some c → c.id ≠ id) →
      cpu_find_loop cpus id n i = some none := by
  intro n
  induction n with
  | zero => intro i _ _; rfl
  | succ n ih =>
    intro i hlen hno
    have hilt : i < cpus.length := by omega
    unfold cpu_find_loop
    rw [List.getElem?_eq_getElem hilt]
    simp only
    rw [if_neg (hno i cpus[i] (Nat.le_refl i) (by omega) (List.getElem?_eq_getElem hilt))]
    exact ih (i + 1) (by omega) (fun k c h1 h2 h3 => hno k c (by omega) (by omega) h3)

theorem cpu_find_loop_some (cpus : List cpu) (id : Nat) :
    ∀ (n i : Nat), i + n ≤ cpus.length →
      (∃ (k : Nat) (c : cpu), i ≤ k ∧ k < i + n ∧ cpus[k]? = some c ∧ c.id = id) →
      ∃ (k : Nat) (c : cpu), cpu_find_loop cpus id n i = some (some k) ∧
        i ≤ k ∧ k < i + n ∧ cpus[k]? = some c ∧ c.id = id := by
  intro n
  induction n with
  | zero =>
    intro i _ h
    obtain ⟨k, c, h1, h2, _⟩ := h
    omega
  | succ n ih =>
    intro i hlen hex
    have hilt : i < cpus.length := by omega
    unfold cpu_find_loop
    rw [List.getElem?_eq_getElem hilt]
    simp only
    by_cases hid : cpus[i].id = id
    · rw [if_pos hid]
      exact ⟨i, cpus[i], rfl, Nat.le_refl i, by omega, List.getElem?_eq_getElem hilt, hid⟩
    · rw [if_neg hid]
      obtain ⟨k, c, h1, h2, h3, h4⟩ := hex
      have hki : k ≠ i := by
        intro h
        subst h
        rw [List.getElem?_eq_getElem hilt] at h3
        cases h3
        exact hid h4
      obtain ⟨k1, c1, e1, e2, e3, e4, e5⟩ :=
        ih (i + 1) (by omega) ⟨k, c, by omega, by omega, h3, h4⟩
      exact ⟨k1, c1, e1, by omega, by omega, e4, e5⟩

theorem mem_row_iff (cpus : List cpu) (count id : Nat) :
    id ∈ (cpus.take count).map cpu.id ↔
      ∃ (k : Nat) (c : cpu), 0 ≤ k ∧ k < 0 + count ∧ cpus[k]? = some c ∧ c.id = id := by
  rw [List.mem_map]
  constructor
  · rintro ⟨c, hc, hid⟩
    obtain ⟨k, hk⟩ := List.mem_iff_getElem?.1 hc
    rw [List.getElem?_take] at hk
    split at hk
    · exact ⟨k, c, Nat.zero_le k, by omega, hk, hid⟩
    · cases hk
  · rintro ⟨k, c, _, h2, h3, h4⟩
    refine ⟨c, List.mem_iff_getElem?.2 ⟨k, ?_⟩, h4⟩
    rw [List.getElem?_take, if_pos (by omega)]
    exact h3

theorem cpu_find_row {P : Platform} (s : State P) (id : Nat)
    (hle : s.cpu_count ≤ s.cpus.length) :
    (id ∈ (s.cpus.take s.cpu_count).map cpu.id →
      ∃ (k : Nat) (c : cpu), cpu_find s id = some (some k) ∧ k < s.cpu_count ∧
        s.cpus[k]? = some c ∧ c.id = id) ∧
    (id ∉ (s.cpus.take s.cpu_count).map cpu.id → cpu_find s id = some none) := by
  constructor
  · intro h
    obtain ⟨k, c, e1, _, e3, e4, e5⟩ :=
      cpu_find_loop_some s.cpus id s.cpu_count 0 (by omega) ((mem_row_iff _ _ _).1 h)
    exact ⟨k, c, e1, by omega, e4, e5⟩
  · intro h
    apply cpu_find_loop_none s.cpus id s.cpu_count 0 (by omega)
    intro k c h1 h2 h3 h4
    exact h ((mem_row_iff _ _ _).2 ⟨k, c, h1, h2, h3, h4⟩)

/-- C5 (as stated, refuted): on the statically initialised registry of two
slots (slot 0 has id 0) the list `[1, 2]` is pairwise distinct, yet after
`cpu_module_init` the id 0, which is not in the list, is found in slot 0 (and
the id 2 of the list is not found). -/
theorem cpu_find_after_init_counterexample :
    ¬ ∀ (max_cpus : Nat) (ids : List Nat) (s1 : State demo),
      ids.Nodup → ids.length ≤ max_cpus →
      cpu_module_init (state_static demo max_cpus 0 []) ids ids.length = some s1 →
      (∀ id : Nat, id ∈ ids → ∃ (k : Nat) (c : cpu), cpu_find s1 id = some (some k) ∧
        k < ids.length ∧ s1.cpus[k]? = some c ∧ c.id = id) ∧
      (∀ id : Nat, id ∉ ids → cpu_find s1 id = some none) := by
  intro h
  have h1 := (h 2 [1, 2]
    { cpus := [⟨0, some 1, true⟩, ⟨1, some 0, false⟩], cpu_count := 2, vms := [] }
    (by decide) (by decide) rfl).2 0 (by decide)
  revert h1
  decide

/-- C5 (amended): for every list of core ids of length `count ≤ MAX_CPUS`
(`count` below `2^32`) `cpu_module_init` returns, and afterwards: if the list
is empty or contains the id that slot 0 held before the call, `cpu_find`
returns a slot of index below `count` whose id field is `id` for every `id` in
the list and `NULL` for every id not in the list; if the list is not empty and
does not contain that id, `cpu_find` does so with the list replaced by slot 0's
id followed by the list without its last entry. Pairwise distinctness of the
ids is not needed. -/
theorem cpu_find_after_init (P : Platform) (s : State P) (ids : List Nat) (c0 : cpu)
    (h0 : s.cpus[0]? = some c0) (hle : ids.length ≤ s.cpus.length)
    (h32 : ids.length < 2 ^ 32) :
    ∃ s1 : State P, cpu_module_init s ids ids.length = some s1 ∧
      ((ids = [] ∨ c0.id ∈ ids) →
        (∀ id : Nat, id ∈ ids → ∃ (k : Nat) (c : cpu), cpu_find s1 id = some (some k) ∧
          k < ids.length ∧ s1.cpus[k]? = some c ∧ c.id = id) ∧
        (∀ id : Nat, id ∉ ids → cpu_find s1 id = some none)) ∧
      ((ids ≠ [] ∧ c0.id ∉ ids) →
        (∀ id : Nat, id ∈ c0.id :: ids.dropLast →
          ∃ (k : Nat) (c : cpu), cpu_find s1 id = some (some k) ∧
            k < ids.length ∧ s1.cpus[k]? = some c ∧ c.id = id) ∧
        (∀ id : Nat, id ∉ c0.id :: ids.dropLast → cpu_find s1 id = some none)) := by
  obtain ⟨s1, hinit, hcount, _, hlen, hin, hnot⟩ := cpu_module_init_row s ids c0 h0 hle h32
  have hle1 : s1.cpu_count ≤ s1.cpus.length := by omega
  refine ⟨s1, hinit, fun hcase => ?_, fun hcase => ?_⟩
  · have hrow : ∀ id : Nat, id ∈ (s1.cpus.take s1.cpu_count).map cpu.id ↔ id ∈ ids := by
      intro id
      rcases hcase with hnil | hm
      · subst hnil
        simp [hcount]
      · rw [hcount, hin hm]
        exact ((List.perm_cons_erase hm).mem_iff.trans
          (by rw [List.mem_cons, List.mem_cons, List.mem_reverse])).symm
    constructor
    · intro id hid
      obtain ⟨k, c, e1, e2, e3, e4⟩ := (cpu_find_row s1 id hle1).1 ((hrow id).2 hid)
      exact ⟨k, c, e1, by omega, e3, e4⟩
    · intro id hid
      exact (cpu_find_row s1 id hle1).2 (fun h => hid ((hrow id).1 h))
  · have hrow : ∀ id : Nat, id ∈ (s1.cpus.take s1.cpu_count).map cpu.id ↔
        id ∈ c0.id :: ids.dropLast := by
      intro id
      rw [hcount, hnot hcase.2 hcase.1, List.mem_cons, List.mem_cons, List.mem_reverse]
    constructor
    · intro id hid
      obtain ⟨k, c, e1, e2, e3, e4⟩ := (cpu_find_row s1 id hle1).1 ((hrow id).2 hid)
      exact ⟨k, c, e1, by omega, e3, e4⟩
    · intro id hid
      exact (cpu_find_row s1 id hle1).2 (fun h => hid ((hrow id).1 h))

/-- Witness of C5 (amended): the demo registry (slot 0 has id 0) and the id
list `[3, 0]`. -/
theorem cpu_find_after_init_witness :
    ∃ s1 : State demo, cpu_module_init demo_state [3, 0] 2 = some s1 ∧
      (∀ id : Nat, id ∈ [3, 0] → ∃ (k : Nat) (c : cpu), cpu_find s1 id = some (some k) ∧
        k < 2 ∧ s1.cpus[k]? = some c ∧ c.id = id) ∧
      (∀ id : Nat, id ∉ [3, 0] → cpu_find s1 id = some none) := by
  obtain ⟨s1, h1, h2, _⟩ := cpu_find_after_init demo demo_state [3, 0]
    { id := 0, stack_bottom := some 0, is_on := true } rfl (by decide) (by decide)
  exact ⟨s1, h1, h2 (Or.inr (by decide))⟩

/-- C6 (as stated, refuted): on the statically initialised registry of two
slots (slot 0 has id 0) and the list `[1, 2]`, which does not contain 0, the id
of slot 0 after `cpu_module_init` is 0 and not the first entry 1. -/
theorem cpu_module_init_slots_counterexample :
    ¬ ∀ (s : State demo) (ids : List Nat) (c0 : cpu) (s1 : State demo),
      s.cpus[0]? = some c0 → 1 ≤ ids.length → ids.length ≤ s.cpus.length →
      cpu_module_init s ids ids.length = some s1 → c0.id ∉ ids →
      (s1.cpus[0]?).map cpu.id = ids[0]? := by
  intro h
  have h1 := h (state_static demo 2 0 []) [1, 2] ⟨0, some 0, true⟩
    { cpus := [⟨0, some 1, true⟩, ⟨1, some 0, false⟩], cpu_count := 2, vms := [] }
    rfl (by decide) (by decide) rfl (by decide)
  revert h1
  decide

/-- C6 (amended): for every id list of length `count` with
`1 ≤ count ≤ MAX_CPUS` (`count` below `2^32`), `cpu_module_init` returns and
slot 0 keeps its pre-set id in both cases. If the pre-set id occurs in the
list, the remaining ids (the list without the first occurrence of the pre-set
id) occupy slots `count-1, count-2, ..., 1` in list order. If it does not
occur, the ids are assigned in reverse order from slot `count-1` down and slot
0's id is then restored to the pre-set id, so that slots `count-1, ..., 1` hold
the first `count-1` entries in list order and the last entry is in no slot. -/
theorem cpu_module_init_slots (P : Platform) (s : State P) (ids : List Nat) (c0 : cpu)
    (h0 : s.cpus[0]? = some c0) (hpos : 1 ≤ ids.length) (hle : ids.length ≤ s.cpus.length)
    (h32 : ids.length < 2 ^ 32) :
    ∃ s1 : State P, cpu_module_init s ids ids.length = some s1 ∧
      (c0.id ∈ ids →
        (s1.cpus.take ids.length).map cpu.id = c0.id :: (ids.erase c0.id).reverse) ∧
      (c0.id ∉ ids →
        (s1.cpus.take ids.length).map cpu.id = c0.id :: ids.dropLast.reverse) := by
  obtain ⟨s1, hinit, _, _, _, hin, hnot⟩ := cpu_module_init_row s ids c0 h0 hle h32
  have hne : ids ≠ [] := by
    intro h; rw [h] at hpos; simp at hpos
  exact ⟨s1, hinit, hin, fun h => hnot h hne⟩

/-- Witness of C6 (amended): the demo registry (slot 0 has id 0) and the id
list `[3, 0]`. -/
theorem cpu_module_init_slots_witness :
    ∃ s1 : State demo, cpu_module_init demo_state [3, 0] 2 = some s1 ∧
      ((0 : Nat) ∈ [3, 0] → (s1.cpus.take 2).map cpu.id = 0 :: ([3, 0].erase 0).reverse) ∧
      ((0 : Nat) ∉ [3, 0] → (s1.cpus.take 2).map cpu.id = 0 :: [3, 0].dropLast.reverse) :=
  cpu_module_init_slots demo demo_state [3, 0]
    { id := 0, stack_bottom := some 0, is_on := true } rfl (by decide) (by decide) (by decide)

/-! ## Theorems: the ABORTED state under single operations -/

theorem cpu_on_result {P : Platform} (s s1 : State P) (c : Nat) (r : Bool)
    (entry arg : Nat) (h : cpu_on P s c entry arg = some (r, s1)) :
    ∃ cc : cpu, s.cpus[c]? = some cc ∧ cc.is_on = r ∧
      ((r = true ∧ s1.vms = s.vms) ∨
        (r = false ∧ ∃ (k : Nat) (v : vm P) (vc : vcpu P),
          vm_find s P.HF_PRIMARY_VM_ID = some k ∧ s.vms[k]? = some v ∧
          v.vcpus[cpu_index c % 2 ^ 16]? = some vc ∧
          s1.vms = s.vms.set k
            { v with vcpus := v.vcpus.set (cpu_index c % 2 ^ 16) (vcpu_on P vc entry arg) })) := by
  unfold cpu_on at h
  split at h
  · cases h
  · rename_i cc hcc
    refine ⟨cc, hcc, ?_⟩
    simp only at h
    split at h
    · rename_i hprev
      have hoff : cc.is_on = false := by simpa using hprev
      split at h
      · cases h
      · rename_i k hk
        split at h
        · cases h
        · rename_i v hv
          split at h
          · cases h
          · rename_i i hi
            split at h
            · cases h
            · rename_i vc hvc
              have hi' : i = cpu_index c % 2 ^ 16 := by
                unfold vm_get_vcpu at hi
                split at hi
                · exact (Option.some.inj hi).symm
                · cases hi
              subst hi'
              cases h
              exact ⟨rfl, Or.inr ⟨hoff, k, v, vc, hk, hv, hvc, rfl⟩⟩
    · rename_i hprev
      have hon : cc.is_on = true := by simpa using hprev
      cases h
      exact ⟨rfl, Or.inl ⟨hon, rfl⟩⟩

theorem vcpu_state_at_of {P : Platform} (s : State P) (k i : Nat) (v : vm P) (vc : vcpu P)
    (hv : s.vms[k]? = some v) (hvc : v.vcpus[i]? = some vc) :
    vcpu_state_at s k i = some vc.state := by
  simp [vcpu_state_at, hv, hvc]

theorem secondary_start_keeps_on {P : Platform} (v v1 : vm P) (j i : Nat) (r : Bool)
    (entry arg : Nat) (vc : vcpu P) (hvc : v.vcpus[i]? = some vc)
    (hon : vc.state ≠ VCPU_STATE_OFF)
    (h : vcpu_secondary_reset_and_start P v j entry arg = some (r, v1)) :
    ∃ vc1 : vcpu P, v1.vcpus[i]? = some vc1 ∧ vc1.state = vc.state := by
  unfold vcpu_secondary_reset_and_start at h
  split at h
  · cases h
  · split at h
    · cases h
    · rename_i vcj hvcj
      split at h
      · rename_i hoff
        split at h
        · cases h
        · cases h
          have hji : j ≠ i := by
            intro hji
            subst hji
            rw [hvc] at hvcj
            cases hvcj
            rw [vcpu_is_off_eq] at hoff
            simp at hoff
            exact hon hoff
          refine ⟨vc, ?_, rfl⟩
          simp [List.getElem?_set, hji, hvc]
      · cases h
        exact ⟨vc, hvc, rfl⟩

/-- A vCPU in state ABORTED is still ABORTED after any single `cpu_off`,
`vcpu_secondary_reset_and_start` or `vcpu_handle_page_fault`, and after any
`cpu_on` except a `cpu_on` of a core whose flag is off when the vCPU is the
primary VM's vCPU at that core's index: that vCPU is moved to READY. -/
theorem aborted_preserved (P : Platform) (s : State P) (k i : Nat)
    (hab : vcpu_state_at s k i = some VCPU_STATE_ABORTED) :
    (∀ (c : Nat) (s1 : State P), core_step P s (core_op.op_cpu_off c) = some s1 →
      vcpu_state_at s1 k i = some VCPU_STATE_ABORTED) ∧
    (∀ (k1 j entry arg : Nat) (s1 : State P),
      core_step P s (core_op.op_secondary_start k1 j entry arg) = some s1 →
      vcpu_state_at s1 k i = some VCPU_STATE_ABORTED) ∧
    (∀ (k1 j : Nat) (f : vcpu_fault_info) (s1 : State P),
      core_step P s (core_op.op_page_fault k1 j f) = some s1 →
      vcpu_state_at s1 k i = some VCPU_STATE_ABORTED) ∧
    (∀ (c entry arg : Nat) (s1 : State P) (cc : cpu),
      core_step P s (core_op.op_cpu_on c entry arg) = some s1 →
      s.cpus[c]? = some cc →
      (cc.is_on = true ∨ vm_find s P.HF_PRIMARY_VM_ID ≠ some k ∨
        i ≠ cpu_index c % 2 ^ 16) →
      vcpu_state_at s1 k i = some VCPU_STATE_ABORTED) ∧
    (∀ (c entry arg : Nat) (s1 : State P) (cc : cpu),
      core_step P s (core_op.op_cpu_on c entry arg) = some s1 →
      s.cpus[c]? = some cc → cc.is_on = false →
      vm_find s P.HF_PRIMARY_VM_ID = some k → i = cpu_index c % 2 ^ 16 →
      vcpu_state_at s1 k i = some VCPU_STATE_READY) := by
  obtain ⟨v, vc, hv, hvc, hst⟩ : ∃ (v : vm P) (vc : vcpu P),
      s.vms[k]? = some v ∧ v.vcpus[i]? = some vc ∧ vc.state = VCPU_STATE_ABORTED := by
    unfold vcpu_state_at at hab
    split at hab
    · cases hab
    · rename_i v hv
      split at hab
      · cases hab
      · rename_i vc hvc
        exact ⟨v, vc, hv, hvc, Option.some.inj hab⟩
  have hklen : k < s.vms.length := by
    rcases Nat.lt_or_ge k s.vms.length with h | h
    · exact h
    · rw [List.getElem?_eq_none h] at hv; cases hv
  refine ⟨?_, ?_, ?_, ?_, ?_⟩
  · intro c s1 h
    simp only [core_step, cpu_off] at h
    split at h
    · cases h
    · cases h
      exact hab
  · intro k1 j entry arg s1 h
    simp only [core_step] at h
    split at h
    · cases h
    · rename_i v0 hv0
      split at h
      · cases h
      · rename_i r v1 hcall
        cases h
        by_cases hk : k1 = k
        · subst hk
          rw [hv] at hv0
          cases hv0
          obtain ⟨vc1, h1, h2⟩ := secondary_start_keeps_on v v1 j i r entry arg vc hvc
            (by rw [hst]; decide) hcall
          rw [vcpu_state_at_of _ k1 i v1 vc1 (List.getElem?_set_self hklen) h1, h2, hst]
        · rw [vcpu_state_at_of _ k i v vc
            (by rw [List.getElem?_set, if_neg hk]; exact hv) hvc, hst]
  · intro k1 j f s1 h
    simp only [core_step] at h
    split at h
    · cases h
    · split at h
      · cases h
      · cases h
        exact hab
  · intro c entry arg s1 cc h hcc hcase
    simp only [core_step] at h
    split at h
    · cases h
    · rename_i r s2 hcall
      cases h
      obtain ⟨cc1, hcc1, hr, hres⟩ := cpu_on_result s s1 c r entry arg hcall
      rw [hcc] at hcc1
      cases hcc1
      rcases hres with ⟨_, hvms⟩ | ⟨hoff, k0, v0, vc0, hk0, hv0, hvc0, hvms⟩
      · rw [vcpu_state_at_of s1 k i v vc (by rw [hvms]; exact hv) hvc, hst]
      · by_cases hk : k0 = k
        · subst hk
          rw [hv] at hv0
          cases hv0
          have hne : cpu_index c % 2 ^ 16 ≠ i := by
            rcases hcase with h1 | h1 | h1
            · rw [hr, hoff] at h1; cases h1
            · exact absurd hk0 h1
            · exact Ne.symm h1
          rw [vcpu_state_at_of s1 k0 i _ vc
            (by rw [hvms]; exact List.getElem?_set_self hklen)
            (by rw [List.getElem?_set, if_neg hne]; exact hvc), hst]
        · rw [vcpu_state_at_of s1 k i v vc
            (by rw [hvms, List.getElem?_set, if_neg hk]; exact hv) hvc, hst]
  · intro c entry arg s1 cc h hcc hoff hk hi
    simp only [core_step] at h
    split at h
    · cases h
    · rename_i r s2 hcall
      cases h
      obtain ⟨cc1, hcc1, hr, hres⟩ := cpu_on_result s s1 c r entry arg hcall
      rw [hcc] at hcc1
      cases hcc1
      rcases hres with ⟨hon, _⟩ | ⟨_, k0, v0, vc0, hk0, hv0, hvc0, hvms⟩
      · rw [← hr, hoff] at hon; cases hon
      · rw [hk] at hk0
        cases hk0
        rw [hv] at hv0
        cases hv0
        subst hi
        have hilen : cpu_index c % 2 ^ 16 < v.vcpus.length := by
          rcases Nat.lt_or_ge (cpu_index c % 2 ^ 16) v.vcpus.length with h | h
          · exact h
          · rw [List.getElem?_eq_none h] at hvc; cases hvc
        rw [vcpu_state_at_of s1 k (cpu_index c % 2 ^ 16) _ _
          (by rw [hvms]; exact List.getElem?_set_self hklen)
          (List.getElem?_set_self hilen)]
        rfl

/-- In the demo registry with vCPU 1 of the primary VM aborted, turning core 1
off leaves that vCPU aborted. -/
theorem aborted_preserved_witness :
    core_step demo demo_state_aborted (core_op.op_cpu_off 1) = some demo_state_aborted ∧
    vcpu_state_at demo_state_aborted 0 1 = some VCPU_STATE_ABORTED :=
  ⟨rfl, (aborted_preserved demo demo_state_aborted 0 1 rfl).1 1 demo_state_aborted rfl⟩

/-! ## Theorems: stacks assigned by the CPU registry initialisation -/

theorem slots_written_perm (b : Nat) (ids : List Nat) (h32 : ids.length < 2 ^ 32) :
    ∀ (n i j : Nat) (found : Bool), i + n = ids.length →
      (found = true → j = n + 1) → (found = false → j = n) →
      ∃ σ : List Nat, cpu_module_init_slots_written b ids n i j found = some σ ∧
        (found = true → σ.Perm (List.range' 1 n)) ∧
        (found = false → σ.Perm (List.range n)) := by
  have hp : (2 : Nat) ^ 32 = 4294967296 := by norm_num
  rw [hp] at h32
  intro n
  induction n with
  | zero =>
    intro i j found _ _ _
    exact ⟨[], rfl, fun _ => List.Perm.refl _, fun _ => List.Perm.refl _⟩
  | succ n ih =>
    intro i j found hi ht hf
    have hilt : i < ids.length := by omega
    have hget : ids[i]? = some ids[i] := List.getElem?_eq_getElem hilt
    unfold cpu_module_init_slots_written
    rw [hget]
    simp only
    cases found
    · have hj : j = n + 1 := hf rfl
      subst hj
      by_cases hid : ids[i] = b
      · have hcond : ¬ ((false || ids[i] != b) = true) := by simp [hid]
        rw [if_neg hcond]
        obtain ⟨rest, hrest, hp1, _⟩ := ih (i + 1) (n + 1) true (by omega) (fun _ => rfl)
          (fun h => by cases h)
        rw [hrest]
        refine ⟨0 :: rest, rfl, (fun h => by cases h), fun _ => ?_⟩
        rw [List.range_eq_range', List.range'_succ]
        exact (hp1 rfl).cons 0
      · have hcond : (false || ids[i] != b) = true := by simp [hid]
        rw [if_pos hcond]
        have hjval : (n + 1 + 2 ^ 32 - 1) % 2 ^ 32 = n := by
          rw [hp]; omega
        rw [hjval]
        obtain ⟨rest, hrest, _, hp2⟩ := ih (i + 1) n false (by omega)
          (fun h => by cases h) (fun _ => rfl)
        rw [hrest]
        refine ⟨n :: rest, rfl, (fun h => by cases h), fun _ => ?_⟩
        rw [List.range_succ]
        exact ((hp2 rfl).cons n).trans (List.perm_append_singleton n _).symm
    · have hj : j = n + 1 + 1 := ht rfl
      subst hj
      have hcond : (true || ids[i] != b) = true := by simp
      rw [if_pos hcond]
      have hjval : (n + 1 + 1 + 2 ^ 32 - 1) % 2 ^ 32 = n + 1 := by
        rw [hp]; omega
      rw [hjval]
      obtain ⟨rest, hrest, hp1, _⟩ := ih (i + 1) (n + 1) true (by omega) (fun _ => rfl)
        (fun h => by cases h)
      rw [hrest]
      refine ⟨(n + 1) :: rest, rfl, fun _ => ?_, fun h => by cases h⟩
      rw [List.range'_1_concat, Nat.add_comm 1 n]
      exact ((hp1 rfl).cons (n + 1)).trans (List.perm_append_singleton (n + 1) _).symm

theorem perm_range_succ_some (i : Nat) (mid : List (Option Nat))
    (hp : mid.Perm ((List.range i).map some)) :
    (some i :: mid).Perm ((List.range (i + 1)).map some) := by
  rw [List.range_succ, List.map_append]
  exact (hp.cons (some i)).trans (List.perm_append_singleton (some i) _).symm

theorem cpu_module_init_loop_stacks (b : Nat) (ids : List Nat) (tl : List (Option Nat))
    (h32 : ids.length < 2 ^ 32) :
    ∀ (n i j : Nat) (found : Bool) (cpus : List cpu) (hd mid : List (Option Nat)),
      i + n = ids.length →
      cpus.map cpu.stack_bottom = hd ++ mid ++ tl →
      hd.length = j → j + mid.length = ids.length →
      (found = false → mid.Perm ((List.range i).map some)) →
      (found = true → ∃ (x : Option Nat) (hd1 : List (Option Nat)),
        hd = x :: hd1 ∧ (x :: mid).Perm ((List.range i).map some)) →
      ∃ (j1 : Nat) (found1 : Bool) (cpus1 : List cpu) (mid1 : List (Option Nat)),
        cpu_module_init_loop b ids n i j found cpus = some (j1, found1, cpus1) ∧
        (found1 = false → cpus1.map cpu.stack_bottom = mid1 ++ tl ∧
          mid1.Perm ((List.range ids.length).map some)) ∧
        (found1 = true → ∃ x : Option Nat, cpus1.map cpu.stack_bottom = x :: mid1 ++ tl ∧
          (x :: mid1).Perm ((List.range ids.length).map some)) := by
  have hp32 : (2 : Nat) ^ 32 = 4294967296 := by norm_num
  rw [hp32] at h32
  intro n
  induction n with
  | zero =>
    intro i j found cpus hd mid hi hrow hlen hjm hnf hf
    have hil : i = ids.length := by omega
    subst hil
    cases found
    · have hp := hnf rfl
      have hl := hp.length_eq
      simp only [List.length_map, List.length_range] at hl
      have hd0 : hd = [] := List.length_eq_zero.1 (by omega)
      subst hd0
      exact ⟨j, false, cpus, mid, rfl, fun _ => ⟨by simpa using hrow, hp⟩,
        fun h => by cases h⟩
    · obtain ⟨x, hd1, hhd, hp⟩ := hf rfl
      have hl := hp.length_eq
      simp only [List.length_map, List.length_range, List.length_cons] at hl
      subst hhd
      have hd0 : hd1 = [] := List.length_eq_zero.1 (by simp at hlen; omega)
      subst hd0
      exact ⟨j, true, cpus, mid, rfl, (fun h => by cases h),
        fun _ => ⟨x, by simpa using hrow, hp⟩⟩
  | succ n ih =>
    intro i j found cpus hd mid hi hrow hlen hjm hnf hf
    have hilt : i < ids.length := by omega
    have hget : ids[i]? = some ids[i] := List.getElem?_eq_getElem hilt
    have hclen : cpus.length = hd.length + mid.length + tl.length := by
      have := congrArg List.length hrow
      simp only [List.length_map, List.length_append] at this
      omega
    unfold cpu_module_init_loop
    rw [hget]
    simp only
    cases found
    · have hp := hnf rfl
      have hl := hp.length_eq
      simp only [List.length_map, List.length_range] at hl
      have hj1 : 1 ≤ j := by omega
      by_cases hid : ids[i] = b
      · have hcond : ¬ ((false || ids[i] != b) = true) := by simp [hid]
        rw [if_neg hcond]
        have hclt : 0 < cpus.length := by omega
        rw [List.getElem?_eq_getElem hclt]
        simp only
        cases hd with
        | nil => simp at hlen; omega
        | cons y hd1 =>
          apply ih (i + 1) j true _ (some i :: hd1) mid (by omega) ?_ (by simpa using hlen) hjm
            (fun h => by cases h)
            (fun _ => ⟨some i, hd1, rfl, perm_range_succ_some i mid hp⟩)
          rw [List.map_set, hrow]
          rfl
      · have hcond : (false || ids[i] != b) = true := by simp [hid]
        rw [if_pos hcond]
        have hjval : (j + 2 ^ 32 - 1) % 2 ^ 32 = j - 1 := by
          rw [hp32]; omega
        rw [hjval]
        have hjlt : j - 1 < cpus.length := by omega
        rw [List.getElem?_eq_getElem hjlt]
        simp only
        rcases List.eq_nil_or_concat hd with hnil | ⟨L, y, hL⟩
        · subst hnil; simp at hlen; omega
        · rw [List.concat_eq_append] at hL
          subst hL
          have hLlen : L.length = j - 1 := by
            simp at hlen; omega
          apply ih (i + 1) (j - 1) false _ L (some i :: mid) (by omega) ?_ hLlen
            (by simp; omega) (fun _ => perm_range_succ_some i mid hp) (fun h => by cases h)
          rw [List.map_set, hrow]
          have hmid := list_set_mid L (mid ++ tl) y (some i)
          rw [hLlen] at hmid
          simpa [List.append_assoc] using hmid
    · obtain ⟨x, hd1, hhd, hp⟩ := hf rfl
      have hl := hp.length_eq
      simp only [List.length_map, List.length_range, List.length_cons] at hl
      subst hhd
      have hcond : (true || ids[i] != b) = true := by simp
      rw [if_pos hcond]
      have hjval : (j + 2 ^ 32 - 1) % 2 ^ 32 = j - 1 := by
        rw [hp32]; simp at hlen; omega
      rw [hjval]
      have hjlt : j - 1 < cpus.length := by simp at hlen hclen; omega
      rw [List.getElem?_eq_getElem hjlt]
      simp only
      rcases List.eq_nil_or_concat hd1 with hnil | ⟨L, y, hL⟩
      · subst hnil; simp at hlen; omega
      · rw [List.concat_eq_append] at hL
        subst hL
        have hLlen : (x :: L).length = j - 1 := by
          simp at hlen ⊢; omega
        apply ih (i + 1) (j - 1) true _ (x :: L) (some i :: mid) (by omega) ?_ hLlen
          (by simp; omega) (fun h => by cases h)
          (fun _ => ⟨x, L, rfl,
            (List.Perm.swap x (some i) mid).symm.trans (perm_range_succ_some i _ hp)⟩)
        rw [List.map_set, hrow]
        have hmid := list_set_mid (x :: L) (mid ++ tl) y (some i)
        rw [hLlen] at hmid
        simpa [List.append_assoc] using hmid

/-- For every id list of length `count ≤ MAX_CPUS` (`count` below `2^32`,
boot id present or not, duplicates allowed) the slot indices chosen by the
loop of `cpu_module_init` are a permutation of `0, ..., count-1`, the function
returns, and afterwards the `stack_bottom` fields of slots `0..count-1` are a
permutation of the tops of `callstacks[0..count-1]`, hence pairwise
distinct. -/
theorem cpu_module_init_stacks (P : Platform) (s : State P) (ids : List Nat) (c0 : cpu)
    (h0 : s.cpus[0]? = some c0) (hle : ids.length ≤ s.cpus.length)
    (h32 : ids.length < 2 ^ 32) :
    ∃ (σ : List Nat) (s1 : State P),
      cpu_module_init_trace s ids ids.length = some σ ∧
      σ.Perm (List.range ids.length) ∧
      cpu_module_init s ids ids.length = some s1 ∧
      ((s1.cpus.take ids.length).map cpu.stack_bottom).Perm
        ((List.range ids.length).map some) ∧
      ((s1.cpus.take ids.length).map cpu.stack_bottom).Nodup := by
  have hmod : ids.length % 2 ^ 32 = ids.length := Nat.mod_eq_of_lt h32
  obtain ⟨σ, hσ, _, hσp⟩ := slots_written_perm c0.id ids h32 ids.length 0 ids.length false
    (by omega) (fun h => by cases h) (fun _ => rfl)
  have htrace : cpu_module_init_trace s ids ids.length = some σ := by
    unfold cpu_module_init_trace
    rw [h0]
    simp only [hmod]
    exact hσ
  have hnd : ((List.range ids.length).map (some : Nat → Option Nat)).Nodup :=
    (List.nodup_range ids.length).map (Option.some_injective Nat)
  have hM : 0 < s.cpus.length := by
    rcases Nat.lt_or_ge 0 s.cpus.length with h | h
    · exact h
    · rw [List.getElem?_eq_none h] at h0; cases h0
  obtain ⟨j1, found1, cpus1, mid1, hloop, hnf, hf⟩ :=
    cpu_module_init_loop_stacks c0.id ids ((s.cpus.map cpu.stack_bottom).drop ids.length) h32
      ids.length 0 ids.length false s.cpus ((s.cpus.map cpu.stack_bottom).take ids.length) []
      (by omega) (by simp) (by simp [hle]) (by simp) (fun _ => by simp)
      (fun h => by cases h)
  have hrowp : ∀ cpusF : List cpu,
      (∃ row : List (Option Nat), cpusF.map cpu.stack_bottom =
          row ++ (s.cpus.map cpu.stack_bottom).drop ids.length ∧
        row.Perm ((List.range ids.length).map some)) →
      ((cpusF.take ids.length).map cpu.stack_bottom).Perm
        ((List.range ids.length).map some) := by
    rintro cpusF ⟨row, hrow, hperm⟩
    have hl := hperm.length_eq
    simp only [List.length_map, List.length_range] at hl
    rw [List.map_take, hrow, take_of_append_length _ _ _ hl]
    exact hperm
  unfold cpu_module_init
  rw [h0]
  simp only [hmod, hloop]
  cases hf1 : found1
  · obtain ⟨hrow1, hperm⟩ := hnf hf1
    have hl := hperm.length_eq
    simp only [List.length_map, List.length_range] at hl
    have hclen : cpus1.length = s.cpus.length := by
      have := congrArg List.length hrow1
      simp only [List.length_map, List.length_append, List.length_drop] at this
      omega
    have hclt : 0 < cpus1.length := by omega
    rw [List.getElem?_eq_getElem hclt]
    simp only [Bool.not_false, if_true]
    have hsame : (cpus1.set 0 { cpus1[0] with id := c0.id }).map cpu.stack_bottom =
        mid1 ++ (s.cpus.map cpu.stack_bottom).drop ids.length := by
      have h00 : (cpus1.map cpu.stack_bottom)[0]? = some cpus1[0].stack_bottom := by
        rw [List.getElem?_map, List.getElem?_eq_getElem hclt]
        rfl
      rw [List.map_set, list_set_same _ 0 _ h00]
      exact hrow1
    have hp := hrowp _ ⟨mid1, hsame, hperm⟩
    exact ⟨σ, _, htrace, hσp rfl, rfl, hp, (hp.nodup_iff).2 hnd⟩
  · obtain ⟨x, hrow1, hperm⟩ := hf hf1
    simp only [Bool.not_true]
    have hp := hrowp cpus1 ⟨x :: mid1, by simpa using hrow1, hperm⟩
    exact ⟨σ, _, htrace, hσp rfl, rfl, hp, (hp.nodup_iff).2 hnd⟩

/-- The demo registry (slot 0 has id 0) and the id list `[3, 0]`. -/
theorem cpu_module_init_stacks_witness :
    ∃ (σ : List Nat) (s1 : State demo),
      cpu_module_init_trace demo_state [3, 0] 2 = some σ ∧
      σ.Perm (List.range 2) ∧
      cpu_module_init demo_state [3, 0] 2 = some s1 ∧
      ((s1.cpus.take 2).map cpu.stack_bottom).Perm ((List.range 2).map some) ∧
      ((s1.cpus.take 2).map cpu.stack_bottom).Nodup :=
  cpu_module_init_stacks demo demo_state [3, 0]
    { id := 0, stack_bottom := some 0, is_on := true } rfl (by decide) (by decide)

/-! ## Theorems: VM node names -/

theorem decimal_step (v : Nat) :
    decimal v = if v / 10 ≠ 0 then decimal (v / 10) ++ [48 + v % 10] else [48 + v % 10] := by
  by_cases h : v / 10 = 0
  · have hlt : v < 10 := by omega
    rw [if_neg (by simpa using h)]
    by_cases h0 : v = 0
    · subst h0; rfl
    · unfold decimal
      rw [if_neg h0, Nat.digits_of_lt 10 v h0 hlt, Nat.mod_eq_of_lt hlt]
      rfl
  · rw [if_pos h]
    have hpos : 0 < v := by omega
    have h0 : v ≠ 0 := by omega
    unfold decimal
    rw [if_neg h0, if_neg h, Nat.digits_def' (by norm_num) hpos]
    simp

theorem decimal_length_pos (v : Nat) : 1 ≤ (decimal v).length := by
  rw [decimal_step]
  split <;> simp

theorem decimal_length_le : ∀ (n v : Nat), 1 ≤ n → v < 10 ^ n → (decimal v).length ≤ n := by
  intro n
  induction n with
  | zero => intro v h; omega
  | succ n ih =>
    intro v _ hv
    rw [decimal_step]
    split
    · rename_i h
      have hn : 1 ≤ n := by
        rcases Nat.eq_zero_or_pos n with h0 | h0
        · subst h0
          simp at hv
          omega
        · exact h0
      have hv' : v / 10 < 10 ^ n := by
        rw [Nat.pow_succ] at hv
        exact Nat.div_lt_of_lt_mul (by rw [Nat.mul_comm]; exact hv)
      have := ih (v / 10) hn hv'
      simp
      omega
    · simp

theorem decimal_ne_zero (v : Nat) : ∀ b ∈ decimal v, b ≠ 0 := by
  intro b hb
  unfold decimal at hb
  split at hb
  · simp at hb; omega
  · simp at hb
    obtain ⟨d, _, hd⟩ := hb
    omega

theorem decimal_injective (a b : Nat) (h : decimal a = decimal b) : a = b := by
  have key : ∀ n : Nat, decimal n =
      ((if n = 0 then [0] else Nat.digits 10 n).reverse).map (fun d => 48 + d) := by
    intro n
    unfold decimal
    split <;> rfl
  rw [key a, key b] at h
  have hinj : Function.Injective (fun d : Nat => 48 + d) := fun x y hxy => by
    simp at hxy; exact hxy
  have h2 := List.reverse_injective ((List.map_injective_iff.2 hinj) h)
  have hof : ∀ n : Nat, Nat.ofDigits 10 (if n = 0 then [0] else Nat.digits 10 n) = n := by
    intro n
    split
    · rename_i h0; subst h0; rfl
    · exact Nat.ofDigits_digits 10 n
  rw [← hof a, ← hof b, h2]

theorem generate_loop_spec : ∀ (p : Nat) (buf : List Nat) (v : Nat),
    (decimal v).length ≤ p → p ≤ buf.length →
    generate_vm_node_name_loop buf p v =
      some (p - (decimal v).length,
        buf.take (p - (decimal v).length) ++ decimal v ++ buf.drop p) := by
  intro p
  induction p with
  | zero =>
    intro buf v h _
    have := decimal_length_pos v
    omega
  | succ p ih =>
    intro buf v hk hp
    have hplt : p < buf.length := by omega
    unfold generate_vm_node_name_loop
    simp only [buf_store, hplt, if_true]
    have hset : buf.set p (48 + v % 10) = buf.take p ++ (48 + v % 10) :: buf.drop (p + 1) :=
      List.set_eq_take_cons_drop _ hplt
    have htl : (buf.take p).length = p := List.length_take_of_le (by omega)
    rw [decimal_step v] at hk ⊢
    by_cases h : v / 10 ≠ 0
    · rw [if_pos h] at hk ⊢
      rw [if_pos h]
      have hk' : (decimal (v / 10)).length ≤ p := by
        simp at hk; omega
      have hpos := decimal_length_pos (v / 10)
      rw [ih _ (v / 10) hk' (by simp; omega)]
      rw [hset]
      have e1 : p + 1 - (decimal (v / 10) ++ [48 + v % 10]).length =
          p - (decimal (v / 10)).length := by simp
      rw [e1]
      rw [List.take_append_of_le_length (by omega), List.take_take,
        Nat.min_eq_left (by omega), List.drop_left' htl]
      simp
    · rw [if_neg h] at hk ⊢
      rw [if_neg h]
      rw [hset]
      simp

theorem buf_split (buf : List Nat) (a : Nat) (hlen : buf.length = 8) (ha : a ≤ 5) :
    ∃ (A C : List Nat) (x y z : Nat), buf = A ++ x :: y :: (C ++ [z]) ∧
      A.length = a ∧ C.length = 5 - a := by
  have hB : (buf.drop a).length = 8 - a := by simp [hlen]
  rcases hd : buf.drop a with _ | ⟨x, _ | ⟨y, R⟩⟩
  · rw [hd] at hB; simp at hB; omega
  · rw [hd] at hB; simp at hB; omega
  · rw [hd] at hB
    simp at hB
    rcases List.eq_nil_or_concat R with hnil | ⟨C, z, hC⟩
    · subst hnil; simp at hB; omega
    · rw [List.concat_eq_append] at hC
      subst hC
      refine ⟨buf.take a, C, x, y, z, ?_, List.length_take_of_le (by omega), ?_⟩
      · rw [← hd, List.take_append_drop]
      · simp at hB; omega

theorem takeWhile_nul (l rest : List Nat) (h : ∀ b ∈ l, b ≠ 0) :
    (l ++ 0 :: rest).takeWhile (fun b => b != 0) = l := by
  rw [List.takeWhile_append_of_pos (by intro a ha; simpa using h a ha)]
  simp

theorem generate_vm_node_name_eq (buf : List Nat) (vm_id : Nat)
    (hbuf : buf.length = VM_NAME_BUF_SIZE) (hid : vm_id ≤ 65535) :
    generate_vm_node_name buf vm_id =
      some (5 - (decimal vm_id).length,
        buf.take (5 - (decimal vm_id).length) ++ vm_node_name vm_id ++ [0]) := by
  have hk : (decimal vm_id).length ≤ 5 := decimal_length_le 5 vm_id (by norm_num) (by omega)
  have hk1 := decimal_length_pos vm_id
  have hbuf8 : buf.length = 8 := hbuf
  obtain ⟨A, C, x, y, z, hsplit, hA, hC⟩ := buf_split buf (5 - (decimal vm_id).length) hbuf8
    (by omega)
  subst hsplit
  have hb1 : (A ++ x :: y :: (C ++ [z])).set 7 0 = A ++ x :: y :: (C ++ [0]) := by
    have h7 : 7 = (A ++ x :: y :: C).length := by simp; omega
    have := list_set_mid (A ++ x :: y :: C) [] z 0
    rw [← h7] at this
    simpa using this
  unfold generate_vm_node_name
  have h78 : VM_NAME_BUF_SIZE - 1 = 7 := rfl
  rw [h78]
  simp only [buf_store, hbuf8, show (7 : Nat) < 8 by norm_num, if_true, hb1]
  rw [generate_loop_spec 7 _ vm_id (by omega) (by simp; omega)]
  have e1 : 7 - (decimal vm_id).length = A.length + 1 + 1 := by omega
  have e2 : (A ++ x :: y :: (C ++ [0])).take (A.length + 1 + 1) = A ++ [x, y] := by
    have : (A ++ x :: y :: (C ++ [0])) = (A ++ [x, y]) ++ (C ++ [0]) := by simp
    rw [this]
    exact take_of_append_length _ _ _ (by simp)
  have e3 : (A ++ x :: y :: (C ++ [0])).drop 7 = [0] := by
    have : (A ++ x :: y :: (C ++ [0])) = (A ++ x :: y :: C) ++ [0] := by simp
    rw [this]
    exact List.drop_left' (by simp; omega)
  rw [e1, e2, e3]
  simp only
  have hl1 : A.length + 1 < (A ++ [x, y] ++ decimal vm_id ++ [0]).length := by simp
  simp only [buf_store, hl1, if_true]
  have hs1 : (A ++ [x, y] ++ decimal vm_id ++ [0]).set (A.length + 1) 109 =
      A ++ [x, 109] ++ decimal vm_id ++ [0] := by
    have := list_set_mid (A ++ [x]) (decimal vm_id ++ [0]) y 109
    simp at this
    simp [this]
  rw [hs1]
  have hl2 : A.length < (A ++ [x, 109] ++ decimal vm_id ++ [0]).length := by simp
  simp only [hl2, if_true]
  have hs2 : (A ++ [x, 109] ++ decimal vm_id ++ [0]).set A.length 118 =
      A ++ [118, 109] ++ decimal vm_id ++ [0] := by
    have := list_set_mid A (109 :: decimal vm_id ++ [0]) x 118
    simp at this
    simp [this]
  rw [hs2]
  have e4 : 5 - (decimal vm_id).length = A.length := by omega
  rw [e4]
  have e5 : (A ++ x :: y :: (C ++ [z])).take A.length = A := List.take_left A _
  rw [e5]
  simp [vm_node_name]

/-- C19: for every `vm_id` in `0..65535` and every buffer of `VM_NAME_BUF_SIZE`
bytes, `generate_vm_node_name` returns without a store outside the buffer; the
returned pointer lies inside the buffer, the bytes from it to the end of the
buffer are "vm", the decimal representation of `vm_id` without leading zeros
and the NUL terminator, the bytes before it are untouched, and distinct ids
give distinct names. -/
theorem generate_vm_node_name_spec (buf : List Nat) (vm_id : Nat)
    (hbuf : buf.length = VM_NAME_BUF_SIZE) (hid : vm_id ≤ 65535) :
    ∃ (ptr : Nat) (buf1 : List Nat),
      generate_vm_node_name buf vm_id = some (ptr, buf1) ∧
      ptr < VM_NAME_BUF_SIZE ∧ buf1.length = VM_NAME_BUF_SIZE ∧
      buf1.drop ptr = vm_node_name vm_id ++ [0] ∧
      c_string buf1 ptr = vm_node_name vm_id ∧
      buf1.take ptr = buf.take ptr ∧
      (∀ id2 : Nat, vm_node_name id2 = vm_node_name vm_id → id2 = vm_id) := by
  have hk : (decimal vm_id).length ≤ 5 := decimal_length_le 5 vm_id (by norm_num) (by omega)
  have hk1 := decimal_length_pos vm_id
  have hbuf8 : buf.length = 8 := hbuf
  have htl : (buf.take (5 - (decimal vm_id).length)).length = 5 - (decimal vm_id).length :=
    List.length_take_of_le (by omega)
  have hdrop : (buf.take (5 - (decimal vm_id).length) ++ vm_node_name vm_id ++ [0]).drop
      (5 - (decimal vm_id).length) = vm_node_name vm_id ++ [0] := by
    rw [List.append_assoc]
    exact List.drop_left' htl
  refine ⟨_, _, generate_vm_node_name_eq buf vm_id hbuf hid, ?_, ?_, hdrop, ?_, ?_, ?_⟩
  · show 5 - (decimal vm_id).length < 8
    omega
  · show _ = 8
    simp [vm_node_name, htl]
    omega
  · unfold c_string
    rw [hdrop]
    apply takeWhile_nul
    intro b hb
    simp only [vm_node_name, List.mem_cons] at hb
    rcases hb with rfl | rfl | hb
    · norm_num
    · norm_num
    · exact decimal_ne_zero vm_id b hb
  · rw [List.append_assoc]
    exact take_of_append_length _ _ _ htl
  · intro id2 h
    simp only [vm_node_name, List.cons.injEq, true_and] at h
    exact decimal_injective id2 vm_id h

/-- Witness of C19: the name of VM 1 in a zeroed buffer. -/
theorem generate_vm_node_name_spec_witness :
    ∃ (ptr : Nat) (buf1 : List Nat),
      generate_vm_node_name (List.replicate 8 0) 1 = some (ptr, buf1) ∧
      ptr < VM_NAME_BUF_SIZE ∧ buf1.length = VM_NAME_BUF_SIZE ∧
      buf1.drop ptr = vm_node_name 1 ++ [0] ∧
      c_string buf1 ptr = vm_node_name 1 ∧
      buf1.take ptr = (List.replicate 8 0).take ptr ∧
      (∀ id2 : Nat, vm_node_name id2 = vm_node_name 1 → id2 = 1) :=
  generate_vm_node_name_spec (List.replicate 8 0) 1 (by decide) (by decide)

/-! ## Theorems: string properties -/

theorem memchr_append (s t : List Nat) (c : Nat) (hs : c ∉ s) :
    memchr (s ++ c :: t) c = some s.length := by
  induction s with
  | nil => simp [memchr]
  | cons b s ih =>
    have hb : b ≠ c := fun h => hs (by simp [h])
    have hs' : c ∉ s := fun h => hs (by simp [h])
    simp [memchr, hb, ih hs']

theorem memchr_none (l : List Nat) (c : Nat) (h : c ∉ l) : memchr l c = none := by
  induction l with
  | nil => rfl
  | cons b l ih =>
    have hb : b ≠ c := fun hbc => h (by simp [hbc])
    have hl : c ∉ l := fun hcl => h (by simp [hcl])
    simp [memchr, hb, ih hl]

theorem memchr_some (l : List Nat) (c k : Nat) (h : memchr l c = some k) :
    ∃ s t : List Nat, l = s ++ c :: t ∧ c ∉ s ∧ s.length = k := by
  induction l generalizing k with
  | nil => cases h
  | cons b l ih =>
    unfold memchr at h
    split at h
    · rename_i hb
      cases h
      exact ⟨[], l, by simp [hb], by simp, rfl⟩
    · rename_i hb
      split at h
      · cases h
      · rename_i k1 hk1
        cases h
        obtain ⟨s, t, hl, hs, hlen⟩ := ih k1 hk1
        refine ⟨b :: s, t, by simp [hl], ?_, by simp [hlen]⟩
        intro hmem
        rcases List.mem_cons.1 hmem with h1 | h1
        · exact hb h1.symm
        · exact hs h1

theorem memchr_of_mem (l : List Nat) (c : Nat) (h : c ∈ l) : ∃ k, memchr l c = some k := by
  cases hm : memchr l c with
  | some k => exact ⟨k, rfl⟩
  | none =>
    exfalso
    induction l with
    | nil => cases h
    | cons b l ih =>
      unfold memchr at hm
      split at hm
      · cases hm
      · rename_i hb
        split at hm
        · rename_i hk
          rcases List.mem_cons.1 h with h1 | h1
          · exact hb h1.symm
          · exact ih h1 hk
        · cases hm

theorem nul_last_iff (data : List Nat) (hsize : 1 ≤ data.length) :
    memchr data 0 = some (size_minus_one data.length) ↔
      (data.count 0 = 1 ∧ data.getLast? = some 0) := by
  have hsz : size_minus_one data.length = data.length - 1 := by
    unfold size_minus_one
    rw [if_neg (by omega)]
  rw [hsz]
  constructor
  · intro h
    obtain ⟨s, t, hl, hs, hlen⟩ := memchr_some data 0 _ h
    have ht : t = [] := by
      have := congrArg List.length hl
      simp at this
      exact List.length_eq_zero.1 (by omega)
    subst ht
    subst hl
    refine ⟨?_, List.getLast?_concat s⟩
    rw [List.count_append, List.count_eq_zero_of_not_mem hs]
    rfl
  · rintro ⟨hc, hlast⟩
    obtain ⟨s, hs⟩ := List.getLast?_eq_some_iff.1 hlast
    subst hs
    have hns : (0 : Nat) ∉ s := by
      rw [List.count_append] at hc
      have h1 : List.count 0 [0] = 1 := rfl
      rw [h1] at hc
      exact List.count_eq_zero.1 (by omega)
    rw [memchr_append s [] 0 hns]
    simp

/-- C17: for a property value of `size ≥ 1` bytes and any capacity `out_sz`,
`extract_string` returns MANIFEST_SUCCESS exactly when the value contains
exactly one NUL byte, that byte is its last, and `size ≤ out_sz`; on success
the first `size` bytes of `out` are the value; a value that breaks the NUL
rule gives MANIFEST_ERROR_MALFORMED_STRING (whatever its length) and a value
that obeys it with `size > out_sz` gives MANIFEST_ERROR_STRING_TOO_LONG, in
both cases with `out` untouched. -/
theorem extract_string_spec (data out : List Nat) (out_sz : Nat)
    (hsize : 1 ≤ data.length) :
    ((extract_string data out out_sz).1 = MANIFEST_SUCCESS ↔
      (data.count 0 = 1 ∧ data.getLast? = some 0 ∧ data.length ≤ out_sz)) ∧
    ((extract_string data out out_sz).1 = MANIFEST_SUCCESS →
      (extract_string data out out_sz).2.take data.length = data) ∧
    (¬ (data.count 0 = 1 ∧ data.getLast? = some 0) →
      extract_string data out out_sz = (MANIFEST_ERROR_MALFORMED_STRING, out)) ∧
    (data.count 0 = 1 → data.getLast? = some 0 → data.length > out_sz →
      extract_string data out out_sz = (MANIFEST_ERROR_STRING_TOO_LONG, out)) := by
  have key := nul_last_iff data hsize
  by_cases hnul : memchr data 0 = some (size_minus_one data.length)
  · have hrule := key.1 hnul
    by_cases hlen : data.length > out_sz
    · have hres : extract_string data out out_sz = (MANIFEST_ERROR_STRING_TOO_LONG, out) := by
        simp [extract_string, hnul, hlen]
      rw [hres]
      refine ⟨?_, ?_, ?_, ?_⟩
      · simp; intro _ _; omega
      · intro h; cases h
      · intro h; exact absurd hrule h
      · intro _ _ _; rfl
    · have hres : extract_string data out out_sz = (MANIFEST_SUCCESS, memcpy_s out data) := by
        simp [extract_string, hnul, hlen]
      rw [hres]
      refine ⟨?_, ?_, ?_, ?_⟩
      · simp; exact ⟨hrule.1, hrule.2, by omega⟩
      · intro _
        exact List.take_left data _
      · intro h; exact absurd hrule h
      · intro _ _ h; exact absurd h hlen
  · have hrule : ¬ (data.count 0 = 1 ∧ data.getLast? = some 0) := fun h => hnul (key.2 h)
    have hres : extract_string data out out_sz = (MANIFEST_ERROR_MALFORMED_STRING, out) := by
      simp [extract_string, hnul]
    rw [hres]
    refine ⟨?_, ?_, ?_, ?_⟩
    · simp; intro h1 h2; exact absurd ⟨h1, h2⟩ hrule
    · intro h; cases h
    · intro _; rfl
    · intro h1 h2 _; exact absurd ⟨h1, h2⟩ hrule

/-- Witness of C17: the value "ab\0" and a buffer of four bytes. -/
theorem extract_string_spec_witness :
    extract_string [97, 98, 0] [0, 0, 0, 0] 4 = (MANIFEST_SUCCESS, [97, 98, 0, 0]) ∧
    ((extract_string [97, 98, 0] [0, 0, 0, 0] 4).1 = MANIFEST_SUCCESS ↔
      (([97, 98, 0] : List Nat).count 0 = 1 ∧ ([97, 98, 0] : List Nat).getLast? = some 0 ∧
        ([97, 98, 0] : List Nat).length ≤ 4)) :=
  ⟨by decide, (extract_string_spec [97, 98, 0] [0, 0, 0, 0] 4 (by decide)).1⟩

/-! ## Theorems: string lists and return codes -/

theorem split_no_nul (e : List Nat) (h : 0 ∉ e) : split_at_nul e = [e] := by
  induction e with
  | nil => rfl
  | cons b e ih =>
    have hb : b ≠ 0 := fun hb0 => h (by simp [hb0])
    have he : 0 ∉ e := fun he0 => h (by simp [he0])
    simp [split_at_nul, hb, ih he]

theorem split_append_nul (e t : List Nat) (h : 0 ∉ e) :
    split_at_nul (e ++ 0 :: t) = e :: split_at_nul t := by
  induction e with
  | nil => simp [split_at_nul]
  | cons b e ih =>
    have hb : b ≠ 0 := fun hb0 => h (by simp [hb0])
    have he : 0 ∉ e := fun he0 => h (by simp [he0])
    simp [split_at_nul, hb, ih he]

theorem stringlist_contains_loop_spec (s : List Nat) (hs : s ≠ []) :
    ∀ (fuel : Nat) (it : List Nat), it.length ≤ fuel →
      stringlist_contains_loop s fuel it = some (decide (s ∈ split_at_nul it)) := by
  have hempty : stringlist_contains_loop s 0 [] = some (decide (s ∈ split_at_nul [])) := by
    simp [stringlist_contains_loop, stringlist_has_next, split_at_nul, hs]
  intro fuel
  induction fuel with
  | zero =>
    intro it hlen
    have : it = [] := List.length_eq_zero.1 (by omega)
    subst this
    exact hempty
  | succ fuel ih =>
    intro it hlen
    by_cases hnil : it = []
    · subst hnil
      simp [stringlist_contains_loop, stringlist_has_next, split_at_nul, hs]
    · have hpos : 0 < it.length := List.length_pos.2 hnil
      have hnext : stringlist_has_next it = true := by simp [stringlist_has_next, hpos]
      unfold stringlist_contains_loop
      simp only [hnext, if_true, stringlist_get_next]
      cases hm : memchr it 0 with
      | none =>
        have hno : 0 ∉ it := by
          intro h
          obtain ⟨k, hk⟩ := memchr_of_mem it 0 h
          rw [hk] at hm
          cases hm
        simp only [List.drop_length]
        rw [split_no_nul it hno]
        by_cases he : it = s
        · simp [memiter_iseq, he]
        · have he' : ¬ s = it := fun h => he h.symm
          simp only [memiter_iseq, he, decide_False, Bool.false_eq_true, if_false]
          rw [ih [] (by simp)]
          simp [split_at_nul, hs, he']
      | some k =>
        obtain ⟨e, t, hl, he0, hk⟩ := memchr_some it 0 k hm
        subst hl
        subst hk
        have htake : (e ++ 0 :: t).take e.length = e := List.take_left e _
        have hdrop : (e ++ 0 :: t).drop (e.length + 1) = t := by
          have : e ++ 0 :: t = (e ++ [0]) ++ t := by simp
          rw [this]
          exact List.drop_left' (by simp)
        simp only [htake, hdrop]
        rw [split_append_nul e t he0]
        by_cases he : e = s
        · simp [memiter_iseq, he]
        · have he' : ¬ s = e := fun h => he h.symm
          simp only [memiter_iseq, he, decide_False, Bool.false_eq_true, if_false]
          rw [ih t (by simp at hlen; omega)]
          simp [he']

theorem read_string_code (F : Fdt) (node : F.fdt_node) (property out : List Nat)
    (out_sz : Nat) :
    (read_string F node property out out_sz).1 = MANIFEST_SUCCESS ∨
    (read_string F node property out out_sz).1 = MANIFEST_ERROR_PROPERTY_NOT_FOUND ∨
    (read_string F node property out out_sz).1 = MANIFEST_ERROR_MALFORMED_STRING ∨
    (read_string F node property out out_sz).1 = MANIFEST_ERROR_STRING_TOO_LONG := by
  unfold read_string extract_string
  split
  · simp
  · split
    · simp
    · split <;> simp

theorem read_optional_string_code (F : Fdt) (node : F.fdt_node) (property out : List Nat)
    (out_sz : Nat) :
    (read_optional_string F node property out out_sz).1 = MANIFEST_SUCCESS ∨
    (read_optional_string F node property out out_sz).1 = MANIFEST_ERROR_MALFORMED_STRING ∨
    (read_optional_string F node property out out_sz).1 = MANIFEST_ERROR_STRING_TOO_LONG := by
  unfold read_optional_string extract_string
  split
  · split <;> simp
  · split
    · simp
    · split <;> simp

theorem read_uint64_code (F : Fdt) (node : F.fdt_node) (property : List Nat) (out : Nat) :
    (read_uint64 F node property out).1 = MANIFEST_SUCCESS ∨
    (read_uint64 F node property out).1 = MANIFEST_ERROR_PROPERTY_NOT_FOUND ∨
    (read_uint64 F node property out).1 = MANIFEST_ERROR_MALFORMED_INTEGER := by
  unfold read_uint64
  split
  · simp
  · split <;> simp

theorem read_uint16_code (F : Fdt) (node : F.fdt_node) (property : List Nat) (out : Nat) :
    (read_uint16 F node property out).1 = MANIFEST_SUCCESS ∨
    (read_uint16 F node property out).1 = MANIFEST_ERROR_PROPERTY_NOT_FOUND ∨
    (read_uint16 F node property out).1 = MANIFEST_ERROR_MALFORMED_INTEGER ∨
    (read_uint16 F node property out).1 = MANIFEST_ERROR_INTEGER_OVERFLOW := by
  unfold read_uint16
  split
  · split <;> simp
  · rename_i rc v hne heq
    have h := read_uint64_code F node property 0
    rw [heq] at h
    simp only at h ⊢
    rcases h with h | h | h
    · exact (hne h).elim
    · simp [h]
    · simp [h]

/-- The return codes that belong to the parsing of one VM node. -/
theorem parse_vm_code (F : Fdt) (node : F.fdt_node) (vm : manifest_vm) (vm_id : Nat) :
    (parse_vm F node vm vm_id).1 = MANIFEST_SUCCESS ∨
    (parse_vm F node vm vm_id).1 = MANIFEST_ERROR_PROPERTY_NOT_FOUND ∨
    (parse_vm F node vm vm_id).1 = MANIFEST_ERROR_MALFORMED_STRING ∨
    (parse_vm F node vm vm_id).1 = MANIFEST_ERROR_STRING_TOO_LONG ∨
    (parse_vm F node vm vm_id).1 = MANIFEST_ERROR_MALFORMED_INTEGER ∨
    (parse_vm F node vm vm_id).1 = MANIFEST_ERROR_INTEGER_OVERFLOW := by
  unfold parse_vm
  have h1 := read_string_code F node str_debug_name vm.debug_name F.debug_name_size
  rcases hr1 : read_string F node str_debug_name vm.debug_name F.debug_name_size with ⟨c1, dn⟩
  rw [hr1] at h1
  simp only at h1
  rcases h1 with h1 | h1 | h1 | h1 <;> subst h1 <;> simp only
  · have h2 := read_optional_string_code F node str_kernel_filename vm.kernel_filename
      F.kernel_filename_size
    rcases hr2 : read_optional_string F node str_kernel_filename vm.kernel_filename
      F.kernel_filename_size with ⟨c2, kf⟩
    rw [hr2] at h2
    simp only at h2
    rcases h2 with h2 | h2 | h2 <;> subst h2 <;> simp only
    · split
      · have h3 := read_uint64_code F node str_mem_size vm.secondary_mem_size
        rcases hr3 : read_uint64 F node str_mem_size vm.secondary_mem_size with ⟨c3, ms⟩
        rw [hr3] at h3
        simp only at h3
        rcases h3 with h3 | h3 | h3 <;> subst h3 <;> simp only
        · have h4 := read_uint16_code F node str_vcpu_count vm.secondary_vcpu_count
          rcases hr4 : read_uint16 F node str_vcpu_count vm.secondary_vcpu_count with ⟨c4, vc⟩
          rw [hr4] at h4
          simp only at h4
          rcases h4 with h4 | h4 | h4 | h4 <;> subst h4 <;> simp
        · simp
        · simp
      · simp
    · simp
    · simp
  · simp
  · simp
  · simp

/-! ## Theorems: the loops of the manifest parser -/

theorem generate_vm_node_name_name (buf : List Nat) (vm_id : Nat)
    (hbuf : buf.length = VM_NAME_BUF_SIZE) (hid : vm_id ≤ 65535) :
    ∃ (ptr : Nat) (buf1 : List Nat),
      generate_vm_node_name buf vm_id = some (ptr, buf1) ∧
      buf1.length = VM_NAME_BUF_SIZE ∧ c_string buf1 ptr = vm_node_name vm_id := by
  have hk : (decimal vm_id).length ≤ 5 := decimal_length_le 5 vm_id (by norm_num) (by omega)
  have hk1 := decimal_length_pos vm_id
  have hbuf8 : buf.length = 8 := hbuf
  have htl : (buf.take (5 - (decimal vm_id).length)).length = 5 - (decimal vm_id).length :=
    List.length_take_of_le (by omega)
  have hdrop : (buf.take (5 - (decimal vm_id).length) ++ vm_node_name vm_id ++ [0]).drop
      (5 - (decimal vm_id).length) = vm_node_name vm_id ++ [0] := by
    rw [List.append_assoc]
    exact List.drop_left' htl
  refine ⟨_, _, generate_vm_node_name_eq buf vm_id hbuf hid, ?_, ?_⟩
  · show _ = 8
    simp [vm_node_name, htl]
    omega
  · unfold c_string
    rw [hdrop]
    apply takeWhile_nul
    intro b hb
    simp only [vm_node_name, List.mem_cons] at hb
    rcases hb with rfl | rfl | hb
    · norm_num
    · norm_num
    · exact decimal_ne_zero vm_id b hb

theorem reserved_loop_clear (F : Fdt) (hyp : F.fdt_node)
    (hres : ∀ k : Nat, k < F.HF_VM_ID_OFFSET → F.fdt_find_child hyp (vm_node_name k) = none)
    (h16 : F.HF_VM_ID_OFFSET ≤ UINT16_MAX) :
    ∀ (n i : Nat) (buf : List Nat), i + n = F.HF_VM_ID_OFFSET →
      buf.length = VM_NAME_BUF_SIZE →
      ∃ buf1 : List Nat, buf1.length = VM_NAME_BUF_SIZE ∧
        manifest_init_reserved_loop F hyp n i buf = some (false, buf1) := by
  unfold UINT16_MAX at h16
  intro n
  induction n with
  | zero => intro i buf _ hbuf; exact ⟨buf, hbuf, rfl⟩
  | succ n ih =>
    intro i buf hi hbuf
    have hmod : i % 2 ^ 16 = i := Nat.mod_eq_of_lt (by norm_num; omega)
    obtain ⟨ptr, buf1, hgen, hlen1, hname⟩ := generate_vm_node_name_name buf i hbuf (by omega)
    unfold manifest_init_reserved_loop
    simp only [hmod, hgen, hname, hres i (by omega)]
    exact ih (i + 1) buf1 (by omega) hlen1

theorem manifest_of_get (F : Fdt) (vms : List manifest_vm) (i : Nat) (hi : i ≤ vms.length)
    (hmax : i < F.MAX_VMS) :
    (manifest_of F (vms.take i)).vm[i]? = some (manifest_vm_zero F) := by
  have hl : (vms.take i).length = i := List.length_take_of_le hi
  simp only [manifest_of, hl]
  rw [List.getElem?_append_right (by omega), hl, Nat.sub_self]
  cases hk : F.MAX_VMS - i with
  | zero => omega
  | succ k => simp [List.replicate_succ]

theorem manifest_of_set (F : Fdt) (vms : List manifest_vm) (i : Nat) (v : manifest_vm)
    (hv : vms[i]? = some v) (hmax : i < F.MAX_VMS) :
    ({ vm_count := i + 1, vm := (manifest_of F (vms.take i)).vm.set i v } : manifest) =
      manifest_of F (vms.take (i + 1)) := by
  have hilt : i < vms.length := by
    rcases Nat.lt_or_ge i vms.length with h | h
    · exact h
    · rw [List.getElem?_eq_none h] at hv; cases hv
  have hl : (vms.take i).length = i := List.length_take_of_le (by omega)
  have hl1 : (vms.take (i + 1)).length = i + 1 := List.length_take_of_le (by omega)
  have ht : vms.take (i + 1) = vms.take i ++ [v] := by
    rw [List.take_succ, hv]; rfl
  simp only [manifest_of, hl, hl1]
  congr 1
  rw [ht]
  cases hk : F.MAX_VMS - i with
  | zero => omega
  | succ k =>
    have hk1 : F.MAX_VMS - (i + 1) = k := by omega
    rw [hk1]
    have := list_set_mid (vms.take i) (List.replicate k (manifest_vm_zero F))
      (manifest_vm_zero F) v
    rw [hl] at this
    simpa [List.replicate_succ] using this

theorem vm_loop_prefix (F : Fdt) (hyp : F.fdt_node) (vms : List manifest_vm)
    (hn2 : vms.length ≤ F.MAX_VMS)
    (hnodes : ∀ (i : Nat) (v : manifest_vm), vms[i]? = some v →
      ∃ node : F.fdt_node,
        F.fdt_find_child hyp (vm_node_name (F.HF_VM_ID_OFFSET + i)) = some node ∧
        parse_vm F node (manifest_vm_zero F) (F.HF_VM_ID_OFFSET + i) = (MANIFEST_SUCCESS, v))
    (h16 : F.HF_VM_ID_OFFSET + F.MAX_VMS ≤ UINT16_MAX) :
    ∀ (d i n : Nat) (buf : List Nat), i + d = vms.length → i + n = F.MAX_VMS + 1 →
      buf.length = VM_NAME_BUF_SIZE →
      ∃ buf1 : List Nat, buf1.length = VM_NAME_BUF_SIZE ∧
        manifest_init_vm_loop F hyp n i (manifest_of F (vms.take i)) (primary_among F i) buf =
          manifest_init_vm_loop F hyp (n - d) vms.length (manifest_of F vms)
            (primary_among F vms.length) buf1 := by
  unfold UINT16_MAX at h16
  intro d
  induction d with
  | zero =>
    intro i n buf hi _ hbuf
    have : i = vms.length := by omega
    subst this
    exact ⟨buf, hbuf, by rw [List.take_length]; rfl⟩
  | succ d ih =>
    intro i n buf hi hn hbuf
    have hilt : i < vms.length := by omega
    obtain ⟨n1, hn1⟩ : ∃ n1, n = n1 + 1 := ⟨n - 1, by omega⟩
    subst hn1
    have hmod : (F.HF_VM_ID_OFFSET + i) % 2 ^ 16 = F.HF_VM_ID_OFFSET + i :=
      Nat.mod_eq_of_lt (by norm_num; omega)
    have hmod1 : (i + 1) % 2 ^ 16 = i + 1 := Nat.mod_eq_of_lt (by norm_num; omega)
    obtain ⟨ptr, buf1, hgen, hlen1, hname⟩ :=
      generate_vm_node_name_name buf (F.HF_VM_ID_OFFSET + i) hbuf (by omega)
    obtain ⟨node, hfind, hparse⟩ := hnodes i vms[i] (List.getElem?_eq_getElem hilt)
    obtain ⟨buf2, hlen2, hrest⟩ := ih (i + 1) n1 buf1 (by omega) (by omega) hlen1
    refine ⟨buf2, hlen2, ?_⟩
    have hsub : n1 + 1 - (d + 1) = n1 - d := by omega
    rw [hsub, ← hrest]
    conv => lhs; unfold manifest_init_vm_loop
    simp only [hmod, hgen, hname, hfind]
    rw [if_neg (by omega)]
    have hcheck : ¬ (F.HF_VM_ID_OFFSET + i = F.HF_PRIMARY_VM_ID ∧ primary_among F i = true) := by
      rintro ⟨h1, h2⟩
      simp only [primary_among, decide_eq_true_eq] at h2
      omega
    rw [if_neg hcheck]
    have hget : (manifest_of F (vms.take i)).vm[i]? = some (manifest_vm_zero F) :=
      manifest_of_get F vms i (by omega) (by omega)
    simp only [hget, hparse, hmod1]
    have hfound : (primary_among F i || decide (F.HF_VM_ID_OFFSET + i = F.HF_PRIMARY_VM_ID)) =
        primary_among F (i + 1) := by
      simp only [primary_among]
      rw [Bool.eq_iff_iff]
      simp only [Bool.or_eq_true, decide_eq_true_eq]
      omega
    rw [hfound, manifest_of_set F vms i vms[i] (List.getElem?_eq_getElem hilt) (by omega)]

theorem parse_vm_code_of (F : Fdt) (node : F.fdt_node) (vm : manifest_vm) (vm_id : Nat)
    (c : manifest_return_code) (v : manifest_vm) (h : parse_vm F node vm vm_id = (c, v)) :
    c = MANIFEST_SUCCESS ∨ c = MANIFEST_ERROR_PROPERTY_NOT_FOUND ∨
    c = MANIFEST_ERROR_MALFORMED_STRING ∨ c = MANIFEST_ERROR_STRING_TOO_LONG ∨
    c = MANIFEST_ERROR_MALFORMED_INTEGER ∨ c = MANIFEST_ERROR_INTEGER_OVERFLOW := by
  have hc := parse_vm_code F node vm vm_id
  rw [h] at hc
  exact hc

theorem vm_loop_code (F : Fdt) (hyp : F.fdt_node) :
    ∀ (n i : Nat) (m : manifest) (found : Bool) (buf : List Nat)
      (c : manifest_return_code) (m1 : manifest),
      manifest_init_vm_loop F hyp n i m found buf = some (c, m1) →
      c ≠ MANIFEST_ERROR_NO_HYPERVISOR_FDT_NODE ∧ c ≠ MANIFEST_ERROR_NOT_COMPATIBLE ∧
      c ≠ MANIFEST_ERROR_RESERVED_VM_ID ∧ c ≠ MANIFEST_ERROR_MALFORMED_STRING_LIST := by
  have hfin : ∀ found : Bool,
      manifest_init_finish found ≠ MANIFEST_ERROR_NO_HYPERVISOR_FDT_NODE ∧
      manifest_init_finish found ≠ MANIFEST_ERROR_NOT_COMPATIBLE ∧
      manifest_init_finish found ≠ MANIFEST_ERROR_RESERVED_VM_ID ∧
      manifest_init_finish found ≠ MANIFEST_ERROR_MALFORMED_STRING_LIST := by
    intro found
    cases found <;> decide
  intro n
  induction n with
  | zero =>
    intro i m found buf c m1 h
    unfold manifest_init_vm_loop at h
    cases h
    exact hfin found
  | succ n ih =>
    intro i m found buf c m1 h
    unfold manifest_init_vm_loop at h
    simp only at h
    split at h
    · cases h
    · split at h
      · cases h
        exact hfin found
      · split at h
        · cases h
          decide
        · split at h
          · cases h
          · split at h
            · cases h
            · rename_i vm0 _
              split at h
              · exact ih _ _ _ _ _ _ h
              · rename_i rc vm1 hne heq
                cases h
                have hc := parse_vm_code_of F _ _ _ _ _ heq
                rcases hc with hc | hc | hc | hc | hc | hc <;> subst hc <;> decide

theorem read_stringlist_ok (F : Fdt) (hyp : F.fdt_node) (property value : List Nat)
    (hread : F.fdt_read_property hyp property = some value)
    (hterm : value.getLast? = some 0) :
    read_stringlist F hyp property = some (MANIFEST_SUCCESS, value.dropLast) := by
  obtain ⟨s, hs⟩ := List.getLast?_eq_some_iff.1 hterm
  subst hs
  have hsz : size_minus_one (s ++ [0]).length = s.length := by
    simp [size_minus_one]
  unfold read_stringlist
  rw [hread]
  simp only [hsz]
  have hget : (s ++ [0])[s.length]? = some 0 := by
    rw [List.getElem?_append_right (Nat.le_refl _)]
    simp
  rw [hget]
  simp

theorem read_stringlist_cases (F : Fdt) (hyp : F.fdt_node) (property : List Nat)
    (c : manifest_return_code) (l : List Nat)
    (h : read_stringlist F hyp property = some (c, l)) :
    (c = MANIFEST_ERROR_PROPERTY_NOT_FOUND ∧ F.fdt_read_property hyp property = none) ∨
    c = MANIFEST_ERROR_MALFORMED_STRING_LIST ∨
    (c = MANIFEST_SUCCESS ∧ ∃ value : List Nat,
      F.fdt_read_property hyp property = some value ∧ value.getLast? = some 0 ∧
      l = value.dropLast) := by
  unfold read_stringlist at h
  split at h
  · rename_i hread
    cases h
    exact Or.inl ⟨rfl, hread⟩
  · rename_i value hread
    split at h
    · cases h
    · rename_i b hb
      split at h
      · cases h
        exact Or.inr (Or.inl rfl)
      · rename_i hb0
        cases h
        have hb0' : b = 0 := by simpa using hb0
        subst hb0'
        refine Or.inr (Or.inr ⟨rfl, value, hread, ?_, (List.dropLast_eq_take value).symm⟩)
        have hne : value ≠ [] := by
          intro hnil
          subst hnil
          simp at hb
        have hsz : size_minus_one value.length = value.length - 1 := by
          unfold size_minus_one
          rw [if_neg (by
            intro h0
            exact hne (List.length_eq_zero.1 h0))]
        rw [hsz] at hb
        rw [List.getLast?_eq_getElem?]
        exact hb

theorem manifest_init_cases (F : Fdt) (root : F.fdt_node) (c : manifest_return_code)
    (m : manifest) (h : manifest_init F root = some (c, m)) :
    (c = MANIFEST_ERROR_NO_HYPERVISOR_FDT_NODE ∧ m = manifest_zero F ∧
      F.fdt_find_child root str_hypervisor = none) ∨
    ∃ hyp : F.fdt_node, F.fdt_find_child root str_hypervisor = some hyp ∧
      ((c = MANIFEST_ERROR_PROPERTY_NOT_FOUND ∧ m = manifest_zero F ∧
          F.fdt_read_property hyp str_compatible = none) ∨
        (c = MANIFEST_ERROR_MALFORMED_STRING_LIST ∧ m = manifest_zero F) ∨
        ∃ value : List Nat, F.fdt_read_property hyp str_compatible = some value ∧
          value.getLast? = some 0 ∧
          ((c = MANIFEST_ERROR_NOT_COMPATIBLE ∧ m = manifest_zero F ∧
              stringlist_contains value.dropLast str_hafnium = some false) ∨
            (stringlist_contains value.dropLast str_hafnium = some true ∧
              ((c = MANIFEST_ERROR_RESERVED_VM_ID ∧ m = manifest_zero F) ∨
                (c ≠ MANIFEST_ERROR_NO_HYPERVISOR_FDT_NODE ∧
                  c ≠ MANIFEST_ERROR_NOT_COMPATIBLE ∧
                  c ≠ MANIFEST_ERROR_RESERVED_VM_ID ∧
                  c ≠ MANIFEST_ERROR_MALFORMED_STRING_LIST))))) := by
  unfold manifest_init at h
  simp only at h
  split at h
  · rename_i hfind
    cases h
    exact Or.inl ⟨rfl, rfl, hfind⟩
  · rename_i hyp hfind
    refine Or.inr ⟨hyp, hfind, ?_⟩
    split at h
    · cases h
    · rename_i l hrs
      rcases read_stringlist_cases F hyp str_compatible _ l hrs with ⟨hc, _⟩ | hc | ⟨_, value, hread, hterm, hl⟩
      · cases hc
      · cases hc
      · subst hl
        refine Or.inr (Or.inr ⟨value, hread, hterm, ?_⟩)
        split at h
        · cases h
        · rename_i hcont
          cases h
          exact Or.inl ⟨rfl, rfl, hcont⟩
        · rename_i hcont
          refine Or.inr ⟨hcont, ?_⟩
          split at h
          · cases h
          · cases h
            exact Or.inl ⟨rfl, rfl⟩
          · exact Or.inr (vm_loop_code F hyp _ _ _ _ _ _ _ h)
    · rename_i rc l hne hrs
      cases h
      rcases read_stringlist_cases F hyp str_compatible _ l hrs with ⟨hc, hread⟩ | hc | ⟨hc, _⟩
      · exact Or.inl ⟨hc, rfl, hread⟩
      · exact Or.inr (Or.inl ⟨hc, rfl⟩)
      · exact (hne hc).elim

/-! ## Theorems: manifest_init -/

theorem stringlist_contains_entries (value s : List Nat) (hs : s ≠ []) :
    stringlist_contains value.dropLast s = some (decide (s ∈ stringlist_entries value)) :=
  stringlist_contains_loop_spec s hs _ _ (Nat.le_refl _)

theorem str_hafnium_ne_nil : str_hafnium ≠ [] := by decide

theorem manifest_init_to_loop (F : Fdt) (root hyp : F.fdt_node) (value : List Nat)
    (hhyp : F.fdt_find_child root str_hypervisor = some hyp)
    (hcompat : F.fdt_read_property hyp str_compatible = some value)
    (hterm : value.getLast? = some 0)
    (hentry : str_hafnium ∈ stringlist_entries value)
    (hres : ∀ k : Nat, k < F.HF_VM_ID_OFFSET → F.fdt_find_child hyp (vm_node_name k) = none)
    (h16 : F.HF_VM_ID_OFFSET ≤ UINT16_MAX) :
    ∃ buf : List Nat, buf.length = VM_NAME_BUF_SIZE ∧
      manifest_init F root =
        manifest_init_vm_loop F hyp (F.MAX_VMS + 1) 0 (manifest_zero F) false buf := by
  obtain ⟨buf, hbuf, hloop⟩ := reserved_loop_clear F hyp hres h16 F.HF_VM_ID_OFFSET 0
    (List.replicate VM_NAME_BUF_SIZE 0) (by omega) (by simp)
  refine ⟨buf, hbuf, ?_⟩
  unfold manifest_init
  simp only [hhyp, read_stringlist_ok F hyp str_compatible value hcompat hterm,
    stringlist_contains_entries value str_hafnium str_hafnium_ne_nil, hentry, decide_True,
    hloop]

theorem manifest_init_not_compatible (F : Fdt) (root hyp : F.fdt_node) (value : List Nat)
    (hhyp : F.fdt_find_child root str_hypervisor = some hyp)
    (hcompat : F.fdt_read_property hyp str_compatible = some value)
    (hterm : value.getLast? = some 0)
    (hentry : str_hafnium ∉ stringlist_entries value) :
    manifest_init F root = some (MANIFEST_ERROR_NOT_COMPATIBLE, manifest_zero F) := by
  unfold manifest_init
  simp only [hhyp, read_stringlist_ok F hyp str_compatible value hcompat hterm,
    stringlist_contains_entries value str_hafnium str_hafnium_ne_nil, hentry, decide_False]

theorem manifest_init_prefix (F : Fdt) (root hyp : F.fdt_node) (value : List Nat)
    (vms : List manifest_vm)
    (hhyp : F.fdt_find_child root str_hypervisor = some hyp)
    (hcompat : F.fdt_read_property hyp str_compatible = some value)
    (hterm : value.getLast? = some 0)
    (hentry : str_hafnium ∈ stringlist_entries value)
    (hres : ∀ k : Nat, k < F.HF_VM_ID_OFFSET → F.fdt_find_child hyp (vm_node_name k) = none)
    (hn2 : vms.length ≤ F.MAX_VMS)
    (hnodes : ∀ (i : Nat) (v : manifest_vm), vms[i]? = some v →
      ∃ node : F.fdt_node,
        F.fdt_find_child hyp (vm_node_name (F.HF_VM_ID_OFFSET + i)) = some node ∧
        parse_vm F node (manifest_vm_zero F) (F.HF_VM_ID_OFFSET + i) = (MANIFEST_SUCCESS, v))
    (h16 : F.HF_VM_ID_OFFSET + F.MAX_VMS ≤ UINT16_MAX) :
    ∃ (k : Nat) (buf1 : List Nat), buf1.length = VM_NAME_BUF_SIZE ∧
      manifest_init F root =
        manifest_init_vm_loop F hyp (k + 1) vms.length (manifest_of F vms)
          (primary_among F vms.length) buf1 := by
  have h16' := h16
  unfold UINT16_MAX at h16'
  obtain ⟨buf, hbuf, hinit⟩ := manifest_init_to_loop F root hyp value hhyp hcompat hterm
    hentry hres (by unfold UINT16_MAX; omega)
  obtain ⟨buf1, hbuf1, hpre⟩ := vm_loop_prefix F hyp vms hn2 hnodes h16 vms.length 0
    (F.MAX_VMS + 1) buf (by omega) (by omega) hbuf
  have hz : manifest_of F (vms.take 0) = manifest_zero F := rfl
  have hp0 : primary_among F 0 = false := by
    simp [primary_among]
  rw [hz, hp0] at hpre
  obtain ⟨k, hk⟩ : ∃ k, F.MAX_VMS + 1 - vms.length = k + 1 :=
    ⟨F.MAX_VMS - vms.length, by omega⟩
  rw [hk] at hpre
  exact ⟨k, buf1, hbuf1, hinit.trans hpre⟩

theorem vm_loop_absent (F : Fdt) (hyp : F.fdt_node) (k i : Nat) (m : manifest)
    (found : Bool) (buf : List Nat) (hbuf : buf.length = VM_NAME_BUF_SIZE)
    (h16 : F.HF_VM_ID_OFFSET + i ≤ UINT16_MAX)
    (hend : F.fdt_find_child hyp (vm_node_name (F.HF_VM_ID_OFFSET + i)) = none) :
    manifest_init_vm_loop F hyp (k + 1) i m found buf =
      some (manifest_init_finish found, m) := by
  unfold UINT16_MAX at h16
  have hmod : (F.HF_VM_ID_OFFSET + i) % 2 ^ 16 = F.HF_VM_ID_OFFSET + i :=
    Nat.mod_eq_of_lt (by norm_num; omega)
  obtain ⟨ptr, buf2, hgen, _, hname⟩ :=
    generate_vm_node_name_name buf (F.HF_VM_ID_OFFSET + i) hbuf (by omega)
  unfold manifest_init_vm_loop
  simp only [hmod, hgen, hname, hend]

theorem vm_loop_too_many (F : Fdt) (hyp node : F.fdt_node) (k : Nat) (m : manifest)
    (found : Bool) (buf : List Nat) (hbuf : buf.length = VM_NAME_BUF_SIZE)
    (h16 : F.HF_VM_ID_OFFSET + F.MAX_VMS ≤ UINT16_MAX)
    (hlast : F.fdt_find_child hyp (vm_node_name (F.HF_VM_ID_OFFSET + F.MAX_VMS)) = some node) :
    manifest_init_vm_loop F hyp (k + 1) F.MAX_VMS m found buf =
      some (MANIFEST_ERROR_TOO_MANY_VMS, m) := by
  unfold UINT16_MAX at h16
  have hmod : (F.HF_VM_ID_OFFSET + F.MAX_VMS) % 2 ^ 16 = F.HF_VM_ID_OFFSET + F.MAX_VMS :=
    Nat.mod_eq_of_lt (by norm_num; omega)
  obtain ⟨ptr, buf2, hgen, _, hname⟩ :=
    generate_vm_node_name_name buf (F.HF_VM_ID_OFFSET + F.MAX_VMS) hbuf (by omega)
  unfold manifest_init_vm_loop
  simp only [hmod, hgen, hname, hlast, if_true]

/-- C12: for a device tree whose root has a "hypervisor" child with a
well-terminated "compatible" list containing "hafnium,hafnium", no child
`vm<k>` with a reserved id `k < HF_VM_ID_OFFSET`, children
`vm<HF_VM_ID_OFFSET + i>` for `i < n` (`1 ≤ n ≤ MAX_VMS`) on which `parse_vm`
succeeds, and no child `vm<HF_VM_ID_OFFSET + n>`, `manifest_init` returns
MANIFEST_SUCCESS with `vm_count = n` and entry `i` holding the fields parsed
from node `vm<HF_VM_ID_OFFSET + i>`; later VM nodes do not matter. The ids fit
16 bits and the primary VM is the one with id `HF_VM_ID_OFFSET`. -/
theorem manifest_init_success (F : Fdt) (root hyp : F.fdt_node) (value : List Nat)
    (vms : List manifest_vm)
    (hhyp : F.fdt_find_child root str_hypervisor = some hyp)
    (hcompat : F.fdt_read_property hyp str_compatible = some value)
    (hterm : value.getLast? = some 0)
    (hentry : str_hafnium ∈ stringlist_entries value)
    (hres : ∀ k : Nat, k < F.HF_VM_ID_OFFSET → F.fdt_find_child hyp (vm_node_name k) = none)
    (hn1 : 1 ≤ vms.length) (hn2 : vms.length ≤ F.MAX_VMS)
    (hnodes : ∀ (i : Nat) (v : manifest_vm), vms[i]? = some v →
      ∃ node : F.fdt_node,
        F.fdt_find_child hyp (vm_node_name (F.HF_VM_ID_OFFSET + i)) = some node ∧
        parse_vm F node (manifest_vm_zero F) (F.HF_VM_ID_OFFSET + i) = (MANIFEST_SUCCESS, v))
    (hend : F.fdt_find_child hyp (vm_node_name (F.HF_VM_ID_OFFSET + vms.length)) = none)
    (h16 : F.HF_VM_ID_OFFSET + F.MAX_VMS ≤ UINT16_MAX)
    (hprim : F.HF_PRIMARY_VM_ID = F.HF_VM_ID_OFFSET) :
    manifest_init F root = some (MANIFEST_SUCCESS, manifest_of F vms) ∧
    (manifest_of F vms).vm_count = vms.length ∧
    (∀ i : Nat, i < vms.length → (manifest_of F vms).vm[i]? = vms[i]?) := by
  obtain ⟨k, buf1, hbuf1, hinit⟩ := manifest_init_prefix F root hyp value vms hhyp hcompat
    hterm hentry hres hn2 hnodes h16
  have h16' : F.HF_VM_ID_OFFSET + vms.length ≤ UINT16_MAX := by omega
  rw [vm_loop_absent F hyp k vms.length _ _ buf1 hbuf1 h16' hend] at hinit
  have hp : primary_among F vms.length = true := by
    simp only [primary_among, decide_eq_true_eq]
    omega
  rw [hp] at hinit
  refine ⟨hinit, rfl, ?_⟩
  intro i hi
  simp only [manifest_of]
  exact List.getElem?_append_left hi

/-- C13 (amended): when in addition to a compatible hypervisor node and the
absence of reserved-id nodes the first `MAX_VMS` VM nodes
`vm<HF_VM_ID_OFFSET + i>`, `i < MAX_VMS`, are well formed (`parse_vm` succeeds
on them) and the node `vm<HF_VM_ID_OFFSET + MAX_VMS>` exists, `manifest_init`
returns MANIFEST_ERROR_TOO_MANY_VMS (the manifest then holds the `MAX_VMS`
parsed entries). -/
theorem manifest_init_too_many (F : Fdt) (root hyp node1 : F.fdt_node) (value : List Nat)
    (vms : List manifest_vm)
    (hhyp : F.fdt_find_child root str_hypervisor = some hyp)
    (hcompat : F.fdt_read_property hyp str_compatible = some value)
    (hterm : value.getLast? = some 0)
    (hentry : str_hafnium ∈ stringlist_entries value)
    (hres : ∀ k : Nat, k < F.HF_VM_ID_OFFSET → F.fdt_find_child hyp (vm_node_name k) = none)
    (hn : vms.length = F.MAX_VMS)
    (hnodes : ∀ (i : Nat) (v : manifest_vm), vms[i]? = some v →
      ∃ node : F.fdt_node,
        F.fdt_find_child hyp (vm_node_name (F.HF_VM_ID_OFFSET + i)) = some node ∧
        parse_vm F node (manifest_vm_zero F) (F.HF_VM_ID_OFFSET + i) = (MANIFEST_SUCCESS, v))
    (hlast : F.fdt_find_child hyp (vm_node_name (F.HF_VM_ID_OFFSET + F.MAX_VMS)) = some node1)
    (h16 : F.HF_VM_ID_OFFSET + F.MAX_VMS ≤ UINT16_MAX) :
    manifest_init F root = some (MANIFEST_ERROR_TOO_MANY_VMS, manifest_of F vms) := by
  obtain ⟨k, buf1, hbuf1, hinit⟩ := manifest_init_prefix F root hyp value vms hhyp hcompat
    hterm hentry hres (by omega) hnodes h16
  rw [hn, vm_loop_too_many F hyp node1 k _ _ buf1 hbuf1 h16 hlast] at hinit
  exact hinit

/-- C14: `manifest_init` returns MANIFEST_ERROR_NO_HYPERVISOR_FDT_NODE if and
only if the root of the device tree has no child named "hypervisor". -/
theorem manifest_init_no_hypervisor (F : Fdt) (root : F.fdt_node) :
    (∃ m : manifest, manifest_init F root =
      some (MANIFEST_ERROR_NO_HYPERVISOR_FDT_NODE, m)) ↔
    F.fdt_find_child root str_hypervisor = none := by
  constructor
  · rintro ⟨m, h⟩
    rcases manifest_init_cases F root _ m h with ⟨_, _, hnone⟩ | ⟨hyp, _, hrest⟩
    · exact hnone
    · exfalso
      rcases hrest with ⟨hc, _⟩ | ⟨hc, _⟩ | ⟨value, _, _, hrest⟩
      · cases hc
      · cases hc
      · rcases hrest with ⟨hc, _⟩ | ⟨_, ⟨hc, _⟩ | ⟨hc, _⟩⟩
        · cases hc
        · cases hc
        · exact hc rfl
  · intro h
    refine ⟨manifest_zero F, ?_⟩
    unfold manifest_init
    simp only [h]

/-- C15 (as stated, refuted): for the demo tree whose first VM node has no
"debug_name", `manifest_init` returns MANIFEST_ERROR_PROPERTY_NOT_FOUND and
leaves `vm_count = 1` in the manifest. -/
theorem manifest_init_failure_counterexample :
    ¬ ∀ (root : demo_tree) (c : manifest_return_code) (m : manifest),
      manifest_init demo_fdt root = some (c, m) → c ≠ MANIFEST_SUCCESS →
      m = manifest_zero demo_fdt := by
  intro h
  have h1 := h demo_root_three_vms MANIFEST_ERROR_PROPERTY_NOT_FOUND
    { vm_count := 1, vm := [manifest_vm_zero demo_fdt, manifest_vm_zero demo_fdt] }
    (by decide) (by decide)
  revert h1
  decide

/-- C15 (amended): when `manifest_init` fails before it parses a VM node, the
manifest is the zero-initialised one: this is so whenever the code is
MANIFEST_ERROR_NO_HYPERVISOR_FDT_NODE, MANIFEST_ERROR_MALFORMED_STRING_LIST,
MANIFEST_ERROR_NOT_COMPATIBLE or MANIFEST_ERROR_RESERVED_VM_ID, and whenever
the "compatible" property is missing. (A failure while the VM nodes are parsed
leaves `vm_count` and the entries written so far in the manifest.) -/
theorem manifest_init_failure (F : Fdt) (root : F.fdt_node) (c : manifest_return_code)
    (m : manifest) (h : manifest_init F root = some (c, m)) :
    ((c = MANIFEST_ERROR_NO_HYPERVISOR_FDT_NODE ∨ c = MANIFEST_ERROR_MALFORMED_STRING_LIST ∨
        c = MANIFEST_ERROR_NOT_COMPATIBLE ∨ c = MANIFEST_ERROR_RESERVED_VM_ID) →
      m = manifest_zero F) ∧
    (∀ hyp : F.fdt_node, F.fdt_find_child root str_hypervisor = some hyp →
      F.fdt_read_property hyp str_compatible = none →
      c = MANIFEST_ERROR_PROPERTY_NOT_FOUND ∧ m = manifest_zero F) := by
  rcases manifest_init_cases F root c m h with ⟨_, hm, hnone⟩ | ⟨hyp, hfind, hrest⟩
  · refine ⟨fun _ => hm, ?_⟩
    intro hyp hfind
    rw [hnone] at hfind
    cases hfind
  · rcases hrest with ⟨hc, hm, hread⟩ | ⟨_, hm⟩ | ⟨value, hread, _, hrest⟩
    · exact ⟨fun _ => hm, fun _ _ _ => ⟨hc, hm⟩⟩
    · refine ⟨fun _ => hm, ?_⟩
      intro hyp1 hfind1 hread1
      unfold manifest_init at h
      simp only [hfind1, read_stringlist, hread1] at h
      cases h
      exact ⟨rfl, rfl⟩
    · have hno : ∀ hyp1 : F.fdt_node, F.fdt_find_child root str_hypervisor = some hyp1 →
          F.fdt_read_property hyp1 str_compatible = none →
          c = MANIFEST_ERROR_PROPERTY_NOT_FOUND ∧ m = manifest_zero F := by
        intro hyp1 hfind1 hread1
        rw [hfind] at hfind1
        cases hfind1
        rw [hread] at hread1
        cases hread1
      rcases hrest with ⟨_, hm, _⟩ | ⟨_, ⟨_, hm⟩ | ⟨h1, h2, h3, h4⟩⟩
      · exact ⟨fun _ => hm, hno⟩
      · exact ⟨fun _ => hm, hno⟩
      · refine ⟨?_, hno⟩
        rintro (hc | hc | hc | hc)
        · exact absurd hc h1
        · exact absurd hc h4
        · exact absurd hc h2
        · exact absurd hc h3

/-- Witness of C15 (amended): a device tree without a hypervisor node. -/
theorem manifest_init_failure_witness :
    ((MANIFEST_ERROR_NO_HYPERVISOR_FDT_NODE = MANIFEST_ERROR_NO_HYPERVISOR_FDT_NODE ∨
        MANIFEST_ERROR_NO_HYPERVISOR_FDT_NODE = MANIFEST_ERROR_MALFORMED_STRING_LIST ∨
        MANIFEST_ERROR_NO_HYPERVISOR_FDT_NODE = MANIFEST_ERROR_NOT_COMPATIBLE ∨
        MANIFEST_ERROR_NO_HYPERVISOR_FDT_NODE = MANIFEST_ERROR_RESERVED_VM_ID) →
      manifest_zero demo_fdt = manifest_zero demo_fdt) ∧
    (∀ hyp : demo_tree, demo_fdt.fdt_find_child demo_root_empty str_hypervisor = some hyp →
      demo_fdt.fdt_read_property hyp str_compatible = none →
      MANIFEST_ERROR_NO_HYPERVISOR_FDT_NODE = MANIFEST_ERROR_PROPERTY_NOT_FOUND ∧
        manifest_zero demo_fdt = manifest_zero demo_fdt) :=
  manifest_init_failure demo_fdt demo_root_empty MANIFEST_ERROR_NO_HYPERVISOR_FDT_NODE
    (manifest_zero demo_fdt) (by decide)

theorem demo_vm_name_0 : vm_node_name 0 = [118, 109, 48] := by
  simp [vm_node_name, decimal]

theorem demo_vm_name_1 : vm_node_name 1 = [118, 109, 49] := by
  simp [vm_node_name, decimal]

theorem demo_vm_name_2 : vm_node_name 2 = [118, 109, 50] := by
  simp [vm_node_name, decimal]

theorem demo_vm_name_3 : vm_node_name 3 = [118, 109, 51] := by
  simp [vm_node_name, decimal]

theorem demo_reserved_clear (hyp : demo_tree)
    (h : demo_tree.child hyp [118, 109, 48] = none) :
    ∀ k : Nat, k < demo_fdt.HF_VM_ID_OFFSET →
      demo_fdt.fdt_find_child hyp (vm_node_name k) = none := by
  intro k hk
  have hk0 : k = 0 := Nat.lt_one_iff.1 hk
  subst hk0
  rw [demo_vm_name_0]
  exact h

/-- Witness of C12: the demo tree with the single VM node "vm1". -/
theorem manifest_init_success_witness :
    manifest_init demo_fdt demo_root_primary_only =
      some (MANIFEST_SUCCESS, manifest_of demo_fdt [demo_entry_primary]) ∧
    (manifest_of demo_fdt [demo_entry_primary]).vm_count = [demo_entry_primary].length ∧
    (∀ i : Nat, i < [demo_entry_primary].length →
      (manifest_of demo_fdt [demo_entry_primary]).vm[i]? = [demo_entry_primary][i]?) :=
  manifest_init_success demo_fdt demo_root_primary_only demo_hyp_primary_only demo_compatible
    [demo_entry_primary] rfl rfl (by decide) (by decide)
    (demo_reserved_clear demo_hyp_primary_only rfl) (by decide) (by decide)
    (by
      intro i v hv
      cases i with
      | zero =>
        simp at hv
        subst hv
        exact ⟨demo_vm_node_primary, by
          show demo_tree.child demo_hyp_primary_only (vm_node_name (1 + 0)) = _
          rw [demo_vm_name_1]
          rfl, by decide⟩
      | succ i => simp at hv)
    (by
      show demo_tree.child demo_hyp_primary_only (vm_node_name (1 + 1)) = none
      rw [demo_vm_name_2]
      rfl)
    (by decide) rfl

/-- C13 (as stated, refuted): the demo tree has a compatible hypervisor node,
no reserved-id node and `MAX_VMS + 1 = 3` consecutive VM nodes, but its first
VM node has no "debug_name": `manifest_init` returns
MANIFEST_ERROR_PROPERTY_NOT_FOUND. -/
theorem manifest_init_too_many_counterexample :
    ¬ ∀ (root hyp : demo_tree) (value : List Nat),
      demo_fdt.fdt_find_child root str_hypervisor = some hyp →
      demo_fdt.fdt_read_property hyp str_compatible = some value →
      value.getLast? = some 0 →
      str_hafnium ∈ stringlist_entries value →
      (∀ k : Nat, k < demo_fdt.HF_VM_ID_OFFSET →
        demo_fdt.fdt_find_child hyp (vm_node_name k) = none) →
      (∀ i : Nat, i ≤ demo_fdt.MAX_VMS → ∃ node : demo_tree,
        demo_fdt.fdt_find_child hyp (vm_node_name (demo_fdt.HF_VM_ID_OFFSET + i)) =
          some node) →
      ∃ m : manifest, manifest_init demo_fdt root =
        some (MANIFEST_ERROR_TOO_MANY_VMS, m) := by
  intro h
  obtain ⟨m, hm⟩ := h demo_root_three_vms demo_hyp_three_vms demo_compatible rfl rfl
    (by decide) (by decide) (demo_reserved_clear demo_hyp_three_vms rfl)
    (by
      intro i hi
      have hi2 : i ≤ 2 := hi
      show ∃ node : demo_tree, demo_tree.child demo_hyp_three_vms (vm_node_name (1 + i)) =
        some node
      interval_cases i
      · exact ⟨demo_vm_node_empty, by rw [demo_vm_name_1]; rfl⟩
      · exact ⟨demo_vm_node_secondary, by rw [demo_vm_name_2]; rfl⟩
      · exact ⟨demo_vm_node_secondary, by rw [demo_vm_name_3]; rfl⟩)
  have hcode : (manifest_init demo_fdt demo_root_three_vms).map (fun r => r.1) =
      some MANIFEST_ERROR_PROPERTY_NOT_FOUND := by decide
  rw [hm] at hcode
  simp at hcode

/-- Witness of C13 (amended): the demo tree with three well-formed VM nodes. -/
theorem manifest_init_too_many_witness :
    manifest_init demo_fdt demo_root_too_many =
      some (MANIFEST_ERROR_TOO_MANY_VMS,
        manifest_of demo_fdt [demo_entry_primary, demo_entry_secondary]) :=
  manifest_init_too_many demo_fdt demo_root_too_many demo_hyp_too_many demo_vm_node_secondary
    demo_compatible [demo_entry_primary, demo_entry_secondary] rfl rfl (by decide) (by decide)
    (demo_reserved_clear demo_hyp_too_many rfl) rfl
    (by
      intro i v hv
      cases i with
      | zero =>
        simp at hv
        subst hv
        exact ⟨demo_vm_node_primary, by
          show demo_tree.child demo_hyp_too_many (vm_node_name (1 + 0)) = _
          rw [demo_vm_name_1]
          rfl, by decide⟩
      | succ i =>
        cases i with
        | zero =>
          simp at hv
          subst hv
          exact ⟨demo_vm_node_secondary, by
            show demo_tree.child demo_hyp_too_many (vm_node_name (1 + (0 + 1))) = _
            rw [demo_vm_name_2]
            rfl, by decide⟩
        | succ i => simp at hv)
    (by
      show demo_tree.child demo_hyp_too_many (vm_node_name (1 + 2)) = some _
      rw [demo_vm_name_3]
      rfl)
    (by decide)

/-! ## Theorems: string lists and VM nodes of the manifest -/

/-- C18: for a string-list value that ends in a NUL byte and a non-empty
NUL-free string `s`, the iteration of `stringlist_contains` over the value
without its final NUL terminates and returns true if and only if `s` is one of
the entries (the pieces between NUL bytes); and for a tree whose hypervisor
node has such a "compatible" value, `manifest_init` returns
MANIFEST_ERROR_NOT_COMPATIBLE exactly when "hafnium,hafnium" is not one whole
entry. -/
theorem stringlist_contains_spec (value s : List Nat) (hterm : value.getLast? = some 0)
    (hs : s ≠ []) (hnul : 0 ∉ s) :
    stringlist_contains value.dropLast s = some (decide (s ∈ stringlist_entries value)) ∧
    (∀ (F : Fdt) (root hyp : F.fdt_node),
      F.fdt_find_child root str_hypervisor = some hyp →
      F.fdt_read_property hyp str_compatible = some value →
      read_stringlist F hyp str_compatible = some (MANIFEST_SUCCESS, value.dropLast) ∧
      ((∃ m : manifest, manifest_init F root = some (MANIFEST_ERROR_NOT_COMPATIBLE, m)) ↔
        str_hafnium ∉ stringlist_entries value)) := by
  have _ := hnul
  refine ⟨stringlist_contains_entries value s hs, ?_⟩
  intro F root hyp hhyp hcompat
  refine ⟨read_stringlist_ok F hyp str_compatible value hcompat hterm, ?_, ?_⟩
  · rintro ⟨m, h⟩ hmem
    have hcont := stringlist_contains_entries value str_hafnium str_hafnium_ne_nil
    rw [decide_eq_true hmem] at hcont
    rcases manifest_init_cases F root _ m h with ⟨hc, _⟩ | ⟨hyp1, hfind1, hrest⟩
    · cases hc
    · rw [hhyp] at hfind1
      cases hfind1
      rcases hrest with ⟨hc, _⟩ | ⟨hc, _⟩ | ⟨value1, hread1, _, hrest⟩
      · cases hc
      · cases hc
      · rw [hcompat] at hread1
        cases hread1
        rcases hrest with ⟨_, _, hfalse⟩ | ⟨_, ⟨hc, _⟩ | ⟨_, hc, _⟩⟩
        · rw [hcont] at hfalse
          cases hfalse
        · cases hc
        · exact hc rfl
  · intro hmem
    exact ⟨_, manifest_init_not_compatible F root hyp value hhyp hcompat hterm hmem⟩

/-- Witness of C18: the list "ab\0hafnium,hafnium\0" and the string
"hafnium,hafnium". -/
theorem stringlist_contains_spec_witness :
    stringlist_contains ([97, 98, 0] ++ demo_compatible).dropLast str_hafnium = some true :=
  (stringlist_contains_spec ([97, 98, 0] ++ demo_compatible) str_hafnium (by decide)
    (by decide) (by decide)).1.trans (by decide)

theorem read_uint64_success (F : Fdt) (node : F.fdt_node) (property : List Nat)
    (out v : Nat) (h : read_uint64 F node property out = (MANIFEST_SUCCESS, v)) :
    ∃ d : List Nat, F.fdt_read_property node property = some d ∧
      F.fdt_parse_number d = some v := by
  unfold read_uint64 at h
  split at h
  · cases h
  · rename_i d hd
    split at h
    · cases h
    · rename_i x hx
      cases h
      exact ⟨d, hd, hx⟩

theorem read_uint16_success (F : Fdt) (node : F.fdt_node) (property : List Nat)
    (out v : Nat) (h : read_uint16 F node property out = (MANIFEST_SUCCESS, v)) :
    ∃ d : List Nat, F.fdt_read_property node property = some d ∧
      F.fdt_parse_number d = some v ∧ v ≤ UINT16_MAX := by
  unfold read_uint16 at h
  split at h
  · rename_i x hx
    obtain ⟨d, hd, hp⟩ := read_uint64_success F node property 0 x hx
    split at h
    · cases h
    · rename_i hle
      have hle' : x ≤ UINT16_MAX := Nat.le_of_not_gt hle
      have hmod : x % 2 ^ 16 = x := by
        unfold UINT16_MAX at hle'
        exact Nat.mod_eq_of_lt (by norm_num; omega)
      rw [hmod] at h
      cases h
      exact ⟨d, hd, hp, hle'⟩
  · rename_i rc x hne hx
    cases h
    exact (hne rfl).elim

/-- C16 (as stated, refuted): a VM node with an id other than the primary's,
whose "debug_name" has no terminator and which has no "mem_size" property:
`parse_vm` returns MANIFEST_ERROR_MALFORMED_STRING, not
MANIFEST_ERROR_PROPERTY_NOT_FOUND. -/
theorem parse_vm_spec_counterexample :
    ¬ ∀ (node : demo_tree) (vm : manifest_vm) (vm_id : Nat),
      vm_id ≠ demo_fdt.HF_PRIMARY_VM_ID →
      demo_fdt.fdt_read_property node str_mem_size = none →
      (parse_vm demo_fdt node vm vm_id).1 = MANIFEST_ERROR_PROPERTY_NOT_FOUND := by
  intro h
  have h1 := h demo_vm_node_unterminated (manifest_vm_zero demo_fdt) 2 (by decide) rfl
  revert h1
  decide

/-- C16 (amended): `parse_vm` reads "debug_name", "kernel_filename" and, for an
id other than the primary's, "mem_size" and "vcpu_count", in this order, and
the first read that fails decides the code. "debug_name" is required for
every VM; an absent "kernel_filename" gives the empty string. When both
strings are read, for the primary VM the call succeeds and the two numbers
are not read; for another VM a missing number gives
MANIFEST_ERROR_PROPERTY_NOT_FOUND, an unparsable one
MANIFEST_ERROR_MALFORMED_INTEGER, a "vcpu_count" above 65535
MANIFEST_ERROR_INTEGER_OVERFLOW ("mem_size" is tested before "vcpu_count"), and
otherwise the stored numbers are the property values. For a VM other than the
primary the call succeeds only if both numbers are present and well formed. -/
theorem parse_vm_spec (F : Fdt) (node : F.fdt_node) (vm : manifest_vm) (vm_id : Nat) :
    (F.fdt_read_property node str_debug_name = none →
      (parse_vm F node vm vm_id).1 = MANIFEST_ERROR_PROPERTY_NOT_FOUND) ∧
    (∀ dn kf : List Nat,
      read_string F node str_debug_name vm.debug_name F.debug_name_size =
        (MANIFEST_SUCCESS, dn) →
      read_optional_string F node str_kernel_filename vm.kernel_filename
        F.kernel_filename_size = (MANIFEST_SUCCESS, kf) →
      (F.fdt_read_property node str_kernel_filename = none →
        kf = vm.kernel_filename.set 0 0) ∧
      (vm_id = F.HF_PRIMARY_VM_ID →
        parse_vm F node vm vm_id =
          (MANIFEST_SUCCESS, { vm with debug_name := dn, kernel_filename := kf })) ∧
      (vm_id ≠ F.HF_PRIMARY_VM_ID →
        (F.fdt_read_property node str_mem_size = none →
          (parse_vm F node vm vm_id).1 = MANIFEST_ERROR_PROPERTY_NOT_FOUND) ∧
        (∀ d : List Nat, F.fdt_read_property node str_mem_size = some d →
          F.fdt_parse_number d = none →
          (parse_vm F node vm vm_id).1 = MANIFEST_ERROR_MALFORMED_INTEGER) ∧
        (∀ (d : List Nat) (ms : Nat), F.fdt_read_property node str_mem_size = some d →
          F.fdt_parse_number d = some ms →
          (F.fdt_read_property node str_vcpu_count = none →
            (parse_vm F node vm vm_id).1 = MANIFEST_ERROR_PROPERTY_NOT_FOUND) ∧
          (∀ d2 : List Nat, F.fdt_read_property node str_vcpu_count = some d2 →
            F.fdt_parse_number d2 = none →
            (parse_vm F node vm vm_id).1 = MANIFEST_ERROR_MALFORMED_INTEGER) ∧
          (∀ (d2 : List Nat) (vc : Nat), F.fdt_read_property node str_vcpu_count = some d2 →
            F.fdt_parse_number d2 = some vc →
            (vc > UINT16_MAX →
              (parse_vm F node vm vm_id).1 = MANIFEST_ERROR_INTEGER_OVERFLOW) ∧
            (vc ≤ UINT16_MAX →
              parse_vm F node vm vm_id =
                (MANIFEST_SUCCESS, (⟨dn, kf, ms, vc⟩ : manifest_vm))))))) ∧
    (vm_id ≠ F.HF_PRIMARY_VM_ID → (parse_vm F node vm vm_id).1 = MANIFEST_SUCCESS →
      ∃ (d d2 : List Nat) (ms vc : Nat),
        F.fdt_read_property node str_mem_size = some d ∧ F.fdt_parse_number d = some ms ∧
        F.fdt_read_property node str_vcpu_count = some d2 ∧
        F.fdt_parse_number d2 = some vc ∧ vc ≤ UINT16_MAX ∧
        (parse_vm F node vm vm_id).2.secondary_mem_size = ms ∧
        (parse_vm F node vm vm_id).2.secondary_vcpu_count = vc) := by
  refine ⟨?_, ?_, ?_⟩
  · intro h
    simp [parse_vm, read_string, h]
  · intro dn kf hdn hkf
    refine ⟨?_, ?_, ?_⟩
    · intro h
      unfold read_optional_string at hkf
      rw [h] at hkf
      simp only at hkf
      split at hkf
      · cases hkf
      · cases hkf
        rfl
    · intro hp
      simp [parse_vm, hdn, hkf, hp]
    · intro hne
      refine ⟨?_, ?_, ?_⟩
      · intro h
        simp [parse_vm, hdn, hkf, hne, read_uint64, h]
      · intro d h hp
        simp [parse_vm, hdn, hkf, hne, read_uint64, h, hp]
      · intro d ms h hp
        refine ⟨?_, ?_, ?_⟩
        · intro h2
          simp [parse_vm, hdn, hkf, hne, read_uint64, read_uint16, h, hp, h2]
        · intro d2 h2 hp2
          simp [parse_vm, hdn, hkf, hne, read_uint64, read_uint16, h, hp, h2, hp2]
        · intro d2 vc h2 hp2
          refine ⟨?_, ?_⟩
          · intro hgt
            simp [parse_vm, hdn, hkf, hne, read_uint64, read_uint16, h, hp, h2, hp2, hgt]
          · intro hle
            have hngt : ¬ vc > UINT16_MAX := Nat.not_lt.2 hle
            have hmod : vc % 65536 = vc := by
              unfold UINT16_MAX at hle
              exact Nat.mod_eq_of_lt (by omega)
            simp [parse_vm, hdn, hkf, hne, read_uint64, read_uint16, h, hp, h2, hp2, hngt,
              hmod]
  · intro hne
    unfold parse_vm
    rcases hr1 : read_string F node str_debug_name vm.debug_name F.debug_name_size with ⟨c1, dn⟩
    cases c1 <;> simp only <;> try (intro h; cases h)
    rcases hr2 : read_optional_string F node str_kernel_filename vm.kernel_filename
      F.kernel_filename_size with ⟨c2, kf⟩
    cases c2 <;> simp only <;> try (intro h; cases h)
    rw [if_pos hne]
    rcases hr3 : read_uint64 F node str_mem_size vm.secondary_mem_size with ⟨c3, ms⟩
    cases c3 <;> simp only <;> try (intro h; cases h)
    rcases hr4 : read_uint16 F node str_vcpu_count vm.secondary_vcpu_count with ⟨c4, vc⟩
    cases c4 <;> simp only <;> try (intro h; cases h)
    obtain ⟨d, hd, hp⟩ := read_uint64_success F node str_mem_size _ ms hr3
    obtain ⟨d2, hd2, hp2, hle⟩ := read_uint16_success F node str_vcpu_count _ vc hr4
    exact ⟨d, d2, ms, vc, hd, hp, hd2, hp2, hle, rfl, rfl⟩

/-- Witness of C16 (amended): the secondary VM node of the demo tree. -/
theorem parse_vm_spec_witness :
    parse_vm demo_fdt demo_vm_node_secondary (manifest_vm_zero demo_fdt) 2 =
      (MANIFEST_SUCCESS, demo_entry_secondary) :=
  ((((parse_vm_spec demo_fdt demo_vm_node_secondary (manifest_vm_zero demo_fdt) 2).2.1
    [115, 0, 0, 0] [0, 0, 0, 0] (by decide) (by decide)).2.2 (by decide)).2.2
    [0, 0, 1, 0] 256 rfl (by decide)).2.2 [0, 0, 0, 1] 1 rfl (by decide) |>.2 (by decide)

/-! ## Theorems: bounds and sanity checks of the manifest parser -/

theorem stringlist_get_next_some (it : List Nat) (h : stringlist_has_next it = true) :
    ∃ (entry it1 : List Nat), stringlist_get_next it = some (entry, it1) ∧
      it1.length < it.length ∧ entry.length ≤ it.length := by
  have hpos : 0 < it.length := by simpa [stringlist_has_next] using h
  unfold stringlist_get_next
  rw [if_pos h]
  cases hm : memchr it 0 with
  | none =>
    refine ⟨it, it.drop it.length, rfl, ?_, Nat.le_refl _⟩
    simp only [List.length_drop]
    omega
  | some k =>
    refine ⟨it.take k, it.drop (k + 1), rfl, ?_, ?_⟩
    · simp only [List.length_drop]
      omega
    · simp only [List.length_take]
      omega

theorem stringlist_contains_loop_total (str : List Nat) :
    ∀ (fuel : Nat) (it : List Nat), it.length ≤ fuel →
      ∃ b : Bool, stringlist_contains_loop str fuel it = some b := by
  intro fuel
  induction fuel with
  | zero =>
    intro it hlen
    have hn : stringlist_has_next it = false := by
      simp only [stringlist_has_next, decide_eq_false_iff_not]
      omega
    exact ⟨false, by unfold stringlist_contains_loop; rw [hn]; rfl⟩
  | succ fuel ih =>
    intro it hlen
    unfold stringlist_contains_loop
    cases hn : stringlist_has_next it with
    | false => exact ⟨false, rfl⟩
    | true =>
      obtain ⟨entry, it1, hget, hlt, _⟩ := stringlist_get_next_some it hn
      simp only [hget, if_true]
      cases memiter_iseq entry str with
      | true => exact ⟨true, rfl⟩
      | false =>
        obtain ⟨b, hb⟩ := ih it1 (by omega)
        exact ⟨b, by simpa using hb⟩

theorem stringlist_contains_total (list str : List Nat) :
    ∃ b : Bool, stringlist_contains list str = some b :=
  stringlist_contains_loop_total str list.length list (Nat.le_refl _)

theorem generate_vm_node_name_mod (buf : List Nat) (x : Nat)
    (hbuf : buf.length = VM_NAME_BUF_SIZE) :
    ∃ (ptr : Nat) (buf1 : List Nat),
      generate_vm_node_name buf (x % 2 ^ 16) = some (ptr, buf1) ∧
      buf1.length = VM_NAME_BUF_SIZE ∧ c_string buf1 ptr = vm_node_name (x % 2 ^ 16) := by
  have hlt : x % 2 ^ 16 < 2 ^ 16 := Nat.mod_lt _ (by norm_num)
  have hp : (2 : Nat) ^ 16 = 65536 := by norm_num
  exact generate_vm_node_name_name buf (x % 2 ^ 16) hbuf (by omega)

theorem reserved_loop_total (F : Fdt) (hyp : F.fdt_node) :
    ∀ (n i : Nat) (buf : List Nat), buf.length = VM_NAME_BUF_SIZE →
      ∃ (b : Bool) (buf1 : List Nat), buf1.length = VM_NAME_BUF_SIZE ∧
        manifest_init_reserved_loop F hyp n i buf = some (b, buf1) := by
  intro n
  induction n with
  | zero => intro i buf hbuf; exact ⟨false, buf, hbuf, rfl⟩
  | succ n ih =>
    intro i buf hbuf
    obtain ⟨ptr, buf1, hgen, hlen1, _⟩ := generate_vm_node_name_mod buf i hbuf
    unfold manifest_init_reserved_loop
    simp only [hgen]
    cases hf : F.fdt_find_child hyp (c_string buf1 ptr) with
    | some node => exact ⟨true, buf1, hlen1, rfl⟩
    | none => exact ih (i + 1) buf1 hlen1

theorem read_stringlist_none (F : Fdt) (node : F.fdt_node) (property : List Nat) :
    read_stringlist F node property = none ↔ F.fdt_read_property node property = some [] := by
  unfold read_stringlist
  cases hread : F.fdt_read_property node property with
  | none => simp
  | some data =>
    cases data with
    | nil => simp [size_minus_one]
    | cons b rest =>
      have hsz : size_minus_one (b :: rest).length = rest.length := by
        simp [size_minus_one]
      have hlt : rest.length < (b :: rest).length := by simp
      simp only [hsz, List.getElem?_eq_getElem hlt]
      split <;> simp

theorem manifest_init_unfold (F : Fdt) (root : F.fdt_node) :
    (∃ c : manifest_return_code, c ≠ MANIFEST_SUCCESS ∧
      manifest_init F root = some (c, manifest_zero F)) ∨
    (manifest_init F root = none ∧ ∃ hyp : F.fdt_node,
      F.fdt_find_child root str_hypervisor = some hyp ∧
      F.fdt_read_property hyp str_compatible = some []) ∨
    (∃ (hyp : F.fdt_node) (buf : List Nat),
      F.fdt_find_child root str_hypervisor = some hyp ∧ buf.length = VM_NAME_BUF_SIZE ∧
      manifest_init F root =
        manifest_init_vm_loop F hyp (F.MAX_VMS + 1) 0 (manifest_zero F) false buf) := by
  unfold manifest_init
  simp only
  cases hfind : F.fdt_find_child root str_hypervisor with
  | none => exact Or.inl ⟨_, by decide, rfl⟩
  | some hyp =>
    simp only
    cases hrs : read_stringlist F hyp str_compatible with
    | none =>
      exact Or.inr (Or.inl ⟨rfl, hyp, rfl, (read_stringlist_none F hyp str_compatible).1 hrs⟩)
    | some r =>
      obtain ⟨c, l⟩ := r
      cases c <;> simp only <;> try exact Or.inl ⟨_, by decide, rfl⟩
      obtain ⟨b, hb⟩ := stringlist_contains_total l str_hafnium
      rw [hb]
      cases b with
      | false => exact Or.inl ⟨_, by decide, rfl⟩
      | true =>
        simp only
        obtain ⟨b2, buf, hlen, hres⟩ := reserved_loop_total F hyp F.HF_VM_ID_OFFSET 0
          (List.replicate VM_NAME_BUF_SIZE 0) (by simp)
        rw [hres]
        cases b2 with
        | true => exact Or.inl ⟨_, by decide, rfl⟩
        | false => exact Or.inr (Or.inr ⟨hyp, buf, rfl, hlen, rfl⟩)

theorem vm_loop_none (F : Fdt) (hyp : F.fdt_node) :
    ∀ (n i : Nat) (m : manifest) (found : Bool) (buf : List Nat),
      i + n = F.MAX_VMS + 1 → buf.length = VM_NAME_BUF_SIZE → m.vm.length = F.MAX_VMS →
      (found = true →
        ∃ j : Nat, j < i ∧ (F.HF_VM_ID_OFFSET + j) % 2 ^ 16 = F.HF_PRIMARY_VM_ID) →
      manifest_init_vm_loop F hyp n i m found buf = none →
      ∃ i1 j : Nat, j < i1 ∧ i1 < F.MAX_VMS ∧
        (F.HF_VM_ID_OFFSET + i1) % 2 ^ 16 = F.HF_PRIMARY_VM_ID ∧
        (F.HF_VM_ID_OFFSET + j) % 2 ^ 16 = F.HF_PRIMARY_VM_ID := by
  intro n
  induction n with
  | zero =>
    intro i m found buf _ _ _ _ h
    unfold manifest_init_vm_loop at h
    cases h
  | succ n ih =>
    intro i m found buf hn hbuf hlen hfound h
    obtain ⟨ptr, buf1, hgen, hlen1, _⟩ :=
      generate_vm_node_name_mod buf (F.HF_VM_ID_OFFSET + i) hbuf
    unfold manifest_init_vm_loop at h
    simp only [hgen] at h
    cases hf : F.fdt_find_child hyp (c_string buf1 ptr) with
    | none => rw [hf] at h; cases h
    | some node =>
      rw [hf] at h
      simp only at h
      by_cases himax : i = F.MAX_VMS
      · rw [if_pos himax] at h; cases h
      · rw [if_neg himax] at h
        by_cases hcheck : (F.HF_VM_ID_OFFSET + i) % 2 ^ 16 = F.HF_PRIMARY_VM_ID ∧ found = true
        · obtain ⟨j, hj, hjid⟩ := hfound hcheck.2
          exact ⟨i, j, hj, by omega, hcheck.1, hjid⟩
        · rw [if_neg hcheck] at h
          have hilt : i < m.vm.length := by omega
          rw [List.getElem?_eq_getElem hilt] at h
          simp only at h
          rcases hp : parse_vm F node m.vm[i] ((F.HF_VM_ID_OFFSET + i) % 2 ^ 16) with ⟨c, vm1⟩
          rw [hp] at h
          cases c <;> simp only at h <;> try (cases h)
          refine ih (i + 1) _ _ buf1 (by omega) hlen1 (by simp [hlen]) ?_ h
          intro hf1
          simp only [Bool.or_eq_true, decide_eq_true_eq] at hf1
          rcases hf1 with hf1 | hf1
          · obtain ⟨j, hj, hjid⟩ := hfound hf1
            exact ⟨j, by omega, hjid⟩
          · exact ⟨i, by omega, hf1⟩

theorem vm_loop_result (F : Fdt) (hyp : F.fdt_node) :
    ∀ (n i : Nat) (m : manifest) (found : Bool) (buf : List Nat)
      (c : manifest_return_code) (m1 : manifest),
      i + n = F.MAX_VMS + 1 → i ≤ F.MAX_VMS → buf.length = VM_NAME_BUF_SIZE →
      m.vm.length = F.MAX_VMS → m.vm_count = i % 2 ^ 16 →
      (∀ j : Nat, i ≤ j → j < F.MAX_VMS → m.vm[j]? = some (manifest_vm_zero F)) →
      (∀ j : Nat, j < i →
        F.fdt_find_child hyp (vm_node_name ((F.HF_VM_ID_OFFSET + j) % 2 ^ 16)) ≠ none) →
      (found = true →
        ∃ j : Nat, j < i ∧ (F.HF_VM_ID_OFFSET + j) % 2 ^ 16 = F.HF_PRIMARY_VM_ID) →
      (∀ j : Nat, j < i → (F.HF_VM_ID_OFFSET + j) % 2 ^ 16 = F.HF_PRIMARY_VM_ID →
        ∃ (node : F.fdt_node) (v : manifest_vm),
          F.fdt_find_child hyp (vm_node_name F.HF_PRIMARY_VM_ID) = some node ∧
          parse_vm F node (manifest_vm_zero F) F.HF_PRIMARY_VM_ID = (MANIFEST_SUCCESS, v) ∧
          m.vm[j]? = some v) →
      manifest_init_vm_loop F hyp n i m found buf = some (c, m1) →
      m1.vm.length = F.MAX_VMS ∧
      ∃ k : Nat, k ≤ F.MAX_VMS ∧ m1.vm_count = k % 2 ^ 16 ∧
        (∀ j : Nat, k ≤ j → j < F.MAX_VMS → m1.vm[j]? = some (manifest_vm_zero F)) ∧
        (c = MANIFEST_SUCCESS → 1 ≤ m1.vm_count ∧
          (∃ j : Nat, j < k ∧ (F.HF_VM_ID_OFFSET + j) % 2 ^ 16 = F.HF_PRIMARY_VM_ID) ∧
          (∀ j : Nat, j < k → (F.HF_VM_ID_OFFSET + j) % 2 ^ 16 = F.HF_PRIMARY_VM_ID →
            ∃ (node : F.fdt_node) (v : manifest_vm),
              F.fdt_find_child hyp (vm_node_name F.HF_PRIMARY_VM_ID) = some node ∧
              parse_vm F node (manifest_vm_zero F) F.HF_PRIMARY_VM_ID =
                (MANIFEST_SUCCESS, v) ∧
              m1.vm[j]? = some v)) := by
  have hp : (2 : Nat) ^ 16 = 65536 := by norm_num
  intro n
  induction n with
  | zero =>
    intro i m found buf c m1 hn hle _ _ _ _ _ _ _ _
    omega
  | succ n ih =>
    intro i m found buf c m1 hn _ hbuf hlen hcount hzero hnodes hfound hprim h
    obtain ⟨ptr, buf1, hgen, hlen1, hname⟩ :=
      generate_vm_node_name_mod buf (F.HF_VM_ID_OFFSET + i) hbuf
    unfold manifest_init_vm_loop at h
    simp only [hgen] at h
    cases hf : F.fdt_find_child hyp (c_string buf1 ptr) with
    | none =>
      rw [hf] at h
      simp only [Option.some.injEq, Prod.mk.injEq] at h
      obtain ⟨hc, hm⟩ := h
      subst hm
      refine ⟨hlen, i, by omega, hcount, hzero, ?_⟩
      intro hsucc
      have hft : found = true := by
        cases found with
        | true => rfl
        | false => rw [← hc] at hsucc; revert hsucc; decide
      obtain ⟨j, hj, hjid⟩ := hfound hft
      refine ⟨?_, ⟨j, hj, hjid⟩, hprim⟩
      rw [hcount]
      by_contra hcon
      have h0 := hnodes 0 (by omega)
      have heq : (F.HF_VM_ID_OFFSET + 0) % 2 ^ 16 = (F.HF_VM_ID_OFFSET + i) % 2 ^ 16 := by
        rw [hp] at hcon ⊢
        omega
      rw [heq, ← hname, hf] at h0
      exact h0 rfl
    | some node =>
      rw [hf] at h
      simp only at h
      by_cases himax : i = F.MAX_VMS
      · rw [if_pos himax] at h
        simp only [Option.some.injEq, Prod.mk.injEq] at h
        obtain ⟨hc, hm⟩ := h
        subst hm
        refine ⟨hlen, i, by omega, hcount, hzero, ?_⟩
        intro hsucc
        rw [← hc] at hsucc
        cases hsucc
      · rw [if_neg himax] at h
        by_cases hcheck : (F.HF_VM_ID_OFFSET + i) % 2 ^ 16 = F.HF_PRIMARY_VM_ID ∧ found = true
        · rw [if_pos hcheck] at h; cases h
        · rw [if_neg hcheck] at h
          have hilt : i < F.MAX_VMS := by omega
          simp only [hzero i (Nat.le_refl _) hilt] at h
          rcases hpv : parse_vm F node (manifest_vm_zero F)
            ((F.HF_VM_ID_OFFSET + i) % 2 ^ 16) with ⟨c1, vm1⟩
          rw [hpv] at h
          have hset : ∀ j : Nat, j ≠ i → (m.vm.set i vm1)[j]? = m.vm[j]? := by
            intro j hj
            exact List.getElem?_set_ne (Ne.symm hj)
          have hseti : (m.vm.set i vm1)[i]? = some vm1 := by
            rw [List.getElem?_set_self]
            simp [hlen, hilt]
          have hother : c1 ≠ MANIFEST_SUCCESS →
              some (c1, ({ vm_count := (i + 1) % 2 ^ 16, vm := m.vm.set i vm1 } : manifest)) =
                some (c, m1) →
              m1.vm.length = F.MAX_VMS ∧
              ∃ k : Nat, k ≤ F.MAX_VMS ∧ m1.vm_count = k % 2 ^ 16 ∧
                (∀ j : Nat, k ≤ j → j < F.MAX_VMS → m1.vm[j]? = some (manifest_vm_zero F)) ∧
                (c = MANIFEST_SUCCESS → 1 ≤ m1.vm_count ∧
                  (∃ j : Nat, j < k ∧
                    (F.HF_VM_ID_OFFSET + j) % 2 ^ 16 = F.HF_PRIMARY_VM_ID) ∧
                  (∀ j : Nat, j < k →
                    (F.HF_VM_ID_OFFSET + j) % 2 ^ 16 = F.HF_PRIMARY_VM_ID →
                    ∃ (node : F.fdt_node) (v : manifest_vm),
                      F.fdt_find_child hyp (vm_node_name F.HF_PRIMARY_VM_ID) = some node ∧
                      parse_vm F node (manifest_vm_zero F) F.HF_PRIMARY_VM_ID =
                        (MANIFEST_SUCCESS, v) ∧
                      m1.vm[j]? = some v)) := by
            intro hne heq
            simp only [Option.some.injEq, Prod.mk.injEq] at heq
            obtain ⟨hc, hm⟩ := heq
            subst hm
            subst hc
            refine ⟨by simp [hlen], i + 1, by omega, rfl, ?_, fun hs => (hne hs).elim⟩
            intro j hj hjm
            show (m.vm.set i vm1)[j]? = _
            rw [hset j (by omega)]
            exact hzero j (by omega) hjm
          cases c1 <;> simp only at h <;> try (exact hother (by decide) h)
          refine ih (i + 1) _ _ buf1 c m1 (by omega) (by omega) hlen1 (by simp [hlen]) rfl ?_ ?_ ?_ ?_ h
          · intro j hj hjm
            show (m.vm.set i vm1)[j]? = _
            rw [hset j (by omega)]
            exact hzero j (by omega) hjm
          · intro j hj
            rcases Nat.lt_or_ge j i with hlt | hge
            · exact hnodes j hlt
            · have hji : j = i := by omega
              subst hji
              rw [← hname, hf]
              simp
          · intro hf1
            simp only [Bool.or_eq_true, decide_eq_true_eq] at hf1
            rcases hf1 with hf1 | hf1
            · obtain ⟨j, hj, hjid⟩ := hfound hf1
              exact ⟨j, by omega, hjid⟩
            · exact ⟨i, by omega, hf1⟩
          · intro j hj hjid
            show ∃ (node : F.fdt_node) (v : manifest_vm), _ ∧ _ ∧ (m.vm.set i vm1)[j]? = some v
            rcases Nat.lt_or_ge j i with hlt | hge
            · obtain ⟨nd, v, h1, h2, h3⟩ := hprim j hlt hjid
              exact ⟨nd, v, h1, h2, by rw [hset j (by omega)]; exact h3⟩
            · have hji : j = i := by omega
              subst hji
              refine ⟨node, vm1, ?_, ?_, hseti⟩
              · rw [← hjid, ← hname]; exact hf
              · rw [← hjid]; exact hpv

theorem manifest_zero_get (F : Fdt) (j : Nat) (hj : j < F.MAX_VMS) :
    (manifest_zero F).vm[j]? = some (manifest_vm_zero F) := by
  simp [manifest_zero, hj]

theorem manifest_init_result (F : Fdt) (root : F.fdt_node) (c : manifest_return_code)
    (m : manifest) (h : manifest_init F root = some (c, m)) :
    m.vm.length = F.MAX_VMS ∧
    ∃ k : Nat, k ≤ F.MAX_VMS ∧ m.vm_count = k % 2 ^ 16 ∧
      (∀ j : Nat, k ≤ j → j < F.MAX_VMS → m.vm[j]? = some (manifest_vm_zero F)) ∧
      (c = MANIFEST_SUCCESS → 1 ≤ m.vm_count ∧
        ∃ hyp : F.fdt_node, F.fdt_find_child root str_hypervisor = some hyp ∧
          (∃ j : Nat, j < k ∧ (F.HF_VM_ID_OFFSET + j) % 2 ^ 16 = F.HF_PRIMARY_VM_ID) ∧
          (∀ j : Nat, j < k → (F.HF_VM_ID_OFFSET + j) % 2 ^ 16 = F.HF_PRIMARY_VM_ID →
            ∃ (node : F.fdt_node) (v : manifest_vm),
              F.fdt_find_child hyp (vm_node_name F.HF_PRIMARY_VM_ID) = some node ∧
              parse_vm F node (manifest_vm_zero F) F.HF_PRIMARY_VM_ID =
                (MANIFEST_SUCCESS, v) ∧
              m.vm[j]? = some v)) := by
  rcases manifest_init_unfold F root with ⟨c1, hc1, he⟩ | ⟨he, _⟩ | ⟨hyp, buf, hfind, hbuf, he⟩
  · rw [he] at h
    simp only [Option.some.injEq, Prod.mk.injEq] at h
    obtain ⟨hc, hm⟩ := h
    subst hm
    subst hc
    refine ⟨by simp [manifest_zero], 0, Nat.zero_le _, rfl, ?_, fun hs => (hc1 hs).elim⟩
    intro j _ hj
    exact manifest_zero_get F j hj
  · rw [he] at h; cases h
  · rw [he] at h
    obtain ⟨hlen, k, hk, hcount, hzero, hsucc⟩ :=
      vm_loop_result F hyp (F.MAX_VMS + 1) 0 (manifest_zero F) false buf c m
        (by omega) (Nat.zero_le _) hbuf (by simp [manifest_zero]) rfl
        (fun j _ hj => manifest_zero_get F j hj)
        (fun j hj => absurd hj (Nat.not_lt_zero j))
        (fun hf => by cases hf)
        (fun j hj => absurd hj (Nat.not_lt_zero j)) h
    refine ⟨hlen, k, hk, hcount, hzero, ?_⟩
    intro hs
    obtain ⟨h1, h2, h3⟩ := hsucc hs
    exact ⟨h1, hyp, hfind, h2, h3⟩

theorem manifest_init_none_cases (F : Fdt) (root : F.fdt_node)
    (h : manifest_init F root = none) :
    (∃ hyp : F.fdt_node, F.fdt_find_child root str_hypervisor = some hyp ∧
      F.fdt_read_property hyp str_compatible = some []) ∨
    (∃ i j : Nat, j < i ∧ i < F.MAX_VMS ∧
      (F.HF_VM_ID_OFFSET + i) % 2 ^ 16 = F.HF_PRIMARY_VM_ID ∧
      (F.HF_VM_ID_OFFSET + j) % 2 ^ 16 = F.HF_PRIMARY_VM_ID) := by
  rcases manifest_init_unfold F root with ⟨c1, _, he⟩ | ⟨_, hempty⟩ | ⟨hyp, buf, _, hbuf, he⟩
  · rw [he] at h; cases h
  · exact Or.inl hempty
  · rw [he] at h
    exact Or.inr (vm_loop_none F hyp (F.MAX_VMS + 1) 0 (manifest_zero F) false buf
      (by omega) hbuf (by simp [manifest_zero]) (fun hf => by cases hf) h)

theorem vm_id_collision_free (F : Fdt) (hmax : F.MAX_VMS ≤ 2 ^ 16) (i j : Nat)
    (hi : i < F.MAX_VMS) (hj : j < F.MAX_VMS)
    (hid : (F.HF_VM_ID_OFFSET + i) % 2 ^ 16 = F.HF_PRIMARY_VM_ID)
    (hjd : (F.HF_VM_ID_OFFSET + j) % 2 ^ 16 = F.HF_PRIMARY_VM_ID) : i = j := by
  have hp : (2 : Nat) ^ 16 = 65536 := by norm_num
  rw [hp] at hmax hid hjd
  omega

/-- C21: on every return of `manifest_init`, whatever the code and the device
tree, `vm_count ≤ MAX_VMS`, the entry array still has its `MAX_VMS` entries and
only entries below the number `k ≤ MAX_VMS` of VM nodes visited have been
written (the others are still zero); on `MANIFEST_SUCCESS` moreover
`vm_count ≥ 1` and, `HF_PRIMARY_VM_ID` being `HF_VM_ID_OFFSET`, entry 0 is the
one parsed from the node of the primary VM. A run that does not return never
stops at an index into the entry array: it read the empty "compatible" value
or failed the sanity check on a second primary id. -/
theorem manifest_init_bounds (F : Fdt) (root : F.fdt_node) :
    (∀ (c : manifest_return_code) (m : manifest), manifest_init F root = some (c, m) →
      m.vm_count ≤ F.MAX_VMS ∧ m.vm.length = F.MAX_VMS ∧
      (∃ k : Nat, k ≤ F.MAX_VMS ∧ m.vm_count = k % 2 ^ 16 ∧
        ∀ j : Nat, k ≤ j → m.vm[j]? = (manifest_zero F).vm[j]?) ∧
      (c = MANIFEST_SUCCESS → 1 ≤ m.vm_count ∧
        (F.HF_PRIMARY_VM_ID = F.HF_VM_ID_OFFSET →
          ∃ (hyp node : F.fdt_node) (v : manifest_vm),
            F.fdt_find_child root str_hypervisor = some hyp ∧
            F.fdt_find_child hyp (vm_node_name F.HF_PRIMARY_VM_ID) = some node ∧
            parse_vm F node (manifest_vm_zero F) F.HF_PRIMARY_VM_ID =
              (MANIFEST_SUCCESS, v) ∧
            m.vm[0]? = some v))) ∧
    (manifest_init F root = none →
      (∃ hyp : F.fdt_node, F.fdt_find_child root str_hypervisor = some hyp ∧
        F.fdt_read_property hyp str_compatible = some []) ∨
      (∃ i j : Nat, j < i ∧ i < F.MAX_VMS ∧
        (F.HF_VM_ID_OFFSET + i) % 2 ^ 16 = F.HF_PRIMARY_VM_ID ∧
        (F.HF_VM_ID_OFFSET + j) % 2 ^ 16 = F.HF_PRIMARY_VM_ID)) := by
  have hp : (2 : Nat) ^ 16 = 65536 := by norm_num
  refine ⟨?_, manifest_init_none_cases F root⟩
  intro c m h
  obtain ⟨hlen, k, hk, hcount, hzero, hsucc⟩ := manifest_init_result F root c m h
  refine ⟨?_, hlen, ⟨k, hk, hcount, ?_⟩, ?_⟩
  · rw [hcount]
    exact Nat.le_trans (Nat.mod_le _ _) hk
  · intro j hj
    rcases Nat.lt_or_ge j F.MAX_VMS with hlt | hge
    · rw [hzero j hj hlt, manifest_zero_get F j hlt]
    · rw [List.getElem?_eq_none (by omega), List.getElem?_eq_none (by simp [manifest_zero, hge])]
  · intro hs
    obtain ⟨h1, hyp, hfind, ⟨j, hj, hjid⟩, hall⟩ := hsucc hs
    refine ⟨h1, ?_⟩
    intro hprim
    have h0 : (F.HF_VM_ID_OFFSET + 0) % 2 ^ 16 = F.HF_PRIMARY_VM_ID := by
      rw [hp] at hjid ⊢
      omega
    obtain ⟨node, v, hn, hpv, hv⟩ := hall 0 (by omega) h0
    exact ⟨hyp, node, v, hfind, hn, hpv, hv⟩

theorem manifest_init_bounds_witness :
    (manifest_of demo_fdt [demo_entry_primary]).vm_count ≤ demo_fdt.MAX_VMS ∧
    1 ≤ (manifest_of demo_fdt [demo_entry_primary]).vm_count ∧
    (manifest_of demo_fdt [demo_entry_primary]).vm.length = demo_fdt.MAX_VMS :=
  have h := (manifest_init_bounds demo_fdt demo_root_primary_only).1 MANIFEST_SUCCESS
    (manifest_of demo_fdt [demo_entry_primary]) (by decide)
  ⟨h.1, (h.2.2.2 rfl).1, h.2.1⟩

/-- C22: with at most `2 ^ 16` VMs no `CHECK` of the manifest parser fails.
`stringlist_get_next` is only called on an iterator that has a next entry, so
`stringlist_contains` always returns; the ids of two different iterations that
reach the sanity check differ, so the loop over the VM nodes always returns;
a run of `manifest_init` that does not return stopped in `read_stringlist`,
which has no `CHECK`. With `HF_VM_ID_OFFSET + MAX_VMS ≤ UINT16_MAX` the id of
iteration `i` is `HF_VM_ID_OFFSET + i` without wrap-around. -/
theorem manifest_checks_hold (F : Fdt) (hmax : F.MAX_VMS ≤ 2 ^ 16) :
    (∀ it : List Nat, stringlist_has_next it = true →
      ∃ (entry it1 : List Nat), stringlist_get_next it = some (entry, it1) ∧
        it1.length < it.length) ∧
    (∀ list str : List Nat, ∃ b : Bool, stringlist_contains list str = some b) ∧
    (∀ i j : Nat, i < F.MAX_VMS → j < F.MAX_VMS →
      (F.HF_VM_ID_OFFSET + i) % 2 ^ 16 = F.HF_PRIMARY_VM_ID →
      (F.HF_VM_ID_OFFSET + j) % 2 ^ 16 = F.HF_PRIMARY_VM_ID → i = j) ∧
    (∀ (hyp : F.fdt_node) (buf : List Nat), buf.length = VM_NAME_BUF_SIZE →
      ∃ (c : manifest_return_code) (m : manifest),
        manifest_init_vm_loop F hyp (F.MAX_VMS + 1) 0 (manifest_zero F) false buf =
          some (c, m)) ∧
    (∀ root : F.fdt_node, manifest_init F root = none →
      ∃ hyp : F.fdt_node, F.fdt_find_child root str_hypervisor = some hyp ∧
        read_stringlist F hyp str_compatible = none) ∧
    (F.HF_VM_ID_OFFSET + F.MAX_VMS ≤ UINT16_MAX →
      ∀ i : Nat, i ≤ F.MAX_VMS →
        (F.HF_VM_ID_OFFSET + i) % 2 ^ 16 = F.HF_VM_ID_OFFSET + i) := by
  refine ⟨?_, stringlist_contains_total, ?_, ?_, ?_, ?_⟩
  · intro it hnext
    obtain ⟨entry, it1, hget, hlt, _⟩ := stringlist_get_next_some it hnext
    exact ⟨entry, it1, hget, hlt⟩
  · intro i j hi hj hid hjd
    exact vm_id_collision_free F hmax i j hi hj hid hjd
  · intro hyp buf hbuf
    cases hr : manifest_init_vm_loop F hyp (F.MAX_VMS + 1) 0 (manifest_zero F) false buf with
    | some r => exact ⟨r.1, r.2, rfl⟩
    | none =>
      obtain ⟨i, j, hji, hi, hid, hjd⟩ :=
        vm_loop_none F hyp (F.MAX_VMS + 1) 0 (manifest_zero F) false buf
          (by omega) hbuf (by simp [manifest_zero]) (fun hf => by cases hf) hr
      have := vm_id_collision_free F hmax i j hi (by omega) hid hjd
      omega
  · intro root hnone
    rcases manifest_init_none_cases F root hnone with ⟨hyp, hfind, hempty⟩ | ⟨i, j, hji, hi, hid, hjd⟩
    · exact ⟨hyp, hfind, (read_stringlist_none F hyp str_compatible).2 hempty⟩
    · have := vm_id_collision_free F hmax i j hi (by omega) hid hjd
      omega
  · intro h16 i hi
    unfold UINT16_MAX at h16
    exact Nat.mod_eq_of_lt (by norm_num; omega)

theorem manifest_checks_hold_witness :
    demo_fdt.MAX_VMS ≤ 2 ^ 16 ∧
    (∃ b : Bool, stringlist_contains demo_compatible.dropLast str_hafnium = some b) ∧
    (∃ (c : manifest_return_code) (m : manifest),
      manifest_init_vm_loop demo_fdt demo_hyp_too_many (demo_fdt.MAX_VMS + 1) 0
        (manifest_zero demo_fdt) false (List.replicate VM_NAME_BUF_SIZE 0) = some (c, m)) :=
  ⟨by decide, (manifest_checks_hold demo_fdt (by decide)).2.1 _ _,
    (manifest_checks_hold demo_fdt (by decide)).2.2.2.1 demo_hyp_too_many _ (by decide)⟩

/-- C23: the empty value of the "compatible" property. With `size = 0` the
index `size - 1` of `read_stringlist` wraps to `2 ^ 32 - 1` and the read of
`data[size - 1]` is outside the value: `read_stringlist`, and with it
`manifest_init`, does not return. This is the only value on which
`read_stringlist` leaves the value: for a value of one byte or more the index
`size - 1` is inside it, the iterator is the value without its last byte, and
the scan of `stringlist_contains` over it returns. -/
theorem read_stringlist_empty_value :
    size_minus_one ([] : List Nat).length = 4294967295 ∧
    ([] : List Nat)[size_minus_one ([] : List Nat).length]? = none ∧
    demo_fdt.fdt_read_property demo_hyp_empty_compatible str_compatible = some [] ∧
    read_stringlist demo_fdt demo_hyp_empty_compatible str_compatible = none ∧
    manifest_init demo_fdt demo_root_empty_compatible = none ∧
    (∀ (F : Fdt) (node : F.fdt_node) (property : List Nat),
      read_stringlist F node property = none ↔
        F.fdt_read_property node property = some []) ∧
    (∀ (F : Fdt) (node : F.fdt_node) (property value : List Nat),
      F.fdt_read_property node property = some value → value ≠ [] →
      size_minus_one value.length = value.length - 1 ∧
      size_minus_one value.length < value.length ∧
      ∃ (c : manifest_return_code) (it : List Nat),
        read_stringlist F node property = some (c, it) ∧
        (c = MANIFEST_SUCCESS → it = value.take (value.length - 1)) ∧
        it.length ≤ value.length - 1 ∧
        ∀ str : List Nat, ∃ b : Bool, stringlist_contains it str = some b) := by
  refine ⟨by decide, by decide, rfl, by decide, by decide, read_stringlist_none, ?_⟩
  intro F node property value hread hne
  have hpos : 0 < value.length := List.length_pos.2 hne
  have hsz : size_minus_one value.length = value.length - 1 := by
    unfold size_minus_one
    rw [if_neg (by omega)]
  refine ⟨hsz, by omega, ?_⟩
  cases hr : read_stringlist F node property with
  | none =>
    rw [(read_stringlist_none F node property).1 hr] at hread
    simp only [Option.some.injEq] at hread
    exact (hne hread.symm).elim
  | some r =>
    obtain ⟨c, it⟩ := r
    refine ⟨c, it, rfl, ?_, ?_, fun str => stringlist_contains_total it str⟩
    · intro hc
      rcases read_stringlist_cases F node property c it hr with ⟨h1, _⟩ | h1 | ⟨_, v, hv, _, hit⟩
      · rw [hc] at h1; cases h1
      · rw [hc] at h1; cases h1
      · rw [hread] at hv
        simp only [Option.some.injEq] at hv
        subst hv
        rw [hit, List.dropLast_eq_take]
    · rcases read_stringlist_cases F node property c it hr with ⟨_, hn⟩ | h1 | ⟨_, v, hv, _, hit⟩
      · rw [hread] at hn; cases hn
      · unfold read_stringlist at hr
        rw [hread] at hr
        simp only at hr
        split at hr
        · cases hr
        · split at hr
          · simp only [Option.some.injEq, Prod.mk.injEq] at hr
            rw [← hr.2]
            simp
          · simp only [Option.some.injEq, Prod.mk.injEq] at hr
            rw [← hr.2]
            simp
      · rw [hit]
        simp
        rw [hread] at hv
        simp only [Option.some.injEq] at hv
        subst hv
        omega

/-! ## Theorems: turning a core on with an aborted vCPU -/

theorem loop_replay (b : Nat) (ids : List Nat) :
    ∀ (n i j : Nat) (found : Bool) (cpus : List cpu) (j1 : Nat) (found1 : Bool)
      (cpus1 : List cpu),
      cpu_module_init_loop b ids n i j found cpus = some (j1, found1, cpus1) →
      ∃ σ : List Nat, cpu_module_init_slots_written b ids n i j found = some σ ∧
        cpu_module_init_replay ids σ i cpus = some cpus1 := by
  intro n
  induction n with
  | zero =>
    intro i j found cpus j1 found1 cpus1 h
    unfold cpu_module_init_loop at h
    simp only [Option.some.injEq, Prod.mk.injEq] at h
    obtain ⟨_, _, hc⟩ := h
    subst hc
    exact ⟨[], rfl, rfl⟩
  | succ n ih =>
    intro i j found cpus j1 found1 cpus1 h
    unfold cpu_module_init_loop at h
    unfold cpu_module_init_slots_written
    cases hid : ids[i]? with
    | none => rw [hid] at h; cases h
    | some id =>
      rw [hid] at h
      simp only at h ⊢
      by_cases hcond : (found || id != b) = true
      · rw [if_pos hcond] at h ⊢
        try simp only at h
        try simp only
        cases hc : cpus[(j + 2 ^ 32 - 1) % 2 ^ 32]? with
        | none => rw [hc] at h; cases h
        | some c =>
          rw [hc] at h
          simp only at h
          obtain ⟨σ, hσ, hrep⟩ := ih _ _ _ _ _ _ _ h
          rw [hσ]
          refine ⟨_, rfl, ?_⟩
          unfold cpu_module_init_replay
          simp only [hid, hc]
          exact hrep
      · rw [if_neg hcond] at h ⊢
        cases hc : cpus[0]? with
        | none => rw [hc] at h; cases h
        | some c =>
          rw [hc] at h
          simp only at h
          obtain ⟨σ, hσ, hrep⟩ := ih _ _ _ _ _ _ _ h
          rw [hσ]
          refine ⟨_, rfl, ?_⟩
          unfold cpu_module_init_replay
          simp only [hid, hc]
          exact hrep

theorem replay_length (ids : List Nat) :
    ∀ (σ : List Nat) (i : Nat) (cpus cpus1 : List cpu),
      cpu_module_init_replay ids σ i cpus = some cpus1 → cpus1.length = cpus.length := by
  intro σ
  induction σ with
  | nil =>
    intro i cpus cpus1 h
    unfold cpu_module_init_replay at h
    cases h
    rfl
  | cons slot rest ih =>
    intro i cpus cpus1 h
    unfold cpu_module_init_replay at h
    split at h
    · cases h
    · split at h
      · cases h
      · rw [ih _ _ _ h, List.length_set]

theorem replay_untouched (ids : List Nat) :
    ∀ (σ : List Nat) (i : Nat) (cpus cpus1 : List cpu),
      cpu_module_init_replay ids σ i cpus = some cpus1 →
      ∀ k : Nat, k ∉ σ → cpus1[k]? = cpus[k]? := by
  intro σ
  induction σ with
  | nil =>
    intro i cpus cpus1 h k _
    unfold cpu_module_init_replay at h
    cases h
    rfl
  | cons slot rest ih =>
    intro i cpus cpus1 h k hk
    unfold cpu_module_init_replay at h
    simp only [List.mem_cons, not_or] at hk
    split at h
    · cases h
    · split at h
      · cases h
      · rw [ih _ _ _ h k hk.2, List.getElem?_set_ne (Ne.symm hk.1)]

theorem replay_written (ids : List Nat) :
    ∀ (σ : List Nat) (i : Nat) (cpus cpus1 : List cpu),
      cpu_module_init_replay ids σ i cpus = some cpus1 → σ.Nodup →
      ∀ (p slot : Nat), σ[p]? = some slot →
        ∃ c : cpu, cpus1[slot]? = some c ∧ c.stack_bottom = some (i + p) ∧
          ids[i + p]? = some c.id := by
  intro σ
  induction σ with
  | nil =>
    intro i cpus cpus1 _ _ p slot hp
    simp at hp
  | cons s0 rest ih =>
    intro i cpus cpus1 h hnd p slot hp
    unfold cpu_module_init_replay at h
    rw [List.nodup_cons] at hnd
    split at h
    · cases h
    · rename_i id hid
      split at h
      · cases h
      · rename_i c hc
        cases p with
        | zero =>
          simp only [List.getElem?_cons_zero, Option.some.injEq] at hp
          subst hp
          have hlt : s0 < cpus.length := by
            rcases Nat.lt_or_ge s0 cpus.length with hl | hl
            · exact hl
            · rw [List.getElem?_eq_none hl] at hc; cases hc
          refine ⟨{ c with id := id, stack_bottom := some i }, ?_, rfl, hid⟩
          rw [replay_untouched ids rest _ _ _ h s0 hnd.1]
          exact List.getElem?_set_self hlt
        | succ p =>
          simp only [List.getElem?_cons_succ] at hp
          obtain ⟨c1, h1, h2, h3⟩ := ih _ _ _ h hnd.2 p slot hp
          have he : i + 1 + p = i + (p + 1) := by omega
          rw [he] at h2 h3
          exact ⟨c1, h1, h2, h3⟩

theorem slots_written_head (b : Nat) (ids : List Nat) (n : Nat) (σ : List Nat)
    (h32 : n + 1 < 2 ^ 32)
    (h : cpu_module_init_slots_written b ids (n + 1) 0 (n + 1) false = some σ) :
    σ[0]? = some (if ids[0]? = some b then 0 else n) := by
  have hp : (2 : Nat) ^ 32 = 4294967296 := by norm_num
  unfold cpu_module_init_slots_written at h
  split at h
  · cases h
  · rename_i id hid
    simp only at h
    have hjval : (n + 1 + 2 ^ 32 - 1) % 2 ^ 32 = n := by
      rw [hp] at h32 ⊢; omega
    rw [hjval] at h
    by_cases hb : id = b
    · subst hb
      simp only [Bool.false_or, bne_self_eq_false, Bool.false_eq_true, if_false] at h
      split at h
      · cases h
      · cases h
        simp [hid]
    · have hcond : (false || id != b) = true := by simp [hb]
      rw [if_pos hcond] at h
      split at h
      · cases h
      · cases h
        simp [hid, hb]

theorem cpu_module_init_unfold {P : Platform} (s s1 : State P) (ids : List Nat) (n : Nat)
    (c0 : cpu) (h0 : s.cpus[0]? = some c0) (h32 : n < 2 ^ 32)
    (h : cpu_module_init s ids n = some s1) :
    ∃ (j1 : Nat) (f1 : Bool) (cpus1 : List cpu),
      cpu_module_init_loop c0.id ids n 0 n false s.cpus = some (j1, f1, cpus1) ∧
      ((f1 = true ∧ s1.cpus = cpus1) ∨
        (f1 = false ∧ ∃ c : cpu, cpus1[0]? = some c ∧
          s1.cpus = cpus1.set 0 { c with id := c0.id })) := by
  have hmod : n % 2 ^ 32 = n := Nat.mod_eq_of_lt h32
  unfold cpu_module_init at h
  rw [h0] at h
  simp only [hmod] at h
  cases hl : cpu_module_init_loop c0.id ids n 0 n false s.cpus with
  | none => rw [hl] at h; cases h
  | some r =>
    obtain ⟨j1, f1, cpus1⟩ := r
    rw [hl] at h
    simp only at h
    refine ⟨j1, f1, cpus1, rfl, ?_⟩
    cases f1 with
    | true =>
      simp only [Bool.not_true, Bool.false_eq_true, if_false, Option.some.injEq] at h
      subst h
      exact Or.inl ⟨rfl, rfl⟩
    | false =>
      simp only [Bool.not_false, if_true] at h
      cases hc : cpus1[0]? with
      | none => rw [hc] at h; cases h
      | some c =>
        rw [hc] at h
        simp only [Option.some.injEq] at h
        subst h
        exact Or.inr ⟨rfl, c, rfl, rfl⟩

theorem restore_id_stack (cpus : List cpu) (c : cpu) (b k : Nat) (h : cpus[0]? = some c) :
    ((cpus.set 0 { c with id := b })[k]?).map cpu.stack_bottom =
      (cpus[k]?).map cpu.stack_bottom := by
  rw [List.getElem?_set]
  split
  · rename_i hk
    subst hk
    rw [h]
    have hlt : 0 < cpus.length := by
      rcases Nat.lt_or_ge 0 cpus.length with hl | hl
      · exact hl
      · rw [List.getElem?_eq_none hl] at h; cases h
    simp [hlt]
  · rfl

theorem restore_id_other (cpus : List cpu) (c : cpu) (b k : Nat) (hk : 1 ≤ k) :
    (cpus.set 0 { c with id := b })[k]? = cpus[k]? := by
  rw [List.getElem?_set, if_neg (by omega)]

/-- C20: the failing input of `cpu_module_init`. The static registry binds
slot 0, the running boot core, to `callstacks[0]`. With the id list `[3, 0]`
(boot id 0 in second place) the loop stores the top of `callstacks[0]` in slot
1 and the top of `callstacks[1]` in slot 0: the core with id 3 is given the
stack the boot core runs on. For every registry and id list of length
`count ≤ MAX_CPUS` below `2 ^ 32` the function returns; the slot indices of
its iterations are a permutation of `0, ..., count-1` and the array after the
loop is the array after exactly these stores; slots from `count` on are
unchanged; the slot of iteration `p` ends with the top of `callstacks[p]`, so
the `stack_bottom` fields of slots `0..count-1` are pairwise distinct. The top
of `callstacks[0]` stays in slot 0 when the boot id is the first entry and
goes to slot `count - 1` otherwise. -/
theorem cpu_module_init_boot_stack :
    (demo_state.cpus.map (fun c => (c.id, c.stack_bottom)) = [(0, some 0), (0, none)]) ∧
    (∃ s1 : State demo, cpu_module_init demo_state [3, 0] 2 = some s1 ∧
      s1.cpus.map (fun c => (c.id, c.stack_bottom)) = [(0, some 1), (3, some 0)]) ∧
    (∀ (P : Platform) (s : State P) (ids : List Nat) (c0 : cpu),
      s.cpus[0]? = some c0 → ids.length ≤ s.cpus.length → ids.length < 2 ^ 32 →
      ∃ (σ : List Nat) (j1 : Nat) (f1 : Bool) (cpus1 : List cpu) (s1 : State P),
        cpu_module_init_trace s ids ids.length = some σ ∧
        σ.Perm (List.range ids.length) ∧
        cpu_module_init_loop c0.id ids ids.length 0 ids.length false s.cpus =
          some (j1, f1, cpus1) ∧
        cpu_module_init_replay ids σ 0 s.cpus = some cpus1 ∧
        cpu_module_init s ids ids.length = some s1 ∧
        s1.cpus.length = s.cpus.length ∧
        (∀ k : Nat, ids.length ≤ k → s1.cpus[k]? = s.cpus[k]?) ∧
        (∀ p slot : Nat, σ[p]? = some slot →
          slot < ids.length ∧ (s1.cpus[slot]?).map cpu.stack_bottom = some (some p)) ∧
        ((s1.cpus.take ids.length).map cpu.stack_bottom).Perm
          ((List.range ids.length).map some) ∧
        ((s1.cpus.take ids.length).map cpu.stack_bottom).Nodup ∧
        (ids[0]? = some c0.id →
          (s1.cpus[0]?).map cpu.stack_bottom = some (some 0)) ∧
        (2 ≤ ids.length → ids[0]? ≠ some c0.id →
          (s1.cpus[ids.length - 1]?).map cpu.stack_bottom = some (some 0) ∧
          ∃ p : Nat, 1 ≤ p ∧ (s1.cpus[0]?).map cpu.stack_bottom = some (some p))) := by
  refine ⟨by decide, ⟨_, rfl, by decide⟩, ?_⟩
  intro P s ids c0 h0 hle h32
  have hp32 : (2 : Nat) ^ 32 = 4294967296 := by norm_num
  obtain ⟨σ, s1, htrace, hperm, hinit, hrow, hnd⟩ := cpu_module_init_stacks P s ids c0 h0 hle h32
  obtain ⟨j1, f1, cpus1, hloop, hs1⟩ := cpu_module_init_unfold s s1 ids ids.length c0 h0 h32 hinit
  obtain ⟨σ1, hσ1, hrep⟩ := loop_replay c0.id ids _ _ _ _ _ _ _ _ hloop
  have hmod : ids.length % 2 ^ 32 = ids.length := Nat.mod_eq_of_lt h32
  have hσeq : σ1 = σ := by
    unfold cpu_module_init_trace at htrace
    rw [h0] at htrace
    simp only [hmod] at htrace
    rw [hσ1] at htrace
    exact Option.some.inj htrace
  subst hσeq
  have hmem : ∀ k : Nat, k ∈ σ1 ↔ k < ids.length := by
    intro k
    rw [hperm.mem_iff, List.mem_range]
  have hσnd : σ1.Nodup := (hperm.nodup_iff).2 (List.nodup_range _)
  have hlen1 : cpus1.length = s.cpus.length := replay_length ids σ1 0 s.cpus cpus1 hrep
  have hstack : ∀ k : Nat, (s1.cpus[k]?).map cpu.stack_bottom =
      (cpus1[k]?).map cpu.stack_bottom := by
    intro k
    rcases hs1 with ⟨_, he⟩ | ⟨_, c, hc, he⟩
    · rw [he]
    · rw [he]
      exact restore_id_stack cpus1 c c0.id k hc
  have hwritten : ∀ p slot : Nat, σ1[p]? = some slot →
      slot < ids.length ∧ (s1.cpus[slot]?).map cpu.stack_bottom = some (some p) := by
    intro p slot hps
    refine ⟨(hmem slot).1 (List.mem_iff_getElem?.2 ⟨p, hps⟩), ?_⟩
    obtain ⟨c, hc, hst, _⟩ := replay_written ids σ1 0 s.cpus cpus1 hrep hσnd p slot hps
    rw [hstack slot, hc]
    simp [hst]
  have hhead : 1 ≤ ids.length →
      σ1[0]? = some (if ids[0]? = some c0.id then 0 else ids.length - 1) := by
    intro h1
    obtain ⟨n, hn⟩ : ∃ n, ids.length = n + 1 := ⟨ids.length - 1, by omega⟩
    rw [hn] at hσ1 h32
    have := slots_written_head c0.id ids n σ1 h32 hσ1
    rw [hn]
    simpa using this
  refine ⟨σ1, j1, f1, cpus1, s1, htrace, hperm, hloop, hrep, hinit, ?_, ?_, hwritten, hrow, hnd,
    ?_, ?_⟩
  · rcases hs1 with ⟨_, he⟩ | ⟨_, c, _, he⟩
    · rw [he, hlen1]
    · rw [he, List.length_set, hlen1]
  · intro k hk
    have hun : cpus1[k]? = s.cpus[k]? :=
      replay_untouched ids σ1 0 s.cpus cpus1 hrep k (fun hin => by
        have := (hmem k).1 hin
        omega)
    rcases hs1 with ⟨_, he⟩ | ⟨_, c, hc, he⟩
    · rw [he, hun]
    · rw [he]
      rcases Nat.eq_zero_or_pos k with hk0 | hkpos
      · subst hk0
        rw [hun, h0] at hc
        cases hc
        have hlt : 0 < cpus1.length := by
          rw [hlen1]
          rcases Nat.lt_or_ge 0 s.cpus.length with hl | hl
          · exact hl
          · rw [List.getElem?_eq_none hl] at h0; cases h0
        rw [List.getElem?_set_self hlt, h0]
      · rw [restore_id_other cpus1 c c0.id k hkpos, hun]
  · intro hfirst
    have h1 : 1 ≤ ids.length := by
      rcases Nat.lt_or_ge 0 ids.length with hl | hl
      · exact hl
      · rw [List.getElem?_eq_none hl] at hfirst; cases hfirst
    have hh := hhead h1
    rw [if_pos hfirst] at hh
    exact (hwritten 0 0 hh).2
  · intro h2 hfirst
    have hh := hhead (by omega)
    rw [if_neg hfirst] at hh
    refine ⟨(hwritten 0 _ hh).2, ?_⟩
    have h0mem : 0 ∈ σ1 := (hmem 0).2 (by omega)
    obtain ⟨p, hp⟩ := List.mem_iff_getElem?.1 h0mem
    refine ⟨p, ?_, (hwritten p 0 hp).2⟩
    rcases Nat.eq_zero_or_pos p with hp0 | hppos
    · subst hp0
      rw [hh] at hp
      simp only [Option.some.injEq] at hp
      omega
    · exact hppos

end Hafnium
